import Mathlib

/-!
SSD1306 OLED driver (`demo/i2c/ssd1306_oled/ssd1306.c`): framebuffer model.

A shallow embedding of the drawing routines of the SSD1306 driver.  The two
file-level globals of the C source (`SSD1306_Buffer_all` and the private
`SSD1306` record) are gathered in one explicit state, `Display`, which every
routine takes and returns.  Machine integers are natural numbers or integers
with the truncations of the C conversions written out (`u8`, `u16`, `i16`).
Loops without a structural bound take a `fuel` argument and return `none`
when it runs out.
-/

namespace SSD1306

/-! ## Constants of `ssd1306.h` -/

/-- Modelled from the spec: the header `ssd1306.h` is not part of the sources;
the panel is 128 pixels wide. -/
def SSD1306_WIDTH : Nat := 128

/-- Modelled from the spec: the header `ssd1306.h` is not part of the sources;
the panel is 64 pixels high. -/
def SSD1306_HEIGHT : Nat := 64

/-- Modelled from the spec: the header `ssd1306.h` is not part of the sources;
black is colour 0. -/
def SSD1306_COLOR_BLACK : Nat := 0

/-- Modelled from the spec: the header `ssd1306.h` is not part of the sources;
white is colour 1. -/
def SSD1306_COLOR_WHITE : Nat := 1

/-! ## Machine integers -/

/-- Conversion of a C `int` value to `uint8_t`. -/
def u8 (v : Int) : Nat := (v % 256).toNat

/-- Conversion of a C `int` value to `uint16_t`. -/
def u16 (v : Int) : Nat := (v % 65536).toNat

/-- Conversion of a C `int` value to `int16_t` (two's complement wrap). -/
def i16 (v : Int) : Int := (v + 32768) % 65536 - 32768

/-- The C logical negation `!v` on an integer value. -/
def lnot (v : Nat) : Nat := if v = 0 then 1 else 0

/-! ## State -/

/-- The driver state: the static framebuffer `SSD1306_Buffer_all` and the
fields of the private `SSD1306_t` record. -/
structure Display where
  SSD1306_Buffer_all : List Nat
  CurrentX : Nat
  CurrentY : Nat
  Inverted : Nat
  Initialized : Nat
deriving DecidableEq, Repr

/-- The typing invariant of the C globals: the framebuffer has
`SSD1306_WIDTH * SSD1306_HEIGHT / 8` entries, each a `uint8_t`; the cursor
fields are `uint16_t` and the flags `uint8_t`. -/
def Display.WF (s : Display) : Prop :=
  s.SSD1306_Buffer_all.length = SSD1306_WIDTH * SSD1306_HEIGHT / 8 ∧
  (∀ b ∈ s.SSD1306_Buffer_all, b < 256) ∧
  s.CurrentX < 65536 ∧ s.CurrentY < 65536 ∧
  s.Inverted < 256 ∧ s.Initialized < 256

instance (s : Display) : Decidable s.WF := by
  unfold Display.WF
  infer_instance

/-- Byte `i` of the framebuffer. -/
def Display.byte (s : Display) (i : Nat) : Nat := s.SSD1306_Buffer_all.getD i 0

/-- The framebuffer bit of pixel `(x, y)`: bit `y mod 8` of byte
`x + (y / 8) * SSD1306_WIDTH`. -/
def Display.getBit (s : Display) (x y : Nat) : Bool :=
  (s.byte (x + (y / 8) * SSD1306_WIDTH)).testBit (y % 8)

/-- The all-black framebuffer. -/
def blackBuffer : List Nat := List.replicate (SSD1306_WIDTH * SSD1306_HEIGHT / 8) 0

/-! ## Pixel access, fill and inversion -/

/-- The loop body `SSD1306_Buffer_all[i] = ~SSD1306_Buffer_all[i];` of
`SSD1306_ToggleInvert`: the byte is promoted to `int`, complemented and stored
back as `uint8_t`. -/
def toggleStep (t : Display) (i : Nat) : Display :=
  { t with SSD1306_Buffer_all := t.SSD1306_Buffer_all.set i (u8 (-(t.byte i : Int) - 1)) }

/-- `SSD1306_ToggleInvert`: negate the invert flag and complement every byte
of the framebuffer (`i` runs over `0 .. sizeof(SSD1306_Buffer_all) - 1`). -/
def SSD1306_ToggleInvert (s : Display) : Display :=
  let s1 := { s with Inverted := lnot s.Inverted }
  (List.range (SSD1306_WIDTH * SSD1306_HEIGHT / 8)).foldl toggleStep s1

/-- The C library `memset` on a byte list: the first `n` entries become `v`. -/
def memset (buf : List Nat) (v n : Nat) : List Nat :=
  List.replicate (min n buf.length) v ++ buf.drop n

/-- `SSD1306_Fill`. -/
def SSD1306_Fill (s : Display) (color : Nat) : Display :=
  let color := if s.Inverted ≠ 0 then lnot color else color
  let v := if color = SSD1306_COLOR_BLACK then 0x00 else 0xFF
  { s with SSD1306_Buffer_all := memset s.SSD1306_Buffer_all v (SSD1306_WIDTH * SSD1306_HEIGHT / 8) }

/-- `SSD1306_DrawPixel`.  The masks are C `int` values: `1 << (y % 8)` and its
32-bit complement `~(1 << (y % 8))`; the result is stored back as `uint8_t`. -/
def SSD1306_DrawPixel (s : Display) (x y color : Nat) : Display :=
  if x ≥ SSD1306_WIDTH ∨ y ≥ SSD1306_HEIGHT then s
  else
    let color := if s.Inverted ≠ 0 then lnot color else color
    let idx := x + (y / 8) * SSD1306_WIDTH
    if color = SSD1306_COLOR_WHITE then
      let b := (s.byte idx ||| (1 <<< (y % 8))) % 256
      { s with SSD1306_Buffer_all := s.SSD1306_Buffer_all.set idx b }
    else
      let b := (s.byte idx &&& (2 ^ 32 - 1 - (1 <<< (y % 8)))) % 256
      { s with SSD1306_Buffer_all := s.SSD1306_Buffer_all.set idx b }

/-! ## Lines -/

/-- The loop `for (i = y0; i <= y1; i++) SSD1306_DrawPixel(x0, i, c);` of the
vertical branch of `SSD1306_DrawLine`; `i` is an `int16_t`. -/
def vertLoop : Nat → Display → Nat → Int → Nat → Nat → Option Display
  | 0, _, _, _, _, _ => none
  | fuel + 1, s, x0, i, y1, c =>
    if i ≤ (y1 : Int) then
      vertLoop fuel (SSD1306_DrawPixel s x0 (u16 i) c) x0 (i16 (i + 1)) y1 c
    else some s

/-- The loop `for (i = x0; i <= x1; i++) SSD1306_DrawPixel(i, y0, c);` of the
horizontal branch of `SSD1306_DrawLine`; `i` is an `int16_t`. -/
def horizLoop : Nat → Display → Int → Nat → Nat → Nat → Option Display
  | 0, _, _, _, _, _ => none
  | fuel + 1, s, i, x1, y0, c =>
    if i ≤ (x1 : Int) then
      horizLoop fuel (SSD1306_DrawPixel s (u16 i) y0 c) (i16 (i + 1)) x1 y0 c
    else some s

/-- The `while (1)` loop of `SSD1306_DrawLine`: `x0`, `y0`, `x1`, `y1` are
`uint16_t`, the other variables `int16_t`. -/
def lineLoop : Nat → Display → Nat → Nat → Nat → Nat → Int → Int → Int → Int → Int → Nat →
    Option Display
  | 0, _, _, _, _, _, _, _, _, _, _, _ => none
  | fuel + 1, s, x0, y0, x1, y1, dx, dy, sx, sy, err, c =>
    let s1 := SSD1306_DrawPixel s x0 y0 c
    if x0 = x1 ∧ y0 = y1 then some s1
    else
      let e2 := err
      let err1 := if e2 > -dx then i16 (err - dy) else err
      let x0n := if e2 > -dx then u16 ((x0 : Int) + sx) else x0
      let err2 := if e2 < dy then i16 (err1 + dx) else err1
      let y0n := if e2 < dy then u16 ((y0 : Int) + sy) else y0
      lineLoop fuel s1 x0n y0n x1 y1 dx dy sx sy err2 c

/-- `SSD1306_DrawLine`.  The swaps of the two axis-aligned branches go through
the `int16_t` temporary `tmp`. -/
def SSD1306_DrawLine (fuel : Nat) (s : Display) (x0 y0 x1 y1 c : Nat) : Option Display :=
  let x0 := if x0 ≥ SSD1306_WIDTH then SSD1306_WIDTH - 1 else x0
  let x1 := if x1 ≥ SSD1306_WIDTH then SSD1306_WIDTH - 1 else x1
  let y0 := if y0 ≥ SSD1306_HEIGHT then SSD1306_HEIGHT - 1 else y0
  let y1 := if y1 ≥ SSD1306_HEIGHT then SSD1306_HEIGHT - 1 else y1
  let dx := i16 (if x0 < x1 then (x1 : Int) - x0 else (x0 : Int) - x1)
  let dy := i16 (if y0 < y1 then (y1 : Int) - y0 else (y0 : Int) - y1)
  let sx : Int := if x0 < x1 then 1 else -1
  let sy : Int := if y0 < y1 then 1 else -1
  let err := i16 (Int.tdiv (if dx > dy then dx else -dy) 2)
  if dx = 0 then
    let y0a := if y1 < y0 then u16 (i16 y1) else y0
    let y1a := if y1 < y0 then y0 else y1
    let x0a := if x1 < x0 then u16 (i16 x1) else x0
    vertLoop fuel s x0a (i16 y0a) y1a c
  else if dy = 0 then
    let y0a := if y1 < y0 then u16 (i16 y1) else y0
    let x0a := if x1 < x0 then u16 (i16 x1) else x0
    let x1a := if x1 < x0 then x0 else x1
    horizLoop fuel s (i16 x0a) x1a y0a c
  else
    lineLoop fuel s x0 y0 x1 y1 dx dy sx sy err c

/-! ## Rectangles -/

/-- `SSD1306_DrawRectangle`; the sums are C `int` sums converted back to the
`uint16_t` parameters of `SSD1306_DrawLine`. -/
def SSD1306_DrawRectangle (fuel : Nat) (s : Display) (x y w h c : Nat) : Option Display :=
  if x ≥ SSD1306_WIDTH ∨ y ≥ SSD1306_HEIGHT then some s
  else
    let w := if x + w ≥ SSD1306_WIDTH then u16 ((SSD1306_WIDTH : Int) - x) else w
    let h := if y + h ≥ SSD1306_HEIGHT then u16 ((SSD1306_HEIGHT : Int) - y) else h
    (SSD1306_DrawLine fuel s x y (u16 ((x : Int) + w)) y c).bind fun s1 =>
    (SSD1306_DrawLine fuel s1 x (u16 ((y : Int) + h)) (u16 ((x : Int) + w))
      (u16 ((y : Int) + h)) c).bind fun s2 =>
    (SSD1306_DrawLine fuel s2 x y x (u16 ((y : Int) + h)) c).bind fun s3 =>
    SSD1306_DrawLine fuel s3 (u16 ((x : Int) + w)) y (u16 ((x : Int) + w))
      (u16 ((y : Int) + h)) c

/-- The loop `for (i = 0; i <= h; i++) SSD1306_DrawLine(x, y + i, x + w, y + i, c);`
of `SSD1306_DrawFilledRectangle`; `i` is a `uint8_t`. -/
def fillRectLoop : Nat → Nat → Display → Nat → Nat → Nat → Nat → Nat → Nat → Option Display
  | 0, _, _, _, _, _, _, _, _ => none
  | n + 1, fuel, s, x, y, w, h, i, c =>
    if i ≤ h then
      (SSD1306_DrawLine fuel s x (u16 ((y : Int) + i)) (u16 ((x : Int) + w))
        (u16 ((y : Int) + i)) c).bind fun s1 =>
      fillRectLoop n fuel s1 x y w h (u8 ((i : Int) + 1)) c
    else some s

/-- `SSD1306_DrawFilledRectangle`. -/
def SSD1306_DrawFilledRectangle (fuel : Nat) (s : Display) (x y w h c : Nat) :
    Option Display :=
  if x ≥ SSD1306_WIDTH ∨ y ≥ SSD1306_HEIGHT then some s
  else
    let w := if x + w ≥ SSD1306_WIDTH then u16 ((SSD1306_WIDTH : Int) - x) else w
    let h := if y + h ≥ SSD1306_HEIGHT then u16 ((SSD1306_HEIGHT : Int) - y) else h
    fillRectLoop fuel fuel s x y w h 0 c

/-! ## Circles -/

/-- The `while (x < y)` loop of `SSD1306_DrawCircle`; all variables are
`int16_t`, the pixel coordinates are converted to `uint16_t`. -/
def circleLoop : Nat → Display → Int → Int → Int → Int → Int → Int → Int → Nat →
    Option Display
  | 0, _, _, _, _, _, _, _, _, _ => none
  | fuel + 1, s, x0, y0, f, ddF_x, ddF_y, x, y, c =>
    if x < y then
      let y1 := if f ≥ 0 then i16 (y - 1) else y
      let ddF_y1 := if f ≥ 0 then i16 (ddF_y + 2) else ddF_y
      let f1 := if f ≥ 0 then i16 (f + ddF_y1) else f
      let x1 := i16 (x + 1)
      let ddF_x1 := i16 (ddF_x + 2)
      let f2 := i16 (f1 + ddF_x1)
      let s := SSD1306_DrawPixel s (u16 (x0 + x1)) (u16 (y0 + y1)) c
      let s := SSD1306_DrawPixel s (u16 (x0 - x1)) (u16 (y0 + y1)) c
      let s := SSD1306_DrawPixel s (u16 (x0 + x1)) (u16 (y0 - y1)) c
      let s := SSD1306_DrawPixel s (u16 (x0 - x1)) (u16 (y0 - y1)) c
      let s := SSD1306_DrawPixel s (u16 (x0 + y1)) (u16 (y0 + x1)) c
      let s := SSD1306_DrawPixel s (u16 (x0 - y1)) (u16 (y0 + x1)) c
      let s := SSD1306_DrawPixel s (u16 (x0 + y1)) (u16 (y0 - x1)) c
      let s := SSD1306_DrawPixel s (u16 (x0 - y1)) (u16 (y0 - x1)) c
      circleLoop fuel s x0 y0 f2 ddF_x1 ddF_y1 x1 y1 c
    else some s

/-- `SSD1306_DrawCircle`; `x0`, `y0`, `r` are `int16_t`. -/
def SSD1306_DrawCircle (fuel : Nat) (s : Display) (x0 y0 r : Int) (c : Nat) : Option Display :=
  let f := i16 (1 - r)
  let ddF_x : Int := 1
  let ddF_y := i16 (-2 * r)
  let x : Int := 0
  let y := r
  let s := SSD1306_DrawPixel s (u16 x0) (u16 (y0 + r)) c
  let s := SSD1306_DrawPixel s (u16 x0) (u16 (y0 - r)) c
  let s := SSD1306_DrawPixel s (u16 (x0 + r)) (u16 y0) c
  let s := SSD1306_DrawPixel s (u16 (x0 - r)) (u16 y0) c
  circleLoop fuel s x0 y0 f ddF_x ddF_y x y c

/-- The `while (x < y)` loop of `SSD1306_DrawFilledCircle`. -/
def filledCircleLoop : Nat → Nat → Display → Int → Int → Int → Int → Int → Int → Int → Nat →
    Option Display
  | 0, _, _, _, _, _, _, _, _, _, _ => none
  | n + 1, fuel, s, x0, y0, f, ddF_x, ddF_y, x, y, c =>
    if x < y then
      let y1 := if f ≥ 0 then i16 (y - 1) else y
      let ddF_y1 := if f ≥ 0 then i16 (ddF_y + 2) else ddF_y
      let f1 := if f ≥ 0 then i16 (f + ddF_y1) else f
      let x1 := i16 (x + 1)
      let ddF_x1 := i16 (ddF_x + 2)
      let f2 := i16 (f1 + ddF_x1)
      (SSD1306_DrawLine fuel s (u16 (x0 - x1)) (u16 (y0 + y1)) (u16 (x0 + x1))
        (u16 (y0 + y1)) c).bind fun s =>
      (SSD1306_DrawLine fuel s (u16 (x0 + x1)) (u16 (y0 - y1)) (u16 (x0 - x1))
        (u16 (y0 - y1)) c).bind fun s =>
      (SSD1306_DrawLine fuel s (u16 (x0 + y1)) (u16 (y0 + x1)) (u16 (x0 - y1))
        (u16 (y0 + x1)) c).bind fun s =>
      (SSD1306_DrawLine fuel s (u16 (x0 + y1)) (u16 (y0 - x1)) (u16 (x0 - y1))
        (u16 (y0 - x1)) c).bind fun s =>
      filledCircleLoop n fuel s x0 y0 f2 ddF_x1 ddF_y1 x1 y1 c
    else some s

/-- `SSD1306_DrawFilledCircle`; `x0`, `y0`, `r` are `int16_t`. -/
def SSD1306_DrawFilledCircle (fuel : Nat) (s : Display) (x0 y0 r : Int) (c : Nat) :
    Option Display :=
  let f := i16 (1 - r)
  let ddF_x : Int := 1
  let ddF_y := i16 (-2 * r)
  let x : Int := 0
  let y := r
  let s := SSD1306_DrawPixel s (u16 x0) (u16 (y0 + r)) c
  let s := SSD1306_DrawPixel s (u16 x0) (u16 (y0 - r)) c
  let s := SSD1306_DrawPixel s (u16 (x0 + r)) (u16 y0) c
  let s := SSD1306_DrawPixel s (u16 (x0 - r)) (u16 y0) c
  (SSD1306_DrawLine fuel s (u16 (x0 - r)) (u16 y0) (u16 (x0 + r)) (u16 y0) c).bind fun s =>
  filledCircleLoop fuel fuel s x0 y0 f ddF_x ddF_y x y c

/-! ## Specification vocabulary -/

/-- The pixels set in the framebuffer, as a finite set of in-range coordinates. -/
def Display.litPixels (s : Display) : Finset (Nat × Nat) :=
  (Finset.range SSD1306_WIDTH ×ˢ Finset.range SSD1306_HEIGHT).filter
    (fun p => s.getBit p.1 p.2 = true)

/-- A display whose framebuffer is all black and whose invert flag is clear. -/
def Display.Blank (s : Display) : Prop :=
  s.SSD1306_Buffer_all = blackBuffer ∧ s.Inverted = 0

instance (s : Display) : Decidable s.Blank := by
  unfold Display.Blank
  infer_instance

/-- Draw the pixels of a list in order with `SSD1306_DrawPixel`. -/
def drawPts (s : Display) (pts : List (Nat × Nat)) (c : Nat) : Display :=
  pts.foldl (fun t p => SSD1306_DrawPixel t p.1 p.2 c) s

/-- The pixels of the straight run between `(a0, b0)` and `(a1, b1)`, in the
order in which the axis-aligned branches of `SSD1306_DrawLine` visit them. -/
def runPts (a0 b0 a1 b1 : Nat) : List (Nat × Nat) :=
  if a0 = a1 then
    (List.range' (min b0 b1) (max b0 b1 + 1 - min b0 b1)).map (fun j => (a0, j))
  else
    (List.range' (min a0 a1) (max a0 a1 + 1 - min a0 a1)).map (fun i => (i, b0))

/-- Pixel `(px, py)` lies in the bounding box of `(a0, b0)` and `(a1, b1)`; for
two points sharing a column or a row this is the straight run between them. -/
def inBox (a0 b0 a1 b1 px py : Nat) : Prop :=
  min a0 a1 ≤ px ∧ px ≤ max a0 a1 ∧ min b0 b1 ≤ py ∧ py ≤ max b0 b1

instance (a0 b0 a1 b1 px py : Nat) : Decidable (inBox a0 b0 a1 b1 px py) := by
  unfold inBox
  infer_instance

/-- Pixel `(px, py)` lies on the border of the rectangle with corners
`(x, y)` and `(x2, y2)`. -/
def onBorder (x y x2 y2 px py : Nat) : Prop :=
  x ≤ px ∧ px ≤ x2 ∧ y ≤ py ∧ py ≤ y2 ∧ (px = x ∨ px = x2 ∨ py = y ∨ py = y2)

instance (x y x2 y2 px py : Nat) : Decidable (onBorder x y x2 y2 px py) := by
  unfold onBorder
  infer_instance

/-- The pixels visited by the `while (1)` loop of `SSD1306_DrawLine`, in order:
the same recursion as `lineLoop` with the calls of `SSD1306_DrawPixel` recorded
instead of performed. -/
def linePts : Nat → Nat → Nat → Nat → Nat → Int → Int → Int → Int → Int →
    Option (List (Nat × Nat))
  | 0, _, _, _, _, _, _, _, _, _ => none
  | fuel + 1, x0, y0, x1, y1, dx, dy, sx, sy, err =>
    if x0 = x1 ∧ y0 = y1 then some [(x0, y0)]
    else
      let e2 := err
      let err1 := if e2 > -dx then i16 (err - dy) else err
      let x0n := if e2 > -dx then u16 ((x0 : Int) + sx) else x0
      let err2 := if e2 < dy then i16 (err1 + dx) else err1
      let y0n := if e2 < dy then u16 ((y0 : Int) + sy) else y0
      (linePts fuel x0n y0n x1 y1 dx dy sx sy err2).map (fun l => (x0, y0) :: l)


/-! ## Text -/

/-- Conversion of a C value to `uint32_t`. -/
def u32 (v : Int) : Nat := (v % 4294967296).toNat

/-- Modelled from the spec: the type `FontDef_t` is declared in the font header,
which is not part of the sources.  A font has a glyph width and height in
pixels, a bit order, a number of bytes per glyph row, and the glyph table
`data`, whose rows are indexed from character code 32. -/
structure FontDef_t where
  width : Nat
  height : Nat
  order : Nat
  bytes : Nat
  data : List Nat
deriving DecidableEq, Repr

/-- The body of the first `k` loop of `SSD1306_Putc` (`font->order == 0`): the
test `(b << k) & 0x80` on the `uint32_t` value `b`, and the pixel drawn at
`(CurrentX + j * 8 + k, CurrentY + i)`. -/
def putcPixelMsb (color i j b : Nat) (t : Display) (k : Nat) : Display :=
  if ((b <<< k) % 4294967296) &&& 0x80 ≠ 0 then
    SSD1306_DrawPixel t (u16 ((t.CurrentX : Int) + j * 8 + k)) (u16 ((t.CurrentY : Int) + i)) color
  else
    SSD1306_DrawPixel t (u16 ((t.CurrentX : Int) + j * 8 + k)) (u16 ((t.CurrentY : Int) + i))
      (lnot color)

/-- The body of the second `k` loop of `SSD1306_Putc` (`font->order != 0`): the
test `b & (0x0001 << k)`. -/
def putcPixelLsb (color i j b : Nat) (t : Display) (k : Nat) : Display :=
  if b &&& (1 <<< k) ≠ 0 then
    SSD1306_DrawPixel t (u16 ((t.CurrentX : Int) + j * 8 + k)) (u16 ((t.CurrentY : Int) + i)) color
  else
    SSD1306_DrawPixel t (u16 ((t.CurrentX : Int) + j * 8 + k)) (u16 ((t.CurrentY : Int) + i))
      (lnot color)

/-- The body of the `j` loop of `SSD1306_Putc`: one font byte is read and up to
8 pixels are drawn; `k` runs while `k < 8 && k < font->width - j * 8`, the
difference being a `uint32_t`.  The C code reads the table without a bounds
check; a read past the end of the list is given the value 0 here, and the
statement about glyphs assumes the rows of the character are in the table. -/
def putcByte (font : FontDef_t) (ch color i : Nat) (t : Display) (j : Nat) : Display :=
  let b := font.data.getD (u32 ((((ch : Int) - 32) * font.height + i) * font.bytes + j)) 0
  if font.order = 0 then
    (List.range (min 8 (u32 ((font.width : Int) - j * 8)))).foldl (putcPixelMsb color i j b) t
  else
    (List.range (min 8 (u32 ((font.width : Int) - j * 8)))).foldl (putcPixelLsb color i j b) t

/-- The body of the `i` loop of `SSD1306_Putc`: one glyph row. -/
def putcRow (font : FontDef_t) (ch color : Nat) (t : Display) (i : Nat) : Display :=
  (List.range font.bytes).foldl (putcByte font ch color i) t

/-- `SSD1306_Putc`: the returned character and the new state. -/
def SSD1306_Putc (s : Display) (ch : Nat) (font : FontDef_t) (color : Nat) : Nat × Display :=
  let t := (List.range font.height).foldl (putcRow font ch color) s
  (ch, { t with CurrentX := u16 ((t.CurrentX : Int) + font.width) })

/-- `SSD1306_Puts` on the characters of a C string; the end of the list (or a
0 character) is the terminating NUL. -/
def SSD1306_Puts : Display → List Nat → FontDef_t → Nat → Nat × Display
  | s, [], _, _ => (0, s)
  | s, ch :: rest, font, color =>
    if ch = 0 then (0, s)
    else if (SSD1306_Putc s ch font color).1 ≠ ch then (ch, (SSD1306_Putc s ch font color).2)
    else SSD1306_Puts (SSD1306_Putc s ch font color).2 rest font color

/-! ## Bitmap images -/

/-- The body of the inner loop of `SSD1306_Image`; the pair carries the state
and the `uint32_t` bit counter `b`.  The C code reads `img` without a bounds
check; a read past the end of the list is given the value 0 here, and the
statements about images assume an image long enough that no such read occurs. -/
def imagePixel (img : List Nat) (x y start i : Nat) (tb : Display × Nat) (j : Nat) :
    Display × Nat :=
  (SSD1306_DrawPixel tb.1 (u16 ((x : Int) + j)) (u16 ((y : Int) + i))
      (u8 ((img.getD (u32 ((tb.2 : Int) / 8 + 5 + start)) 0 >>> (tb.2 % 8) : Nat) : Int) &&& 1),
    u32 ((tb.2 : Int) + 1))

/-- The body of the outer loop of `SSD1306_Image`: one image row. -/
def imageRow (img : List Nat) (x y start : Nat) (tb : Display × Nat) (i : Nat) : Display × Nat :=
  (List.range (img.getD 0 0)).foldl (imagePixel img x y start i) tb

/-- `SSD1306_Image`; `frame`, `x`, `y` are `uint8_t`. -/
def SSD1306_Image (s : Display) (img : List Nat) (frame x y : Nat) : Display :=
  if frame ≥ img.getD 2 0 then s
  else
    let start := u32 ((frame : Int) * (img.getD 3 0 + (img.getD 4 0 <<< 8 : Nat)))
    ((List.range (img.getD 1 0)).foldl (imageRow img x y start) (s, 0)).1

/-! ## Initialisation and the bus -/

/-- Modelled from the spec: the bus transport (`HAL_I2C_Write`,
`HAL_SPI_Transmit`) is not part of the sources.  A write is either one command
byte or one block of data bytes, and the bus is the log of the writes made. -/
inductive BusWrite where
  | command (b : Nat)
  | data (bytes : List Nat)
deriving DecidableEq, Repr

/-- `SSD1306_WriteCommand`: one command byte is written to the bus. -/
def SSD1306_WriteCommand (log : List BusWrite) (command : Nat) : List BusWrite :=
  log ++ [BusWrite.command command]

/-- `SSD1306_UpdateScreen`: the first `SSD1306_WIDTH * SSD1306_HEIGHT / 8`
bytes of the framebuffer are written to the bus as one data block. -/
def SSD1306_UpdateScreen (s : Display) (log : List BusWrite) : List BusWrite :=
  log ++ [BusWrite.data (s.SSD1306_Buffer_all.take (SSD1306_WIDTH * SSD1306_HEIGHT / 8))]

/-- The command bytes written by `SSD1306_Init`, in order. -/
def initCommands : List Nat :=
  [0xAE, 0x00, 0x10, 0x81, 0x7F, 0xA4, 0xA6, 0x20, 0x00, 0xB0, 0x22, 0x00, 0x07, 0xC8, 0x40,
   0xA1, 0xA8, 0x3F, 0xD3, 0x00, 0xDA, 0x12, 0xD5, 0xF0, 0xD9, 0x22, 0xDB, 0x10, 0x8D, 0x14, 0xAF]

/-- `SSD1306_Init`: the return value, the new state and the bus log.  The
delays and the reset pulse have no effect on the state or on the log. -/
def SSD1306_Init (s : Display) (log : List BusWrite) : Nat × Display × List BusWrite :=
  let log := initCommands.foldl SSD1306_WriteCommand log
  let s := SSD1306_Fill s SSD1306_COLOR_BLACK
  let log := SSD1306_UpdateScreen s log
  let s := { s with CurrentX := 0, CurrentY := 0 }
  let s := { s with Initialized := 1 }
  (1, s, log)

/-! ## Filled triangles -/

/-- The `for (curpixel = 0; curpixel <= numpixels; curpixel++)` loop of
`SSD1306_DrawFilledTriangle`; all loop variables are `int16_t`. -/
def triLoop : Nat → Nat → Display → Int → Int → Nat → Nat → Int → Int → Int → Int → Int → Int →
    Int → Int → Int → Nat → Option Display
  | 0, _, _, _, _, _, _, _, _, _, _, _, _, _, _, _, _ => none
  | n + 1, fuel, s, x, y, x3, y3, xinc1, xinc2, yinc1, yinc2, den, num, numadd, numpixels,
      curpixel, color =>
    if curpixel ≤ numpixels then
      (SSD1306_DrawLine fuel s (u16 x) (u16 y) x3 y3 color).bind fun s1 =>
      let num1 := i16 (num + numadd)
      let num2 := if num1 ≥ den then i16 (num1 - den) else num1
      let xa := if num1 ≥ den then i16 (x + xinc1) else x
      let ya := if num1 ≥ den then i16 (y + yinc1) else y
      let xb := i16 (xa + xinc2)
      let yb := i16 (ya + yinc2)
      triLoop n fuel s1 xb yb x3 y3 xinc1 xinc2 yinc1 yinc2 den num2 numadd numpixels
        (i16 (curpixel + 1)) color
    else some s

/-- `SSD1306_DrawFilledTriangle`; `ABS` is the macro of the source. -/
def SSD1306_DrawFilledTriangle (fuel : Nat) (s : Display) (x1 y1 x2 y2 x3 y3 color : Nat) :
    Option Display :=
  let deltax := i16 (if (x2 : Int) - x1 > 0 then (x2 : Int) - x1 else -((x2 : Int) - x1))
  let deltay := i16 (if (y2 : Int) - y1 > 0 then (y2 : Int) - y1 else -((y2 : Int) - y1))
  let x := i16 x1
  let y := i16 y1
  let xinc : Int := if x2 ≥ x1 then 1 else -1
  let yinc : Int := if y2 ≥ y1 then 1 else -1
  let xinc1 : Int := if deltax ≥ deltay then 0 else xinc
  let xinc2 : Int := if deltax ≥ deltay then xinc else 0
  let yinc1 : Int := if deltax ≥ deltay then yinc else 0
  let yinc2 : Int := if deltax ≥ deltay then 0 else yinc
  let den := if deltax ≥ deltay then deltax else deltay
  let num := if deltax ≥ deltay then i16 (Int.tdiv deltax 2) else i16 (Int.tdiv deltay 2)
  let numadd := if deltax ≥ deltay then deltay else deltax
  let numpixels := if deltax ≥ deltay then deltax else deltay
  triLoop fuel fuel s x y x3 y3 xinc1 xinc2 yinc1 yinc2 den num numadd numpixels 0 color

/-! ## Instrumented loops -/

/-- The states of the `while (1)` loop of `SSD1306_DrawLine` at each test of its
exit condition: the walking point and the error term; the same recursion as
`lineLoop`. -/
def lineTrace : Nat → Nat → Nat → Nat → Nat → Int → Int → Int → Int → Int →
    Option (List (Nat × Nat × Int))
  | 0, _, _, _, _, _, _, _, _, _ => none
  | fuel + 1, x0, y0, x1, y1, dx, dy, sx, sy, err =>
    if x0 = x1 ∧ y0 = y1 then some [(x0, y0, err)]
    else
      let e2 := err
      let err1 := if e2 > -dx then i16 (err - dy) else err
      let x0n := if e2 > -dx then u16 ((x0 : Int) + sx) else x0
      let err2 := if e2 < dy then i16 (err1 + dx) else err1
      let y0n := if e2 < dy then u16 ((y0 : Int) + sy) else y0
      (lineTrace fuel x0n y0n x1 y1 dx dy sx sy err2).map (fun l => (x0, y0, err) :: l)

/-- The step of the midpoint recurrence shared by `SSD1306_DrawCircle` and
`SSD1306_DrawFilledCircle`, on a state `(f, ddF_x, ddF_y, x, y)`. -/
def circleStep (q : Int × Int × Int × Int × Int) : Int × Int × Int × Int × Int :=
  let f := q.1
  let ddF_x := q.2.1
  let ddF_y := q.2.2.1
  let x := q.2.2.2.1
  let y := q.2.2.2.2
  let y1 := if f ≥ 0 then i16 (y - 1) else y
  let ddF_y1 := if f ≥ 0 then i16 (ddF_y + 2) else ddF_y
  let f1 := if f ≥ 0 then i16 (f + ddF_y1) else f
  let x1 := i16 (x + 1)
  let ddF_x1 := i16 (ddF_x + 2)
  let f2 := i16 (f1 + ddF_x1)
  (f2, ddF_x1, ddF_y1, x1, y1)

/-- The states `(f, ddF_x, ddF_y, x, y)` of the `while (x < y)` loop of
`SSD1306_DrawCircle` after each pass of its body. -/
def circleTrace : Nat → Int × Int × Int × Int × Int → Option (List (Int × Int × Int × Int × Int))
  | 0, _ => none
  | fuel + 1, q =>
    if q.2.2.2.1 < q.2.2.2.2 then (circleTrace fuel (circleStep q)).map (fun l => circleStep q :: l)
    else some []

/-- The eight pixels plotted by one pass of the loop of `SSD1306_DrawCircle`. -/
def circlePts8 (x0 y0 x y : Int) : List (Nat × Nat) :=
  [(u16 (x0 + x), u16 (y0 + y)), (u16 (x0 - x), u16 (y0 + y)),
   (u16 (x0 + x), u16 (y0 - y)), (u16 (x0 - x), u16 (y0 - y)),
   (u16 (x0 + y), u16 (y0 + x)), (u16 (x0 - y), u16 (y0 + x)),
   (u16 (x0 + y), u16 (y0 - x)), (u16 (x0 - y), u16 (y0 - x))]

/-- The starting points `(x, y)` of the calls of `SSD1306_DrawLine` made by the
loop of `SSD1306_DrawFilledTriangle`, in order; the same recursion as `triLoop`. -/
def triStarts : Nat → Int → Int → Int → Int → Int → Int → Int → Int → Int → Int → Int →
    Option (List (Nat × Nat))
  | 0, _, _, _, _, _, _, _, _, _, _, _ => none
  | n + 1, x, y, xinc1, xinc2, yinc1, yinc2, den, num, numadd, numpixels, curpixel =>
    if curpixel ≤ numpixels then
      let num1 := i16 (num + numadd)
      let num2 := if num1 ≥ den then i16 (num1 - den) else num1
      let xa := if num1 ≥ den then i16 (x + xinc1) else x
      let ya := if num1 ≥ den then i16 (y + yinc1) else y
      let xb := i16 (xa + xinc2)
      let yb := i16 (ya + yinc2)
      (triStarts n xb yb xinc1 xinc2 yinc1 yinc2 den num2 numadd numpixels
        (i16 (curpixel + 1))).map (fun l => (u16 x, u16 y) :: l)
    else some []

/-- The starting points `(x, y)` of the calls `SSD1306_DrawLine(x, y, x3, y3, color)` made
by `SSD1306_DrawFilledTriangle`, in the order of the calls: the prologue of
`SSD1306_DrawFilledTriangle` followed by `triStarts`. -/
def SSD1306_DrawFilledTriangle_calls (fuel x1 y1 x2 y2 : Nat) : Option (List (Nat × Nat)) :=
  let deltax := i16 (if (x2 : Int) - x1 > 0 then (x2 : Int) - x1 else -((x2 : Int) - x1))
  let deltay := i16 (if (y2 : Int) - y1 > 0 then (y2 : Int) - y1 else -((y2 : Int) - y1))
  let x := i16 x1
  let y := i16 y1
  let xinc : Int := if x2 ≥ x1 then 1 else -1
  let yinc : Int := if y2 ≥ y1 then 1 else -1
  let xinc1 : Int := if deltax ≥ deltay then 0 else xinc
  let xinc2 : Int := if deltax ≥ deltay then xinc else 0
  let yinc1 : Int := if deltax ≥ deltay then yinc else 0
  let yinc2 : Int := if deltax ≥ deltay then 0 else yinc
  let den := if deltax ≥ deltay then deltax else deltay
  let num := if deltax ≥ deltay then i16 (Int.tdiv deltax 2) else i16 (Int.tdiv deltay 2)
  let numadd := if deltax ≥ deltay then deltay else deltax
  let numpixels := if deltax ≥ deltay then deltax else deltay
  triStarts fuel x y xinc1 xinc2 yinc1 yinc2 den num numadd numpixels 0

/-- Calls of `SSD1306_DrawLine` from each point of a list, in order, to the
common end point `(x3, y3)`. -/
def drawLinesTo (fuel : Nat) (x3 y3 c : Nat) : Display → List (Nat × Nat) → Option Display
  | s, [] => some s
  | s, p :: rest =>
    (SSD1306_DrawLine fuel s p.1 p.2 x3 y3 c).bind fun s1 => drawLinesTo fuel x3 y3 c s1 rest

/-- Draw a list of pixels, each with its own colour, in order with
`SSD1306_DrawPixel`; an entry is `(x, y, colour)`. -/
def drawCols (s : Display) (cmds : List (Nat × Nat × Nat)) : Display :=
  cmds.foldl (fun t p => SSD1306_DrawPixel t p.1 p.2.1 p.2.2) s

/-- The second state has the framebuffer length, the cursor and the flags of the first. -/
def Display.SameFrame (s t : Display) : Prop :=
  t.SSD1306_Buffer_all.length = s.SSD1306_Buffer_all.length ∧
  t.CurrentX = s.CurrentX ∧ t.CurrentY = s.CurrentY ∧
  t.Inverted = s.Inverted ∧ t.Initialized = s.Initialized

/-- The pixel drawn by the pass `(i, j, k)` of the loops of `SSD1306_Putc` with
the cursor at `(cx, cy)` and the font byte `b`: its position and its colour. -/
def putcCmd (order color cx cy i j b k : Nat) : Nat × Nat × Nat :=
  (u16 ((cx : Int) + j * 8 + k), u16 ((cy : Int) + i),
    if order = 0 then
      (if ((b <<< k) % 4294967296) &&& 0x80 ≠ 0 then color else lnot color)
    else
      (if b &&& (1 <<< k) ≠ 0 then color else lnot color))

/-- The pixels drawn by the pass `(i, j)` of the loops of `SSD1306_Putc`. -/
def putcByteCmds (font : FontDef_t) (ch color i cx cy j : Nat) : List (Nat × Nat × Nat) :=
  (List.range (min 8 (u32 ((font.width : Int) - j * 8)))).map
    (putcCmd font.order color cx cy i j
      (font.data.getD (u32 ((((ch : Int) - 32) * font.height + i) * font.bytes + j)) 0))

/-- The pixels drawn by the pass `i` of the outer loop of `SSD1306_Putc`. -/
def putcRowCmds (font : FontDef_t) (ch color cx cy i : Nat) : List (Nat × Nat × Nat) :=
  (List.range font.bytes).flatMap (putcByteCmds font ch color i cx cy)

/-- The bit of the glyph of `ch` at row `i` and column `c`: bit `7 - c mod 8` of
font byte `((ch - 32) * height + i) * bytes + c / 8` when the font order is 0,
bit `c mod 8` of that byte otherwise. -/
def glyphBit (font : FontDef_t) (ch i c : Nat) : Bool :=
  if font.order = 0 then
    (font.data.getD (((ch - 32) * font.height + i) * font.bytes + c / 8) 0).testBit (7 - c % 8)
  else
    (font.data.getD (((ch - 32) * font.height + i) * font.bytes + c / 8) 0).testBit (c % 8)

/-- The pixel drawn by the pass `(i, j)` of the loops of `SSD1306_Image` when
the bit counter is `b`: its position and its colour. -/
def imageCmd (img : List Nat) (x y start i b j : Nat) : Nat × Nat × Nat :=
  (u16 ((x : Int) + j), u16 ((y : Int) + i),
    u8 ((img.getD (u32 ((b : Int) / 8 + 5 + start)) 0 >>> (b % 8) : Nat) : Int) &&& 1)

/-- The states of the `while (1)` loop in a call of `SSD1306_DrawLine`: the
prologue of `SSD1306_DrawLine` followed by `lineTrace`; the list is empty when
one of the two axis-aligned branches is taken. -/
def SSD1306_DrawLine_trace (fuel x0 y0 x1 y1 : Nat) : Option (List (Nat × Nat × Int)) :=
  let x0 := if x0 ≥ SSD1306_WIDTH then SSD1306_WIDTH - 1 else x0
  let x1 := if x1 ≥ SSD1306_WIDTH then SSD1306_WIDTH - 1 else x1
  let y0 := if y0 ≥ SSD1306_HEIGHT then SSD1306_HEIGHT - 1 else y0
  let y1 := if y1 ≥ SSD1306_HEIGHT then SSD1306_HEIGHT - 1 else y1
  let dx := i16 (if x0 < x1 then (x1 : Int) - x0 else (x0 : Int) - x1)
  let dy := i16 (if y0 < y1 then (y1 : Int) - y0 else (y0 : Int) - y1)
  let sx : Int := if x0 < x1 then 1 else -1
  let sy : Int := if y0 < y1 then 1 else -1
  let err := i16 (Int.tdiv (if dx > dy then dx else -dy) 2)
  if dx = 0 then some []
  else if dy = 0 then some []
  else lineTrace fuel x0 y0 x1 y1 dx dy sx sy err


/-- The pixels of the four horizontal runs drawn by one pass of the loop of
`SSD1306_DrawFilledCircle` in the state `(x, y)`: each run joins the clamped
endpoints handed to `SSD1306_DrawLine`. -/
def filledCirclePts (x0 y0 x y : Int) : List (Nat × Nat) :=
  runPts (min (u16 (x0 - x)) 127) (min (u16 (y0 + y)) 63)
      (min (u16 (x0 + x)) 127) (min (u16 (y0 + y)) 63) ++
    (runPts (min (u16 (x0 + x)) 127) (min (u16 (y0 - y)) 63)
      (min (u16 (x0 - x)) 127) (min (u16 (y0 - y)) 63) ++
    (runPts (min (u16 (x0 + y)) 127) (min (u16 (y0 + x)) 63)
      (min (u16 (x0 - y)) 127) (min (u16 (y0 + x)) 63) ++
    runPts (min (u16 (x0 + y)) 127) (min (u16 (y0 - x)) 63)
      (min (u16 (x0 - y)) 127) (min (u16 (y0 - x)) 63)))
/-! ## Machine-integer and bit-level lemmas -/

theorem width_eq : SSD1306_WIDTH = 128 := rfl

theorem height_eq : SSD1306_HEIGHT = 64 := rfl

theorem bufsize_eq : SSD1306_WIDTH * SSD1306_HEIGHT / 8 = 1024 := rfl

theorem setBit_testBit (b k j : Nat) :
    ((b ||| (1 <<< k)) % 256).testBit j = (decide (j < 8) && (b.testBit j || decide (k = j))) := by
  rw [show (256 : Nat) = 2 ^ 8 from rfl, Nat.testBit_mod_two_pow, Nat.testBit_or,
    Nat.one_shiftLeft, Nat.testBit_two_pow]

theorem clrBit_testBit (b k j : Nat) (hk : k < 8) :
    ((b &&& (2 ^ 32 - 1 - (1 <<< k))) % 256).testBit j
      = (decide (j < 8) && (b.testBit j && !decide (k = j))) := by
  have h2 : 2 ^ k < 2 ^ 32 := Nat.pow_lt_pow_right (by norm_num) (by omega)
  rw [show (256 : Nat) = 2 ^ 8 from rfl, Nat.testBit_mod_two_pow, Nat.testBit_and,
    Nat.one_shiftLeft, show 2 ^ 32 - 1 - 2 ^ k = 2 ^ 32 - (2 ^ k + 1) by omega,
    Nat.testBit_two_pow_sub_succ h2, Nat.testBit_two_pow]
  by_cases h8 : j < 8
  · have : j < 32 := by omega
    simp [h8, this]
  · simp [h8]

theorem testBit_byte_high (b j : Nat) (hb : b < 256) (hj : 8 ≤ j) : b.testBit j = false := by
  apply Nat.testBit_lt_two_pow
  calc b < 2 ^ 8 := hb
    _ ≤ 2 ^ j := Nat.pow_le_pow_right (by norm_num) hj

theorem getD_set (l : List Nat) (i j v : Nat) :
    (l.set i v).getD j 0 = if i = j ∧ i < l.length then v else l.getD j 0 := by
  simp only [List.getD_eq_getElem?_getD, List.getElem?_set]
  by_cases h : i = j
  · subst h
    by_cases h2 : i < l.length
    · simp [h2]
    · have : l[i]? = none := List.getElem?_eq_none (by omega)
      simp [h2, this]
  · simp [h]

theorem getD_lt_of_forall (l : List Nat) (i : Nat) (h : ∀ b ∈ l, b < 256) : l.getD i 0 < 256 := by
  by_cases hi : i < l.length
  · rw [List.getD_eq_getElem _ _ hi]
    exact h _ (List.getElem_mem _)
  · rw [List.getD_eq_default _ _ (by omega)]
    norm_num

/-! ## `SSD1306_DrawPixel` -/

theorem DrawPixel_oob (s : Display) (x y c : Nat)
    (h : SSD1306_WIDTH ≤ x ∨ SSD1306_HEIGHT ≤ y) : SSD1306_DrawPixel s x y c = s := by
  unfold SSD1306_DrawPixel
  rw [if_pos h]

/-- An in-range `SSD1306_DrawPixel` rewrites one byte of the framebuffer. -/
theorem DrawPixel_eq (s : Display) (x y c : Nat)
    (hx : x < SSD1306_WIDTH) (hy : y < SSD1306_HEIGHT) :
    SSD1306_DrawPixel s x y c =
      ⟨s.SSD1306_Buffer_all.set (x + (y / 8) * SSD1306_WIDTH)
          (if (if s.Inverted ≠ 0 then lnot c else c) = SSD1306_COLOR_WHITE then
            (s.byte (x + (y / 8) * SSD1306_WIDTH) ||| (1 <<< (y % 8))) % 256
          else (s.byte (x + (y / 8) * SSD1306_WIDTH) &&& (2 ^ 32 - 1 - (1 <<< (y % 8)))) % 256),
        s.CurrentX, s.CurrentY, s.Inverted, s.Initialized⟩ := by
  unfold SSD1306_DrawPixel
  rw [if_neg (by omega)]
  dsimp only
  split_ifs <;> rfl

theorem DrawPixel_frame (s : Display) (x y c : Nat) :
    (SSD1306_DrawPixel s x y c).SSD1306_Buffer_all.length = s.SSD1306_Buffer_all.length ∧
    (SSD1306_DrawPixel s x y c).CurrentX = s.CurrentX ∧
    (SSD1306_DrawPixel s x y c).CurrentY = s.CurrentY ∧
    (SSD1306_DrawPixel s x y c).Inverted = s.Inverted ∧
    (SSD1306_DrawPixel s x y c).Initialized = s.Initialized := by
  by_cases hb : x < SSD1306_WIDTH ∧ y < SSD1306_HEIGHT
  · rw [DrawPixel_eq s x y c hb.1 hb.2]
    simp
  · rw [DrawPixel_oob s x y c (by omega)]
    simp

theorem index_lt (x y : Nat) (hx : x < SSD1306_WIDTH) (hy : y < SSD1306_HEIGHT) :
    x + (y / 8) * SSD1306_WIDTH < 1024 := by
  simp only [width_eq, height_eq] at *
  omega

theorem index_inj (x y px py : Nat) (hx : x < SSD1306_WIDTH) (hpx : px < SSD1306_WIDTH)
    (h : x + (y / 8) * SSD1306_WIDTH = px + (py / 8) * SSD1306_WIDTH) (hk : y % 8 = py % 8) :
    x = px ∧ y = py := by
  simp only [width_eq] at *
  omega

/-- Bit `k` of byte `i` after `SSD1306_DrawPixel` at an in-range pixel. -/
theorem DrawPixel_testBit (s : Display) (x y c i k : Nat)
    (hlen : s.SSD1306_Buffer_all.length = 1024)
    (hx : x < SSD1306_WIDTH) (hy : y < SSD1306_HEIGHT) :
    ((SSD1306_DrawPixel s x y c).byte i).testBit k =
      if i = x + (y / 8) * SSD1306_WIDTH then
        (decide (k < 8) &&
          if k = y % 8 then
            decide ((if s.Inverted ≠ 0 then lnot c else c) = SSD1306_COLOR_WHITE)
          else (s.byte i).testBit k)
      else (s.byte i).testBit k := by
  have hidx := index_lt x y hx hy
  have hk8 : y % 8 < 8 := Nat.mod_lt _ (by norm_num)
  rw [DrawPixel_eq s x y c hx hy]
  by_cases hw : (if s.Inverted ≠ 0 then lnot c else c) = SSD1306_COLOR_WHITE
  · rw [if_pos hw]
    simp only [Display.byte, getD_set, hlen, hidx, and_true]
    by_cases hi : x + (y / 8) * SSD1306_WIDTH = i
    · subst hi
      simp only [if_true, setBit_testBit, hw, decide_True]
      by_cases hk : k = y % 8
      · simp [hk]
      · have : ¬ (y % 8 = k) := fun h => hk h.symm
        simp [hk, this]
    · have : ¬ (i = x + (y / 8) * SSD1306_WIDTH) := fun h => hi h.symm
      simp [hi, this]
  · rw [if_neg hw]
    simp only [Display.byte, getD_set, hlen, hidx, and_true]
    by_cases hi : x + (y / 8) * SSD1306_WIDTH = i
    · subst hi
      simp only [if_true, clrBit_testBit _ _ _ hk8, hw, decide_False]
      by_cases hk : k = y % 8
      · simp [hk]
      · have : ¬ (y % 8 = k) := fun h => hk h.symm
        simp [hk, this]
    · have : ¬ (i = x + (y / 8) * SSD1306_WIDTH) := fun h => hi h.symm
      simp [hi, this]

/-- The framebuffer bit of pixel `(px, py)` after `SSD1306_DrawPixel` at `(x, y)`. -/
theorem DrawPixel_getBit (s : Display) (x y c px py : Nat)
    (hlen : s.SSD1306_Buffer_all.length = 1024)
    (hpx : px < SSD1306_WIDTH) :
    (SSD1306_DrawPixel s x y c).getBit px py =
      if x = px ∧ y = py ∧ x < SSD1306_WIDTH ∧ y < SSD1306_HEIGHT then
        decide ((if s.Inverted ≠ 0 then lnot c else c) = SSD1306_COLOR_WHITE)
      else s.getBit px py := by
  by_cases hb : x < SSD1306_WIDTH ∧ y < SSD1306_HEIGHT
  · obtain ⟨hx, hy⟩ := hb
    have hk8 : py % 8 < 8 := Nat.mod_lt _ (by norm_num)
    unfold Display.getBit
    rw [DrawPixel_testBit s x y c _ _ hlen hx hy]
    by_cases hi : px + (py / 8) * SSD1306_WIDTH = x + (y / 8) * SSD1306_WIDTH
    · rw [if_pos hi]
      by_cases hk : py % 8 = y % 8
      · obtain ⟨h1, h2⟩ := index_inj x y px py hx hpx hi.symm hk.symm
        subst h1
        subst h2
        simp [hk8, hx, hy]
      · have hne : ¬ (x = px ∧ y = py ∧ x < SSD1306_WIDTH ∧ y < SSD1306_HEIGHT) := by
          rintro ⟨-, h2, -⟩
          exact hk (by rw [h2])
        rw [if_neg hk, if_neg hne, hi]
        simp [hk8]
    · have hne : ¬ (x = px ∧ y = py ∧ x < SSD1306_WIDTH ∧ y < SSD1306_HEIGHT) := by
        rintro ⟨h1, h2, -⟩
        exact hi (by rw [h1, h2])
      rw [if_neg hi, if_neg hne]
  · have hoob : SSD1306_WIDTH ≤ x ∨ SSD1306_HEIGHT ≤ y := by
      by_contra hcon
      push_neg at hcon
      exact hb ⟨hcon.1, hcon.2⟩
    rw [DrawPixel_oob s x y c hoob, if_neg]
    rintro ⟨-, -, h3, h4⟩
    exact hb ⟨h3, h4⟩

/-! ## `SSD1306_ToggleInvert` and `SSD1306_Fill` -/

theorem u8_not (b : Nat) (hb : b < 256) : u8 (-(b : Int) - 1) = 255 - b := by
  unfold u8
  omega

theorem testBit_compl (b k : Nat) (hb : b < 256) (hk : k < 8) :
    (255 - b).testBit k = !b.testBit k := by
  have h := Nat.testBit_two_pow_sub_succ (show b < 2 ^ 8 from hb) k
  rw [show 2 ^ 8 - (b + 1) = 255 - b by omega] at h
  rw [h]
  simp [hk]

theorem toggleStep_byte (t : Display) (i j : Nat) :
    (toggleStep t i).byte j =
      if i = j ∧ i < t.SSD1306_Buffer_all.length then u8 (-(t.byte i : Int) - 1)
      else t.byte j := by
  unfold toggleStep Display.byte
  exact getD_set _ _ _ _

/-- The state after the first `n` iterations of the loop of `SSD1306_ToggleInvert`. -/
theorem toggle_fold (n : Nat) (t : Display) :
    ((List.range n).foldl toggleStep t).CurrentX = t.CurrentX ∧
    ((List.range n).foldl toggleStep t).CurrentY = t.CurrentY ∧
    ((List.range n).foldl toggleStep t).Inverted = t.Inverted ∧
    ((List.range n).foldl toggleStep t).Initialized = t.Initialized ∧
    ((List.range n).foldl toggleStep t).SSD1306_Buffer_all.length
      = t.SSD1306_Buffer_all.length ∧
    ∀ j, ((List.range n).foldl toggleStep t).byte j =
        if j < n ∧ j < t.SSD1306_Buffer_all.length then u8 (-(t.byte j : Int) - 1)
        else t.byte j := by
  induction n with
  | zero => simp
  | succ n ih =>
    rw [List.range_succ, List.foldl_append]
    simp only [List.foldl_cons, List.foldl_nil]
    generalize List.foldl toggleStep t (List.range n) = r at ih ⊢
    obtain ⟨h1, h2, h3, h4, h5, h6⟩ := ih
    refine ⟨h1, h2, h3, h4, ?_, ?_⟩
    · simp [toggleStep, h5]
    · intro j
      have hnn : ¬ (n < n ∧ n < t.SSD1306_Buffer_all.length) := by omega
      rw [toggleStep_byte, h5, h6 n, h6 j, if_neg hnn]
      by_cases hj : n = j
      · subst hj
        by_cases hl : n < t.SSD1306_Buffer_all.length
        · simp [hl]
        · simp [hl]
      · by_cases hjn : j < n
        · have : j < n + 1 := by omega
          simp [hj, hjn, this]
        · have : ¬ j < n + 1 := by omega
          simp [hj, hjn, this]

theorem ToggleInvert_spec (s : Display) :
    (SSD1306_ToggleInvert s).CurrentX = s.CurrentX ∧
    (SSD1306_ToggleInvert s).CurrentY = s.CurrentY ∧
    (SSD1306_ToggleInvert s).Inverted = lnot s.Inverted ∧
    (SSD1306_ToggleInvert s).Initialized = s.Initialized ∧
    (SSD1306_ToggleInvert s).SSD1306_Buffer_all.length = s.SSD1306_Buffer_all.length ∧
    ∀ j, (SSD1306_ToggleInvert s).byte j =
      if j < 1024 ∧ j < s.SSD1306_Buffer_all.length then u8 (-(s.byte j : Int) - 1)
      else s.byte j := by
  unfold SSD1306_ToggleInvert
  exact toggle_fold (SSD1306_WIDTH * SSD1306_HEIGHT / 8) { s with Inverted := lnot s.Inverted }

theorem byte_lt (s : Display) (hs : s.WF) (i : Nat) : s.byte i < 256 :=
  getD_lt_of_forall _ _ hs.2.1

theorem buffer_ext (a b : List Nat) (hlen : a.length = b.length)
    (h : ∀ j, j < a.length → a.getD j 0 = b.getD j 0) : a = b := by
  apply List.ext_getElem hlen
  intro n h1 h2
  have := h n h1
  rwa [List.getD_eq_getElem _ _ h1, List.getD_eq_getElem _ _ h2] at this

theorem memset_full (buf : List Nat) (v : Nat) (h : buf.length = 1024) :
    memset buf v (SSD1306_WIDTH * SSD1306_HEIGHT / 8) = List.replicate 1024 v := by
  unfold memset
  rw [bufsize_eq, h, List.drop_of_length_le (by omega), Nat.min_self, List.append_nil]

theorem blank_WF (cx cy inv ini : Nat) (h1 : cx < 65536) (h2 : cy < 65536) (h3 : inv < 256)
    (h4 : ini < 256) : (Display.mk blackBuffer cx cy inv ini).WF := by
  refine ⟨by simp only [blackBuffer, List.length_replicate], ?_, h1, h2, h3, h4⟩
  intro b hb
  simp only [blackBuffer, List.mem_replicate] at hb
  omega

/-! ## Claims C1 to C5: pixel access, inversion and fill -/

/-- C1: for a well-typed display state, an in-range pixel `(x, y)` and a colour
in {black, white}, the byte index `x + (y / 8) * 128` lies inside the 1024-byte
framebuffer; after `SSD1306_DrawPixel` bit `y mod 8` of that byte is 1 exactly
when "colour is white" differs from "invert flag is set"; every other bit of
the framebuffer, the framebuffer length, the cursor and both flags are
unchanged. -/
theorem C1_DrawPixel_in_range (s : Display) (hs : s.WF) (x y c : Nat)
    (hx : x < SSD1306_WIDTH) (hy : y < SSD1306_HEIGHT)
    (hc : c = SSD1306_COLOR_BLACK ∨ c = SSD1306_COLOR_WHITE) :
    x + (y / 8) * SSD1306_WIDTH < s.SSD1306_Buffer_all.length ∧
    s.SSD1306_Buffer_all.length = 1024 ∧
    (((SSD1306_DrawPixel s x y c).byte (x + (y / 8) * SSD1306_WIDTH)).testBit (y % 8) = true ↔
      ¬ (c = SSD1306_COLOR_WHITE ↔ s.Inverted ≠ 0)) ∧
    (∀ i k, ¬ (i = x + (y / 8) * SSD1306_WIDTH ∧ k = y % 8) →
      ((SSD1306_DrawPixel s x y c).byte i).testBit k = (s.byte i).testBit k) ∧
    (SSD1306_DrawPixel s x y c).SSD1306_Buffer_all.length = s.SSD1306_Buffer_all.length ∧
    (SSD1306_DrawPixel s x y c).CurrentX = s.CurrentX ∧
    (SSD1306_DrawPixel s x y c).CurrentY = s.CurrentY ∧
    (SSD1306_DrawPixel s x y c).Inverted = s.Inverted ∧
    (SSD1306_DrawPixel s x y c).Initialized = s.Initialized := by
  have hlen : s.SSD1306_Buffer_all.length = 1024 := hs.1
  have hidx := index_lt x y hx hy
  have hk8 : y % 8 < 8 := Nat.mod_lt _ (by norm_num)
  refine ⟨by omega, hlen, ?_, ?_, DrawPixel_frame s x y c⟩
  · rw [DrawPixel_testBit s x y c _ _ hlen hx hy]
    simp only [if_true, hk8, decide_True, Bool.true_and, decide_eq_true_eq]
    rcases hc with rfl | rfl <;> by_cases hi : s.Inverted = 0 <;>
      simp [hi, lnot, SSD1306_COLOR_BLACK, SSD1306_COLOR_WHITE]
  · intro i k hik
    rw [DrawPixel_testBit s x y c _ _ hlen hx hy]
    by_cases hi : i = x + (y / 8) * SSD1306_WIDTH
    · have hk : ¬ k = y % 8 := fun h => hik ⟨hi, h⟩
      rw [if_pos hi, if_neg hk]
      by_cases h8 : k < 8
      · simp [h8]
      · rw [testBit_byte_high _ _ (byte_lt s hs i) (by omega)]
        simp
    · rw [if_neg hi]

/-- Witness for C1: the pixel (5, 10) drawn white on a blank display. -/
theorem C1_DrawPixel_in_range_witness :
    (Display.mk blackBuffer 0 0 0 1).WF ∧
    (((SSD1306_DrawPixel (Display.mk blackBuffer 0 0 0 1) 5 10 1).byte
        (5 + (10 / 8) * SSD1306_WIDTH)).testBit (10 % 8) = true ↔
      ¬ ((1 : Nat) = SSD1306_COLOR_WHITE ↔ (Display.mk blackBuffer 0 0 0 1).Inverted ≠ 0)) :=
  ⟨blank_WF 0 0 0 1 (by decide) (by decide) (by decide) (by decide),
    (C1_DrawPixel_in_range (Display.mk blackBuffer 0 0 0 1)
      (blank_WF 0 0 0 1 (by decide) (by decide) (by decide) (by decide)) 5 10 1
      (by decide) (by decide) (Or.inr rfl)).2.2.1⟩

/-- C2 as stated fails: on a display whose invert flag is set, drawing pixel
(0, 0) white leaves its framebuffer bit at 0. -/
theorem C2_counterexample :
    ¬ (∀ (s : Display) (x y : Nat), s.WF → x < SSD1306_WIDTH → y < SSD1306_HEIGHT →
        (SSD1306_DrawPixel s x y SSD1306_COLOR_WHITE).getBit x y = true ∧
        (SSD1306_DrawPixel s x y SSD1306_COLOR_BLACK).getBit x y = false) := by
  intro h
  have h1 := (h (Display.mk blackBuffer 0 0 1 0) 0 0
    (blank_WF 0 0 1 0 (by decide) (by decide) (by decide) (by decide))
    (by decide) (by decide)).1
  rw [DrawPixel_getBit _ _ _ _ _ _ (by simp only [blackBuffer, List.length_replicate, bufsize_eq])
    (by decide)] at h1
  simp [lnot, SSD1306_COLOR_WHITE, SSD1306_WIDTH, SSD1306_HEIGHT] at h1

/-- C2 (amended): for an in-range pixel `(x, y)`, when the invert flag is clear
the framebuffer bit of `(x, y)` is 1 after drawing white and 0 after drawing
black; when the invert flag is set it is 0 after drawing white and 1 after
drawing black. -/
theorem C2_DrawPixel_then_getBit (s : Display) (hs : s.WF) (x y : Nat)
    (hx : x < SSD1306_WIDTH) (hy : y < SSD1306_HEIGHT) :
    (s.Inverted = 0 →
      (SSD1306_DrawPixel s x y SSD1306_COLOR_WHITE).getBit x y = true ∧
      (SSD1306_DrawPixel s x y SSD1306_COLOR_BLACK).getBit x y = false) ∧
    (s.Inverted ≠ 0 →
      (SSD1306_DrawPixel s x y SSD1306_COLOR_WHITE).getBit x y = false ∧
      (SSD1306_DrawPixel s x y SSD1306_COLOR_BLACK).getBit x y = true) := by
  have hlen : s.SSD1306_Buffer_all.length = 1024 := hs.1
  rw [DrawPixel_getBit s x y _ x y hlen hx, DrawPixel_getBit s x y _ x y hlen hx]
  constructor
  · intro hi
    simp [hi, hx, hy, lnot, SSD1306_COLOR_BLACK, SSD1306_COLOR_WHITE]
  · intro hi
    simp [hi, hx, hy, lnot, SSD1306_COLOR_BLACK, SSD1306_COLOR_WHITE]

/-- Witness for C2 (amended): pixel (127, 63) on a blank display. -/
theorem C2_DrawPixel_then_getBit_witness :
    (Display.mk blackBuffer 3 4 0 1).WF ∧ 127 < SSD1306_WIDTH ∧ 63 < SSD1306_HEIGHT ∧
    ((Display.mk blackBuffer 3 4 0 1).Inverted = 0 →
      (SSD1306_DrawPixel (Display.mk blackBuffer 3 4 0 1) 127 63 SSD1306_COLOR_WHITE).getBit
        127 63 = true ∧
      (SSD1306_DrawPixel (Display.mk blackBuffer 3 4 0 1) 127 63 SSD1306_COLOR_BLACK).getBit
        127 63 = false) :=
  ⟨blank_WF 3 4 0 1 (by decide) (by decide) (by decide) (by decide), by decide, by decide,
    (C2_DrawPixel_then_getBit (Display.mk blackBuffer 3 4 0 1)
      (blank_WF 3 4 0 1 (by decide) (by decide) (by decide) (by decide)) 127 63
      (by decide) (by decide)).1⟩

/-- C3: `SSD1306_DrawPixel` with `x ≥ 128` or `y ≥ 64` returns the state it was
given: framebuffer, cursor and flags are all unchanged, for every state and
every colour. -/
theorem C3_DrawPixel_out_of_range (s : Display) (x y c : Nat)
    (h : SSD1306_WIDTH ≤ x ∨ SSD1306_HEIGHT ≤ y) :
    SSD1306_DrawPixel s x y c = s :=
  DrawPixel_oob s x y c h

/-- Witness for C3: the pixel (128, 0) is just outside the panel. -/
theorem C3_DrawPixel_out_of_range_witness :
    (SSD1306_WIDTH ≤ 128 ∨ SSD1306_HEIGHT ≤ 0) ∧
    SSD1306_DrawPixel (Display.mk blackBuffer 0 0 0 1) 128 0 1 = Display.mk blackBuffer 0 0 0 1 :=
  ⟨Or.inl (by decide),
    C3_DrawPixel_out_of_range (Display.mk blackBuffer 0 0 0 1) 128 0 1 (Or.inl (by decide))⟩

/-- C4: on a well-typed display state each `SSD1306_ToggleInvert` complements
every one of the 1024 framebuffer bytes and leaves the cursor alone; two calls
restore the framebuffer byte for byte and restore the truth value of the
invert flag. -/
theorem C4_ToggleInvert_twice (s : Display) (hs : s.WF) :
    (∀ i, i < 1024 → (SSD1306_ToggleInvert s).byte i = 255 - s.byte i) ∧
    (∀ i k, i < 1024 → k < 8 →
      ((SSD1306_ToggleInvert s).byte i).testBit k = !(s.byte i).testBit k) ∧
    ((SSD1306_ToggleInvert s).Inverted ≠ 0 ↔ s.Inverted = 0) ∧
    (SSD1306_ToggleInvert s).CurrentX = s.CurrentX ∧
    (SSD1306_ToggleInvert s).CurrentY = s.CurrentY ∧
    (SSD1306_ToggleInvert (SSD1306_ToggleInvert s)).SSD1306_Buffer_all
      = s.SSD1306_Buffer_all ∧
    ((SSD1306_ToggleInvert (SSD1306_ToggleInvert s)).Inverted ≠ 0 ↔ s.Inverted ≠ 0) ∧
    (SSD1306_ToggleInvert (SSD1306_ToggleInvert s)).CurrentX = s.CurrentX ∧
    (SSD1306_ToggleInvert (SSD1306_ToggleInvert s)).CurrentY = s.CurrentY ∧
    (SSD1306_ToggleInvert (SSD1306_ToggleInvert s)).Initialized = s.Initialized := by
  have hlen : s.SSD1306_Buffer_all.length = 1024 := hs.1
  obtain ⟨a1, a2, a3, a4, a5, a6⟩ := ToggleInvert_spec s
  obtain ⟨b1, b2, b3, b4, b5, b6⟩ := ToggleInvert_spec (SSD1306_ToggleInvert s)
  have hone : ∀ i, i < 1024 → (SSD1306_ToggleInvert s).byte i = 255 - s.byte i := by
    intro i hi
    rw [a6 i, if_pos ⟨hi, by omega⟩, u8_not _ (byte_lt s hs i)]
  refine ⟨hone, ?_, ?_, a1, a2, ?_, ?_, by rw [b1, a1], by rw [b2, a2], by rw [b4, a4]⟩
  · intro i k hi hk
    rw [hone i hi, testBit_compl _ _ (byte_lt s hs i) hk]
  · rw [a3]
    unfold lnot
    split_ifs with h <;> simp [h]
  · apply buffer_ext _ _ (by rw [b5, a5])
    intro j hj
    rw [b5, a5, hlen] at hj
    have hb := byte_lt s hs j
    have h2 := b6 j
    rw [if_pos ⟨hj, by omega⟩, hone j hj, u8_not _ (by omega)] at h2
    unfold Display.byte at h2 hb
    rw [h2]
    omega
  · rw [b3, a3]
    unfold lnot
    split_ifs with h1 h2 h2 <;> simp_all

/-- Witness for C4: a blank display with the invert flag set. -/
theorem C4_ToggleInvert_twice_witness :
    (Display.mk blackBuffer 7 9 1 1).WF ∧
    (SSD1306_ToggleInvert (SSD1306_ToggleInvert (Display.mk blackBuffer 7 9 1 1))).SSD1306_Buffer_all
      = blackBuffer :=
  ⟨blank_WF 7 9 1 1 (by decide) (by decide) (by decide) (by decide),
    (C4_ToggleInvert_twice (Display.mk blackBuffer 7 9 1 1)
      (blank_WF 7 9 1 1 (by decide) (by decide) (by decide) (by decide))).2.2.2.2.2.1⟩

/-- C5: on a well-typed display state and for a colour in {black, white},
`SSD1306_Fill` leaves 1024 framebuffer bytes, each 0xFF when "colour is white"
differs from "invert flag is set" and 0x00 otherwise, and touches nothing else;
hence the framebuffer after fill(black) then fill(white) is the bytewise
complement of the framebuffer after fill(black) alone. -/
theorem C5_Fill (s : Display) (hs : s.WF) (c : Nat)
    (hc : c = SSD1306_COLOR_BLACK ∨ c = SSD1306_COLOR_WHITE) :
    (SSD1306_Fill s c).SSD1306_Buffer_all =
      List.replicate 1024
        (if ¬ (c = SSD1306_COLOR_WHITE ↔ s.Inverted ≠ 0) then 0xFF else 0x00) ∧
    (SSD1306_Fill s c).Inverted = s.Inverted ∧
    (SSD1306_Fill s c).CurrentX = s.CurrentX ∧
    (SSD1306_Fill s c).CurrentY = s.CurrentY ∧
    (SSD1306_Fill s c).Initialized = s.Initialized ∧
    (SSD1306_Fill (SSD1306_Fill s SSD1306_COLOR_BLACK) SSD1306_COLOR_WHITE).SSD1306_Buffer_all =
      (SSD1306_Fill s SSD1306_COLOR_BLACK).SSD1306_Buffer_all.map (fun b => 255 - b) := by
  have hlen : s.SSD1306_Buffer_all.length = 1024 := hs.1
  have key : ∀ (t : Display) (d : Nat), t.SSD1306_Buffer_all.length = 1024 →
      (d = SSD1306_COLOR_BLACK ∨ d = SSD1306_COLOR_WHITE) →
      (SSD1306_Fill t d).SSD1306_Buffer_all =
        List.replicate 1024
          (if ¬ (d = SSD1306_COLOR_WHITE ↔ t.Inverted ≠ 0) then 0xFF else 0x00) := by
    intro t d ht hd
    unfold SSD1306_Fill
    dsimp only
    rw [memset_full _ _ ht]
    congr 1
    rcases hd with rfl | rfl <;> by_cases hi : t.Inverted = 0 <;>
      simp [hi, lnot, SSD1306_COLOR_BLACK, SSD1306_COLOR_WHITE]
  refine ⟨key s c hlen hc, rfl, rfl, rfl, rfl, ?_⟩
  have h1 := key s SSD1306_COLOR_BLACK hlen (Or.inl rfl)
  have h2 := key (SSD1306_Fill s SSD1306_COLOR_BLACK) SSD1306_COLOR_WHITE
    (by rw [h1, List.length_replicate]) (Or.inr rfl)
  rw [h2, h1, List.map_replicate]
  congr 1
  have hinv : (SSD1306_Fill s SSD1306_COLOR_BLACK).Inverted = s.Inverted := rfl
  rw [hinv]
  by_cases hi : s.Inverted = 0 <;> simp [hi, SSD1306_COLOR_BLACK, SSD1306_COLOR_WHITE]

/-- Witness for C5: filling a blank, non-inverted display white. -/
theorem C5_Fill_witness :
    (Display.mk blackBuffer 0 0 0 1).WF ∧
    (SSD1306_Fill (Display.mk blackBuffer 0 0 0 1) SSD1306_COLOR_WHITE).SSD1306_Buffer_all =
      List.replicate 1024
        (if ¬ (SSD1306_COLOR_WHITE = SSD1306_COLOR_WHITE ↔
            (Display.mk blackBuffer 0 0 0 1).Inverted ≠ 0) then 0xFF else 0x00) :=
  ⟨blank_WF 0 0 0 1 (by decide) (by decide) (by decide) (by decide),
    (C5_Fill (Display.mk blackBuffer 0 0 0 1)
      (blank_WF 0 0 0 1 (by decide) (by decide) (by decide) (by decide))
      SSD1306_COLOR_WHITE (Or.inr rfl)).1⟩

/-! ## Drawing a list of pixels -/

theorem drawPts_nil (s : Display) (c : Nat) : drawPts s [] c = s := rfl

theorem drawPts_cons (s : Display) (p : Nat × Nat) (pts : List (Nat × Nat)) (c : Nat) :
    drawPts s (p :: pts) c = drawPts (SSD1306_DrawPixel s p.1 p.2 c) pts c := rfl

theorem drawPts_append (s : Display) (l1 l2 : List (Nat × Nat)) (c : Nat) :
    drawPts s (l1 ++ l2) c = drawPts (drawPts s l1 c) l2 c := by
  unfold drawPts
  rw [List.foldl_append]

theorem drawPts_frame (pts : List (Nat × Nat)) (c : Nat) (s : Display) :
    (drawPts s pts c).SSD1306_Buffer_all.length = s.SSD1306_Buffer_all.length ∧
    (drawPts s pts c).CurrentX = s.CurrentX ∧
    (drawPts s pts c).CurrentY = s.CurrentY ∧
    (drawPts s pts c).Inverted = s.Inverted ∧
    (drawPts s pts c).Initialized = s.Initialized := by
  induction pts generalizing s with
  | nil => simp [drawPts_nil]
  | cons p pts ih =>
    rw [drawPts_cons]
    obtain ⟨h1, h2, h3, h4, h5⟩ := ih (SSD1306_DrawPixel s p.1 p.2 c)
    obtain ⟨g1, g2, g3, g4, g5⟩ := DrawPixel_frame s p.1 p.2 c
    exact ⟨h1.trans g1, h2.trans g2, h3.trans g3, h4.trans g4, h5.trans g5⟩

/-- On a display with the invert flag clear, drawing a list of pixels white
sets exactly the in-range pixels of the list. -/
theorem drawPts_getBit (pts : List (Nat × Nat)) (s : Display) (px py : Nat)
    (hlen : s.SSD1306_Buffer_all.length = 1024) (hinv : s.Inverted = 0)
    (hpx : px < SSD1306_WIDTH) (hpy : py < SSD1306_HEIGHT) :
    ((drawPts s pts SSD1306_COLOR_WHITE).getBit px py = true ↔
      s.getBit px py = true ∨ (px, py) ∈ pts) := by
  induction pts generalizing s with
  | nil => simp [drawPts_nil]
  | cons p pts ih =>
    rw [drawPts_cons]
    obtain ⟨g1, -, -, g4, -⟩ := DrawPixel_frame s p.1 p.2 SSD1306_COLOR_WHITE
    rw [ih _ (g1.trans hlen) (g4.trans hinv), DrawPixel_getBit s _ _ _ px py hlen hpx]
    simp only [hinv, ne_eq, not_true_eq_false, if_false, decide_True, List.mem_cons]
    by_cases hp : p.1 = px ∧ p.2 = py
    · have hpe : (px, py) = p := by
        obtain ⟨h1, h2⟩ := hp
        exact Prod.ext h1.symm h2.symm
      have hc : p.1 = px ∧ p.2 = py ∧ p.1 < SSD1306_WIDTH ∧ p.2 < SSD1306_HEIGHT :=
        ⟨hp.1, hp.2, by rw [hp.1]; exact hpx, by rw [hp.2]; exact hpy⟩
      rw [if_pos hc]
      simp [hpe]
    · have hc : ¬ (p.1 = px ∧ p.2 = py ∧ p.1 < SSD1306_WIDTH ∧ p.2 < SSD1306_HEIGHT) :=
        fun h => hp ⟨h.1, h.2.1⟩
      have hne : ¬ (px, py) = p := by
        intro h
        apply hp
        rw [← h]
        exact ⟨rfl, rfl⟩
      rw [if_neg hc]
      simp [hne]

theorem blackBuffer_length : blackBuffer.length = 1024 := by
  simp only [blackBuffer, List.length_replicate, bufsize_eq]

theorem blank_getBit (s : Display) (hs : s.Blank) (px py : Nat) : s.getBit px py = false := by
  unfold Display.getBit Display.byte
  rw [hs.1]
  have : blackBuffer.getD (px + py / 8 * SSD1306_WIDTH) 0 = 0 := by
    rw [List.getD_eq_getElem?_getD]
    unfold blackBuffer
    rw [List.getElem?_replicate]
    split_ifs <;> rfl
  rw [this]
  exact Nat.zero_testBit _

theorem blank_length (s : Display) (hs : s.Blank) : s.SSD1306_Buffer_all.length = 1024 := by
  rw [hs.1]
  exact blackBuffer_length

/-! ## The axis-aligned branches of `SSD1306_DrawLine` -/

theorem u16_ofNat (n : Nat) (h : n < 65536) : u16 (n : Int) = n := by
  unfold u16
  omega

theorem i16_id (v : Int) (h1 : -32768 ≤ v) (h2 : v < 32768) : i16 v = v := by
  unfold i16
  omega

theorem vertLoop_spec (x0 y1 c : Nat) (hy1 : y1 < 32767) (n : Nat) :
    ∀ (fuel : Nat) (s : Display) (i : Nat), i + n = y1 + 1 → n < fuel →
      vertLoop fuel s x0 (i : Int) y1 c =
        some (drawPts s ((List.range' i n).map (fun j => (x0, j))) c) := by
  induction n with
  | zero =>
    intro fuel s i hi hf
    obtain ⟨f, rfl⟩ : ∃ f, fuel = f + 1 := ⟨fuel - 1, by omega⟩
    unfold vertLoop
    rw [if_neg (by omega)]
    rfl
  | succ n ih =>
    intro fuel s i hi hf
    obtain ⟨f, rfl⟩ : ∃ f, fuel = f + 1 := ⟨fuel - 1, by omega⟩
    unfold vertLoop
    rw [if_pos (by omega), u16_ofNat i (by omega), i16_id _ (by omega) (by omega)]
    have := ih f (SSD1306_DrawPixel s x0 i c) (i + 1) (by omega) (by omega)
    rw [Nat.cast_add, Nat.cast_one] at this
    rw [this]
    rfl

theorem horizLoop_spec (x1 y0 c : Nat) (hx1 : x1 < 32767) (n : Nat) :
    ∀ (fuel : Nat) (s : Display) (i : Nat), i + n = x1 + 1 → n < fuel →
      horizLoop fuel s (i : Int) x1 y0 c =
        some (drawPts s ((List.range' i n).map (fun j => (j, y0))) c) := by
  induction n with
  | zero =>
    intro fuel s i hi hf
    obtain ⟨f, rfl⟩ : ∃ f, fuel = f + 1 := ⟨fuel - 1, by omega⟩
    unfold horizLoop
    rw [if_neg (by omega)]
    rfl
  | succ n ih =>
    intro fuel s i hi hf
    obtain ⟨f, rfl⟩ : ∃ f, fuel = f + 1 := ⟨fuel - 1, by omega⟩
    unfold horizLoop
    rw [if_pos (by omega), u16_ofNat i (by omega), i16_id _ (by omega) (by omega)]
    have := ih f (SSD1306_DrawPixel s i y0 c) (i + 1) (by omega) (by omega)
    rw [Nat.cast_add, Nat.cast_one] at this
    rw [this]
    rfl

theorem clamp_w (v : Nat) : (if v ≥ SSD1306_WIDTH then SSD1306_WIDTH - 1 else v) = min v 127 := by
  simp only [width_eq]
  split_ifs <;> omega

theorem clamp_h (v : Nat) : (if v ≥ SSD1306_HEIGHT then SSD1306_HEIGHT - 1 else v) = min v 63 := by
  simp only [height_eq]
  split_ifs <;> omega

theorem absdiff_i16 (a b : Nat) (ha : a ≤ 127) (hb : b ≤ 127) :
    i16 (if a < b then (b : Int) - a else (a : Int) - b) = ((max a b - min a b : Nat) : Int) := by
  split_ifs <;> rw [i16_id _ (by omega) (by omega)] <;> omega

theorem u16_i16_ofNat (n : Nat) (h : n < 32768) : u16 (i16 (n : Int)) = n := by
  rw [i16_id _ (by omega) (by omega), u16_ofNat _ (by omega)]

theorem i16_ofNat (n : Nat) (h : n < 32768) : i16 (n : Int) = n :=
  i16_id _ (by omega) (by omega)

/-- `SSD1306_DrawLine` on already clamped endpoints sharing a column. -/
theorem DrawLine_vertical (fuel : Nat) (s : Display) (x0 y0 x1 y1 c : Nat) (hf : 129 ≤ fuel)
    (hax : min x0 127 = min x1 127) :
    SSD1306_DrawLine fuel s x0 y0 x1 y1 c =
      some (drawPts s (runPts (min x0 127) (min y0 63) (min x1 127) (min y1 63)) c) := by
  unfold SSD1306_DrawLine
  simp only [clamp_w, clamp_h]
  have ha0 : min x0 127 ≤ 127 := Nat.min_le_right _ _
  have hb0 : min y0 63 ≤ 63 := Nat.min_le_right _ _
  have hb1 : min y1 63 ≤ 63 := Nat.min_le_right _ _
  rw [← hax]
  generalize min x0 127 = a at ha0 ⊢
  generalize min y0 63 = b0 at hb0 ⊢
  generalize min y1 63 = b1 at hb1 ⊢
  rw [absdiff_i16 a a ha0 ha0]
  have h0 : ((max a a - min a a : Nat) : Int) = 0 := by simp
  rw [if_pos h0]
  simp only [lt_irrefl, if_false]
  unfold runPts
  rw [if_pos rfl]
  by_cases hlt : b1 < b0
  · simp only [hlt, if_true]
    rw [u16_i16_ofNat b1 (by omega), i16_ofNat b1 (by omega),
      vertLoop_spec a b0 c (by omega) (b0 + 1 - b1) fuel s b1 (by omega) (by omega)]
    rw [show min b0 b1 = b1 by omega, show max b0 b1 = b0 by omega]
  · simp only [hlt, if_false]
    rw [i16_ofNat b0 (by omega),
      vertLoop_spec a b1 c (by omega) (b1 + 1 - b0) fuel s b0 (by omega) (by omega)]
    rw [show min b0 b1 = b0 by omega, show max b0 b1 = b1 by omega]

/-- `SSD1306_DrawLine` on clamped endpoints sharing a row but not a column. -/
theorem DrawLine_horizontal (fuel : Nat) (s : Display) (x0 y0 x1 y1 c : Nat) (hf : 129 ≤ fuel)
    (hne : min x0 127 ≠ min x1 127) (hax : min y0 63 = min y1 63) :
    SSD1306_DrawLine fuel s x0 y0 x1 y1 c =
      some (drawPts s (runPts (min x0 127) (min y0 63) (min x1 127) (min y1 63)) c) := by
  unfold SSD1306_DrawLine
  simp only [clamp_w, clamp_h]
  have ha0 : min x0 127 ≤ 127 := Nat.min_le_right _ _
  have ha1 : min x1 127 ≤ 127 := Nat.min_le_right _ _
  have hb0 : min y0 63 ≤ 63 := Nat.min_le_right _ _
  rw [← hax]
  generalize min x0 127 = a0 at ha0 hne ⊢
  generalize min x1 127 = a1 at ha1 hne ⊢
  generalize min y0 63 = b at hb0 ⊢
  rw [absdiff_i16 a0 a1 ha0 ha1, absdiff_i16 b b (by omega) (by omega)]
  have h0 : ¬ ((max a0 a1 - min a0 a1 : Nat) : Int) = 0 := by omega
  have h1 : ((max b b - min b b : Nat) : Int) = 0 := by simp
  rw [if_neg h0, if_pos h1]
  simp only [lt_irrefl, if_false]
  unfold runPts
  rw [if_neg hne]
  by_cases hlt : a1 < a0
  · simp only [hlt, if_true]
    rw [u16_i16_ofNat a1 (by omega), i16_ofNat a1 (by omega),
      horizLoop_spec a0 b c (by omega) (a0 + 1 - a1) fuel s a1 (by omega) (by omega)]
    rw [show min a0 a1 = a1 by omega, show max a0 a1 = a0 by omega]
  · simp only [hlt, if_false]
    rw [i16_ofNat a0 (by omega),
      horizLoop_spec a1 b c (by omega) (a1 + 1 - a0) fuel s a0 (by omega) (by omega)]
    rw [show min a0 a1 = a0 by omega, show max a0 a1 = a1 by omega]

theorem DrawLine_axis (fuel : Nat) (s : Display) (x0 y0 x1 y1 c : Nat) (hf : 129 ≤ fuel)
    (hax : min x0 127 = min x1 127 ∨ min y0 63 = min y1 63) :
    SSD1306_DrawLine fuel s x0 y0 x1 y1 c =
      some (drawPts s (runPts (min x0 127) (min y0 63) (min x1 127) (min y1 63)) c) := by
  by_cases h : min x0 127 = min x1 127
  · exact DrawLine_vertical fuel s x0 y0 x1 y1 c hf h
  · rcases hax with h2 | h2
    · exact absurd h2 h
    · exact DrawLine_horizontal fuel s x0 y0 x1 y1 c hf h h2

theorem mem_runPts (a0 b0 a1 b1 px py : Nat) (hax : a0 = a1 ∨ b0 = b1) :
    (px, py) ∈ runPts a0 b0 a1 b1 ↔ inBox a0 b0 a1 b1 px py := by
  unfold runPts inBox
  split_ifs with h
  · simp only [List.mem_map, List.mem_range', Prod.mk.injEq]
    constructor
    · rintro ⟨j, ⟨k, hk, rfl⟩, rfl, rfl⟩
      omega
    · rintro ⟨h1, h2, h3, h4⟩
      exact ⟨py, ⟨py - min b0 b1, by omega, by omega⟩, by omega, rfl⟩
  · simp only [List.mem_map, List.mem_range', Prod.mk.injEq]
    constructor
    · rintro ⟨j, ⟨k, hk, rfl⟩, rfl, rfl⟩
      omega
    · rintro ⟨h1, h2, h3, h4⟩
      exact ⟨px, ⟨px - min a0 a1, by omega, by omega⟩, rfl, by omega⟩

/-- White axis-aligned `SSD1306_DrawLine` on a display with the invert flag
clear: it returns, keeps the frame, and adds exactly the run to the set pixels. -/
theorem DrawLine_axis_white (fuel : Nat) (s : Display) (x0 y0 x1 y1 : Nat) (hf : 129 ≤ fuel)
    (hlen : s.SSD1306_Buffer_all.length = 1024) (hinv : s.Inverted = 0)
    (hax : min x0 127 = min x1 127 ∨ min y0 63 = min y1 63) :
    ∃ t, SSD1306_DrawLine fuel s x0 y0 x1 y1 SSD1306_COLOR_WHITE = some t ∧
      t.SSD1306_Buffer_all.length = 1024 ∧ t.Inverted = 0 ∧
      t.CurrentX = s.CurrentX ∧ t.CurrentY = s.CurrentY ∧ t.Initialized = s.Initialized ∧
      ∀ px py, px < SSD1306_WIDTH → py < SSD1306_HEIGHT →
        (t.getBit px py = true ↔ s.getBit px py = true ∨
          inBox (min x0 127) (min y0 63) (min x1 127) (min y1 63) px py) := by
  refine ⟨_, DrawLine_axis fuel s x0 y0 x1 y1 _ hf hax, ?_⟩
  obtain ⟨g1, g2, g3, g4, g5⟩ := drawPts_frame
    (runPts (min x0 127) (min y0 63) (min x1 127) (min y1 63)) SSD1306_COLOR_WHITE s
  refine ⟨g1.trans hlen, g4.trans hinv, g2, g3, g5, ?_⟩
  intro px py hpx hpy
  rw [drawPts_getBit _ s px py hlen hinv hpx hpy, mem_runPts _ _ _ _ _ _ hax]

theorem rect_far_x (x w : Nat) (hx : x < SSD1306_WIDTH) :
    min (u16 ((x : Int) +
      ((if x + w ≥ SSD1306_WIDTH then u16 ((SSD1306_WIDTH : Int) - x) else w : Nat) : Int))) 127
      = min (x + w) 127 := by
  simp only [width_eq] at *
  unfold u16
  split_ifs <;> omega

theorem rect_far_y (y h : Nat) (hy : y < SSD1306_HEIGHT) :
    min (u16 ((y : Int) +
      ((if y + h ≥ SSD1306_HEIGHT then u16 ((SSD1306_HEIGHT : Int) - y) else h : Nat) : Int))) 63
      = min (y + h) 63 := by
  simp only [height_eq] at *
  unfold u16
  split_ifs <;> omega

/-- White `SSD1306_DrawRectangle` with an in-range corner, on a display with
the invert flag clear: the four lines add exactly the border. -/
theorem DrawRectangle_white (fuel : Nat) (hf : 129 ≤ fuel) (s : Display) (x y w h : Nat)
    (hlen : s.SSD1306_Buffer_all.length = 1024) (hinv : s.Inverted = 0)
    (hx : x < SSD1306_WIDTH) (hy : y < SSD1306_HEIGHT) :
    ∃ t, SSD1306_DrawRectangle fuel s x y w h SSD1306_COLOR_WHITE = some t ∧
      ∀ px py, px < SSD1306_WIDTH → py < SSD1306_HEIGHT →
        (t.getBit px py = true ↔ s.getBit px py = true ∨
          onBorder x y (min (x + w) 127) (min (y + h) 63) px py) := by
  unfold SSD1306_DrawRectangle
  rw [if_neg (by omega)]
  dsimp only
  have hX := rect_far_x x w hx
  have hY := rect_far_y y h hy
  generalize u16 ((x : Int) +
      ((if x + w ≥ SSD1306_WIDTH then u16 ((SSD1306_WIDTH : Int) - x) else w : Nat) : Int)) = X
    at hX ⊢
  generalize u16 ((y : Int) +
      ((if y + h ≥ SSD1306_HEIGHT then u16 ((SSD1306_HEIGHT : Int) - y) else h : Nat) : Int)) = Y
    at hY ⊢
  have hx' : min x 127 = x := by simp only [width_eq] at hx; omega
  have hy' : min y 63 = y := by simp only [height_eq] at hy; omega
  obtain ⟨t1, e1, l1, i1, -, -, -, p1⟩ :=
    DrawLine_axis_white fuel s x y X y hf hlen hinv (Or.inr rfl)
  obtain ⟨t2, e2, l2, i2, -, -, -, p2⟩ :=
    DrawLine_axis_white fuel t1 x Y X Y hf l1 i1 (Or.inr rfl)
  obtain ⟨t3, e3, l3, i3, -, -, -, p3⟩ :=
    DrawLine_axis_white fuel t2 x y x Y hf l2 i2 (Or.inl rfl)
  obtain ⟨t4, e4, l4, i4, -, -, -, p4⟩ :=
    DrawLine_axis_white fuel t3 X y X Y hf l3 i3 (Or.inl rfl)
  refine ⟨t4, ?_, ?_⟩
  · rw [e1, Option.some_bind, e2, Option.some_bind, e3, Option.some_bind, e4]
  · intro px py hpx hpy
    rw [p4 px py hpx hpy, p3 px py hpx hpy, p2 px py hpx hpy, p1 px py hpx hpy,
      hX, hY, hx', hy']
    unfold inBox onBorder
    have h1 : x ≤ min (x + w) 127 := by simp only [width_eq] at hx; omega
    have h2 : y ≤ min (y + h) 63 := by simp only [height_eq] at hy; omega
    generalize min (x + w) 127 = X2 at h1 ⊢
    generalize min (y + h) 63 = Y2 at h2 ⊢
    constructor
    · rintro ((((h | h) | h) | h) | h)
      · exact Or.inl h
      all_goals right; omega
    · rintro (h | h)
      · exact Or.inl (Or.inl (Or.inl (Or.inl h)))
      · omega

theorem mem_litPixels (t : Display) (p : Nat × Nat) :
    p ∈ t.litPixels ↔ p.1 < SSD1306_WIDTH ∧ p.2 < SSD1306_HEIGHT ∧ t.getBit p.1 p.2 = true := by
  unfold Display.litPixels
  rw [Finset.mem_filter, Finset.mem_product, Finset.mem_range, Finset.mem_range, and_assoc]

theorem border_square_card :
    ((Finset.range 11 ×ˢ Finset.range 11).filter
      (fun p : Nat × Nat => p.1 = 0 ∨ p.1 = 10 ∨ p.2 = 0 ∨ p.2 = 10)).card = 40 := by
  decide

/-! ## Claims C6, C8: axis-aligned lines and rectangle outlines -/

/-- C6: on a blank display (all-black framebuffer, invert flag clear) and for
all endpoints whose clamped images `(min x0 127, min y0 63)` and
`(min x1 127, min y1 63)` share a column or a row, white `SSD1306_DrawLine`
returns and sets exactly the pixels of the straight run between the two
clamped endpoints, inclusive, in either endpoint order; in particular
`SSD1306_DrawLine(0, 0, 0, 10, white)` sets exactly (0,0)..(0,10). -/
theorem C6_DrawLine_axis_aligned (fuel : Nat) (hf : 129 ≤ fuel) (s : Display) (hs : s.Blank) :
    (∀ x0 y0 x1 y1 : Nat, (min x0 127 = min x1 127 ∨ min y0 63 = min y1 63) →
      ∃ t, SSD1306_DrawLine fuel s x0 y0 x1 y1 SSD1306_COLOR_WHITE = some t ∧
        ∀ px py, px < SSD1306_WIDTH → py < SSD1306_HEIGHT →
          (t.getBit px py = true ↔
            inBox (min x0 127) (min y0 63) (min x1 127) (min y1 63) px py)) ∧
    (∃ t, SSD1306_DrawLine fuel s 0 0 0 10 SSD1306_COLOR_WHITE = some t ∧
        ∀ px py, px < SSD1306_WIDTH → py < SSD1306_HEIGHT →
          (t.getBit px py = true ↔ px = 0 ∧ py ≤ 10)) := by
  have hlen := blank_length s hs
  have gen : ∀ x0 y0 x1 y1 : Nat, (min x0 127 = min x1 127 ∨ min y0 63 = min y1 63) →
      ∃ t, SSD1306_DrawLine fuel s x0 y0 x1 y1 SSD1306_COLOR_WHITE = some t ∧
        ∀ px py, px < SSD1306_WIDTH → py < SSD1306_HEIGHT →
          (t.getBit px py = true ↔
            inBox (min x0 127) (min y0 63) (min x1 127) (min y1 63) px py) := by
    intro x0 y0 x1 y1 hax
    obtain ⟨t, e, -, -, -, -, -, p⟩ := DrawLine_axis_white fuel s x0 y0 x1 y1 hf hlen hs.2 hax
    refine ⟨t, e, ?_⟩
    intro px py hpx hpy
    rw [p px py hpx hpy, blank_getBit s hs]
    simp
  refine ⟨gen, ?_⟩
  obtain ⟨t, e, p⟩ := gen 0 0 0 10 (Or.inl rfl)
  refine ⟨t, e, ?_⟩
  intro px py hpx hpy
  rw [p px py hpx hpy]
  unfold inBox
  omega

/-- Witness for C6: fuel 129 on the blank display. -/
theorem C6_DrawLine_axis_aligned_witness :
    129 ≤ 129 ∧ (Display.mk blackBuffer 0 0 0 1).Blank ∧
    (∃ t, SSD1306_DrawLine 129 (Display.mk blackBuffer 0 0 0 1) 0 0 0 10 SSD1306_COLOR_WHITE
        = some t ∧
        ∀ px py, px < SSD1306_WIDTH → py < SSD1306_HEIGHT →
          (t.getBit px py = true ↔ px = 0 ∧ py ≤ 10)) :=
  ⟨le_refl 129, ⟨rfl, rfl⟩,
    (C6_DrawLine_axis_aligned 129 (le_refl 129) (Display.mk blackBuffer 0 0 0 1) ⟨rfl, rfl⟩).2⟩

/-- C8: `SSD1306_DrawRectangle` leaves the state unchanged when `x ≥ 128` or
`y ≥ 64`; otherwise, white on a blank display, it returns and the set pixels
are exactly the border of the rectangle with corners `(x, y)` and
`(min (x + w) 127, min (y + h) 63)`, both inclusive; in particular
`SSD1306_DrawRectangle(0, 0, 10, 10, white)` sets exactly the 40 border pixels
of the square (0,0)..(10,10). -/
theorem C8_DrawRectangle (fuel : Nat) (hf : 129 ≤ fuel) (s : Display) (x y w h : Nat) :
    (∀ c, SSD1306_WIDTH ≤ x ∨ SSD1306_HEIGHT ≤ y →
      SSD1306_DrawRectangle fuel s x y w h c = some s) ∧
    (s.Blank → x < SSD1306_WIDTH → y < SSD1306_HEIGHT →
      ∃ t, SSD1306_DrawRectangle fuel s x y w h SSD1306_COLOR_WHITE = some t ∧
        ∀ px py, px < SSD1306_WIDTH → py < SSD1306_HEIGHT →
          (t.getBit px py = true ↔ onBorder x y (min (x + w) 127) (min (y + h) 63) px py)) ∧
    (s.Blank →
      ∃ t, SSD1306_DrawRectangle fuel s 0 0 10 10 SSD1306_COLOR_WHITE = some t ∧
        t.litPixels.card = 40 ∧
        ∀ px py, px < SSD1306_WIDTH → py < SSD1306_HEIGHT →
          (t.getBit px py = true ↔ onBorder 0 0 10 10 px py)) := by
  have gen : ∀ x y w h : Nat, s.Blank → x < SSD1306_WIDTH → y < SSD1306_HEIGHT →
      ∃ t, SSD1306_DrawRectangle fuel s x y w h SSD1306_COLOR_WHITE = some t ∧
        ∀ px py, px < SSD1306_WIDTH → py < SSD1306_HEIGHT →
          (t.getBit px py = true ↔
            onBorder x y (min (x + w) 127) (min (y + h) 63) px py) := by
    intro x y w h hs hx hy
    obtain ⟨t, e, p⟩ := DrawRectangle_white fuel hf s x y w h (blank_length s hs) hs.2 hx hy
    refine ⟨t, e, ?_⟩
    intro px py hpx hpy
    rw [p px py hpx hpy, blank_getBit s hs]
    simp
  refine ⟨?_, gen x y w h, ?_⟩
  · intro c hoob
    unfold SSD1306_DrawRectangle
    rw [if_pos hoob]
  · intro hs
    obtain ⟨t, e, p⟩ := gen 0 0 10 10 hs (by decide) (by decide)
    have p' : ∀ px py, px < SSD1306_WIDTH → py < SSD1306_HEIGHT →
        (t.getBit px py = true ↔ onBorder 0 0 10 10 px py) := by
      intro px py hpx hpy
      have e1 : min (0 + 10) 127 = 10 := by decide
      have e2 : min (0 + 10) 63 = 10 := by decide
      rw [p px py hpx hpy, e1, e2]
    refine ⟨t, e, ?_, p'⟩
    have hset : t.litPixels = (Finset.range 11 ×ˢ Finset.range 11).filter
        (fun p : Nat × Nat => p.1 = 0 ∨ p.1 = 10 ∨ p.2 = 0 ∨ p.2 = 10) := by
      apply Finset.ext
      rintro ⟨px, py⟩
      rw [mem_litPixels, Finset.mem_filter, Finset.mem_product, Finset.mem_range,
        Finset.mem_range]
      simp only [width_eq, height_eq]
      constructor
      · rintro ⟨h1, h2, h3⟩
        have := (p' px py h1 h2).1 h3
        unfold onBorder at this
        omega
      · rintro ⟨⟨h1, h2⟩, h3⟩
        have hpx : px < SSD1306_WIDTH := by simp only [width_eq]; omega
        have hpy : py < SSD1306_HEIGHT := by simp only [height_eq]; omega
        refine ⟨by omega, by omega, (p' px py hpx hpy).2 ?_⟩
        unfold onBorder
        omega
    rw [hset, border_square_card]

/-- Witness for C8: fuel 129; the rectangle at (120, 60) of size 20 by 20 is
clipped to the panel. -/
theorem C8_DrawRectangle_witness :
    129 ≤ 129 ∧ (Display.mk blackBuffer 0 0 0 1).Blank ∧
    120 < SSD1306_WIDTH ∧ 60 < SSD1306_HEIGHT ∧
    ∃ t, SSD1306_DrawRectangle 129 (Display.mk blackBuffer 0 0 0 1) 120 60 20 20
        SSD1306_COLOR_WHITE = some t ∧
      ∀ px py, px < SSD1306_WIDTH → py < SSD1306_HEIGHT →
        (t.getBit px py = true ↔
          onBorder 120 60 (min (120 + 20) 127) (min (60 + 20) 63) px py) :=
  ⟨le_refl 129, ⟨rfl, rfl⟩, by decide, by decide,
    (C8_DrawRectangle 129 (le_refl 129) (Display.mk blackBuffer 0 0 0 1) 120 60 20 20).2.1
      ⟨rfl, rfl⟩ (by decide) (by decide)⟩

/-! ## Claim C9: filled rectangles -/

theorem u8_succ (i : Nat) (h : i < 255) : u8 ((i : Int) + 1) = i + 1 := by
  unfold u8
  omega

/-- The row loop of `SSD1306_DrawFilledRectangle` with `h ≤ 64`: it returns,
and for white on a display with the invert flag clear it adds exactly the rows
`i .. h` of the clamped rectangle. -/
theorem fillRectLoop_spec (fuel x y w h c : Nat) (hf : 129 ≤ fuel) (hh : h ≤ 64) (k : Nat) :
    ∀ (n i : Nat) (s : Display), i + k = h + 1 → k < n →
      ∃ t, fillRectLoop n fuel s x y w h i c = some t ∧
        (c = SSD1306_COLOR_WHITE → s.SSD1306_Buffer_all.length = 1024 → s.Inverted = 0 →
          t.SSD1306_Buffer_all.length = 1024 ∧ t.Inverted = 0 ∧
          ∀ px py, px < SSD1306_WIDTH → py < SSD1306_HEIGHT →
            (t.getBit px py = true ↔ s.getBit px py = true ∨
              ∃ j, i ≤ j ∧ j ≤ h ∧
                inBox (min x 127) (min (u16 ((y : Int) + j)) 63)
                  (min (u16 ((x : Int) + w)) 127) (min (u16 ((y : Int) + j)) 63) px py)) := by
  induction k with
  | zero =>
    intro n i s hi hn
    obtain ⟨m, rfl⟩ : ∃ m, n = m + 1 := ⟨n - 1, by omega⟩
    unfold fillRectLoop
    rw [if_neg (by omega)]
    refine ⟨s, rfl, ?_⟩
    intro _ hlen hinv
    refine ⟨hlen, hinv, ?_⟩
    intro px py _ _
    constructor
    · intro hb
      exact Or.inl hb
    · rintro (hb | ⟨j, h1, h2, -⟩)
      · exact hb
      · omega
  | succ k ih =>
    intro n i s hi hn
    obtain ⟨m, rfl⟩ : ∃ m, n = m + 1 := ⟨n - 1, by omega⟩
    unfold fillRectLoop
    rw [if_pos (by omega),
      DrawLine_axis fuel s x (u16 ((y : Int) + i)) (u16 ((x : Int) + w)) (u16 ((y : Int) + i)) c
        hf (Or.inr rfl),
      Option.some_bind, u8_succ i (by omega)]
    obtain ⟨t, e, p⟩ := ih m (i + 1)
      (drawPts s (runPts (min x 127) (min (u16 ((y : Int) + i)) 63)
        (min (u16 ((x : Int) + w)) 127) (min (u16 ((y : Int) + i)) 63)) c) (by omega) (by omega)
    refine ⟨t, e, ?_⟩
    intro hc hlen hinv
    obtain ⟨g1, -, -, g4, -⟩ := drawPts_frame
      (runPts (min x 127) (min (u16 ((y : Int) + i)) 63)
        (min (u16 ((x : Int) + w)) 127) (min (u16 ((y : Int) + i)) 63)) c s
    obtain ⟨q1, q2, q3⟩ := p hc (g1.trans hlen) (g4.trans hinv)
    refine ⟨q1, q2, ?_⟩
    intro px py hpx hpy
    rw [q3 px py hpx hpy]
    subst hc
    rw [drawPts_getBit _ s px py hlen hinv hpx hpy, mem_runPts _ _ _ _ _ _ (Or.inr rfl)]
    constructor
    · rintro ((hb | hb) | ⟨j, h1, h2, h3⟩)
      · exact Or.inl hb
      · exact Or.inr ⟨i, le_refl i, by omega, hb⟩
      · exact Or.inr ⟨j, by omega, h2, h3⟩
    · rintro (hb | ⟨j, h1, h2, h3⟩)
      · exact Or.inl (Or.inl hb)
      · by_cases hji : j = i
        · subst hji
          exact Or.inl (Or.inr h3)
        · exact Or.inr ⟨j, by omega, h2, h3⟩

theorem rect_clamp_h (y h : Nat) (hy : y < SSD1306_HEIGHT) :
    (if y + h ≥ SSD1306_HEIGHT then u16 ((SSD1306_HEIGHT : Int) - y) else h) ≤ 64 := by
  simp only [height_eq] at *
  unfold u16
  split_ifs <;> omega

/-- C9: `SSD1306_DrawFilledRectangle` returns on every input (the height used
by its 8-bit row counter is clamped to at most 64); it leaves the state
unchanged when `x ≥ 128` or `y ≥ 64`; otherwise, white on a blank display, the
set pixels are exactly those `(px, py)` with `x ≤ px ≤ min (x + w) 127` and
`y ≤ py ≤ min (y + h) 63`. -/
theorem C9_DrawFilledRectangle (fuel : Nat) (hf : 129 ≤ fuel) (s : Display) (x y w h : Nat) :
    (∀ c, ∃ t, SSD1306_DrawFilledRectangle fuel s x y w h c = some t) ∧
    (x < SSD1306_WIDTH → y < SSD1306_HEIGHT →
      (if y + h ≥ SSD1306_HEIGHT then u16 ((SSD1306_HEIGHT : Int) - y) else h) ≤ 64) ∧
    (∀ c, SSD1306_WIDTH ≤ x ∨ SSD1306_HEIGHT ≤ y →
      SSD1306_DrawFilledRectangle fuel s x y w h c = some s) ∧
    (s.Blank → x < SSD1306_WIDTH → y < SSD1306_HEIGHT →
      ∃ t, SSD1306_DrawFilledRectangle fuel s x y w h SSD1306_COLOR_WHITE = some t ∧
        ∀ px py, px < SSD1306_WIDTH → py < SSD1306_HEIGHT →
          (t.getBit px py = true ↔
            x ≤ px ∧ px ≤ min (x + w) 127 ∧ y ≤ py ∧ py ≤ min (y + h) 63)) := by
  have hoob : ∀ c, SSD1306_WIDTH ≤ x ∨ SSD1306_HEIGHT ≤ y →
      SSD1306_DrawFilledRectangle fuel s x y w h c = some s := by
    intro c hc
    unfold SSD1306_DrawFilledRectangle
    rw [if_pos hc]
  refine ⟨?_, fun _ hy => rect_clamp_h y h hy, hoob, ?_⟩
  · intro c
    by_cases hb : SSD1306_WIDTH ≤ x ∨ SSD1306_HEIGHT ≤ y
    · exact ⟨s, hoob c hb⟩
    · have hy : y < SSD1306_HEIGHT := by omega
      unfold SSD1306_DrawFilledRectangle
      rw [if_neg hb]
      dsimp only
      have hh := rect_clamp_h y h hy
      generalize (if y + h ≥ SSD1306_HEIGHT then u16 ((SSD1306_HEIGHT : Int) - y) else h) = h2
        at hh ⊢
      obtain ⟨t, e, -⟩ := fillRectLoop_spec fuel x y
        (if x + w ≥ SSD1306_WIDTH then u16 ((SSD1306_WIDTH : Int) - x) else w) h2 c hf hh
        (h2 + 1) fuel 0 s (by omega) (by omega)
      exact ⟨t, e⟩
  · intro hs hx hy
    unfold SSD1306_DrawFilledRectangle
    rw [if_neg (by omega)]
    dsimp only
    have hh := rect_clamp_h y h hy
    have hX := rect_far_x x w hx
    have hY : ∀ j, j ≤ (if y + h ≥ SSD1306_HEIGHT then u16 ((SSD1306_HEIGHT : Int) - y) else h) →
        min (u16 ((y : Int) + j)) 63 = min (y + j) 63 ∧ y + j ≤ y + h := by
      intro j
      simp only [height_eq] at *
      unfold u16
      split_ifs <;> omega
    have hYmax : min (y + (if y + h ≥ SSD1306_HEIGHT then u16 ((SSD1306_HEIGHT : Int) - y)
        else h)) 63 = min (y + h) 63 := by
      simp only [height_eq] at *
      unfold u16
      split_ifs <;> omega
    generalize (if y + h ≥ SSD1306_HEIGHT then u16 ((SSD1306_HEIGHT : Int) - y) else h) = h2
      at hh hY hYmax ⊢
    generalize (if x + w ≥ SSD1306_WIDTH then u16 ((SSD1306_WIDTH : Int) - x) else w) = w2
      at hX ⊢
    obtain ⟨t, e, p⟩ := fillRectLoop_spec fuel x y w2 h2 SSD1306_COLOR_WHITE hf hh
      (h2 + 1) fuel 0 s (by omega) (by omega)
    obtain ⟨-, -, q⟩ := p rfl (blank_length s hs) hs.2
    refine ⟨t, e, ?_⟩
    intro px py hpx hpy
    rw [q px py hpx hpy, blank_getBit s hs, hX]
    have hx' : min x 127 = x := by simp only [width_eq] at hx; omega
    rw [hx']
    unfold inBox
    simp only [height_eq, width_eq] at hx hy hpx hpy
    constructor
    · rintro (hb | ⟨j, -, h2j, h3⟩)
      · exact absurd hb (by simp)
      · obtain ⟨e1, e2⟩ := hY j h2j
        rw [e1] at h3
        omega
    · rintro ⟨h1, h2, h3, h4⟩
      right
      refine ⟨py - y, Nat.zero_le _, by omega, ?_⟩
      obtain ⟨e1, -⟩ := hY (py - y) (by omega)
      rw [e1]
      omega

/-- Witness for C9: fuel 129, a rectangle at (100, 50) with the largest 16-bit
width and height, clipped at the bottom right. -/
theorem C9_DrawFilledRectangle_witness :
    129 ≤ 129 ∧ (Display.mk blackBuffer 0 0 0 1).Blank ∧
    100 < SSD1306_WIDTH ∧ 50 < SSD1306_HEIGHT ∧
    ∃ t, SSD1306_DrawFilledRectangle 129 (Display.mk blackBuffer 0 0 0 1) 100 50 65535 65535
        SSD1306_COLOR_WHITE = some t ∧
      ∀ px py, px < SSD1306_WIDTH → py < SSD1306_HEIGHT →
        (t.getBit px py = true ↔
          100 ≤ px ∧ px ≤ min (100 + 65535) 127 ∧ 50 ≤ py ∧ py ≤ min (50 + 65535) 63) :=
  ⟨le_refl 129, ⟨rfl, rfl⟩, by decide, by decide,
    (C9_DrawFilledRectangle 129 (le_refl 129) (Display.mk blackBuffer 0 0 0 1)
      100 50 65535 65535).2.2.2 ⟨rfl, rfl⟩ (by decide) (by decide)⟩

/-! ## Claim C10: circles of radius 0 -/

theorem Display_ext (a b : Display) (h1 : a.SSD1306_Buffer_all = b.SSD1306_Buffer_all)
    (h2 : a.CurrentX = b.CurrentX) (h3 : a.CurrentY = b.CurrentY)
    (h4 : a.Inverted = b.Inverted) (h5 : a.Initialized = b.Initialized) : a = b := by
  cases a
  cases b
  simp only [Display.mk.injEq]
  exact ⟨h1, h2, h3, h4, h5⟩

/-- Drawing the same pixel twice with the same colour is the same as drawing it once. -/
theorem DrawPixel_idem (s : Display) (x y c : Nat) (hlen : s.SSD1306_Buffer_all.length = 1024) :
    SSD1306_DrawPixel (SSD1306_DrawPixel s x y c) x y c = SSD1306_DrawPixel s x y c := by
  by_cases hb : x < SSD1306_WIDTH ∧ y < SSD1306_HEIGHT
  · obtain ⟨hx, hy⟩ := hb
    obtain ⟨g1, g2, g3, g4, g5⟩ := DrawPixel_frame s x y c
    obtain ⟨k1, k2, k3, k4, k5⟩ := DrawPixel_frame (SSD1306_DrawPixel s x y c) x y c
    refine Display_ext _ _ ?_ k2 k3 k4 k5
    apply buffer_ext _ _ k1
    intro j _
    apply Nat.eq_of_testBit_eq
    intro k
    have e1 := DrawPixel_testBit (SSD1306_DrawPixel s x y c) x y c j k (g1.trans hlen) hx hy
    have e2 := DrawPixel_testBit s x y c j k hlen hx hy
    unfold Display.byte at e1 e2
    rw [e1, g4]
    by_cases hj : j = x + (y / 8) * SSD1306_WIDTH
    · rw [if_pos hj]
      rw [if_pos hj] at e2
      by_cases hk : k = y % 8
      · rw [if_pos hk]
        rw [if_pos hk] at e2
        exact e2.symm
      · rw [if_neg hk]
        rw [if_neg hk] at e2
        rw [e2]
        cases decide (k < 8) <;> simp
    · rw [if_neg hj]
  · have hoob : SSD1306_WIDTH ≤ x ∨ SSD1306_HEIGHT ≤ y := by omega
    rw [DrawPixel_oob s x y c hoob, DrawPixel_oob s x y c hoob]

theorem runPts_point (a b : Nat) : runPts a b a b = [(a, b)] := by
  unfold runPts
  rw [if_pos rfl, Nat.min_self, Nat.max_self, show b + 1 - b = 1 by omega]
  rfl

/-- C10: for every well-typed display state, every colour and every centre
`(x0, y0)` with `0 ≤ x0 < 128` and `0 ≤ y0 < 64`, the midpoint loops of
`SSD1306_DrawCircle` and `SSD1306_DrawFilledCircle` with radius 0 return their
state at once (the body runs zero times), both calls return, and both leave
exactly the state of `SSD1306_DrawPixel(x0, y0, c)`. -/
theorem C10_circle_radius_zero (s : Display) (hs : s.WF) (x0 y0 c : Nat)
    (hx : x0 < SSD1306_WIDTH) (hy : y0 < SSD1306_HEIGHT) (fuel : Nat) (hf : 129 ≤ fuel) :
    (∀ t : Display, circleLoop fuel t x0 y0 (i16 (1 - 0)) 1 (i16 (-2 * 0)) 0 0 c = some t) ∧
    (∀ t : Display,
      filledCircleLoop fuel fuel t x0 y0 (i16 (1 - 0)) 1 (i16 (-2 * 0)) 0 0 c = some t) ∧
    SSD1306_DrawCircle fuel s x0 y0 0 c = some (SSD1306_DrawPixel s x0 y0 c) ∧
    SSD1306_DrawFilledCircle fuel s x0 y0 0 c = some (SSD1306_DrawPixel s x0 y0 c) := by
  have hlen : s.SSD1306_Buffer_all.length = 1024 := hs.1
  obtain ⟨m, rfl⟩ : ∃ m, fuel = m + 1 := ⟨fuel - 1, by omega⟩
  have hloop : ∀ (t : Display) (f dx dy : Int),
      circleLoop (m + 1) t x0 y0 f dx dy 0 0 c = some t := by
    intro t f dx dy
    unfold circleLoop
    rw [if_neg (lt_irrefl _)]
  have hfloop : ∀ (t : Display) (f dx dy : Int),
      filledCircleLoop (m + 1) (m + 1) t x0 y0 f dx dy 0 0 c = some t := by
    intro t f dx dy
    unfold filledCircleLoop
    rw [if_neg (lt_irrefl _)]
  have hux : u16 (x0 : Int) = x0 := u16_ofNat x0 (by simp only [width_eq] at hx; omega)
  have huy : u16 (y0 : Int) = y0 := u16_ofNat y0 (by simp only [height_eq] at hy; omega)
  have hl1 : (SSD1306_DrawPixel s x0 y0 c).SSD1306_Buffer_all.length = 1024 :=
    (DrawPixel_frame s x0 y0 c).1.trans hlen
  refine ⟨fun t => hloop t _ _ _, fun t => hfloop t _ _ _, ?_, ?_⟩
  · unfold SSD1306_DrawCircle
    simp only [add_zero, sub_zero, hux, huy, DrawPixel_idem s x0 y0 c hlen]
    exact hloop _ _ _ _
  · unfold SSD1306_DrawFilledCircle
    simp only [add_zero, sub_zero, hux, huy, DrawPixel_idem s x0 y0 c hlen]
    rw [DrawLine_axis (m + 1) _ x0 y0 x0 y0 c hf (Or.inl rfl), Option.some_bind, runPts_point,
      drawPts_cons, drawPts_nil]
    have hx' : min x0 127 = x0 := by simp only [width_eq] at hx; omega
    have hy' : min y0 63 = y0 := by simp only [height_eq] at hy; omega
    simp only [hx', hy', DrawPixel_idem s x0 y0 c hlen]
    exact hfloop _ _ _ _

/-- Witness for C10: the centre (64, 32) on a blank display. -/
theorem C10_circle_radius_zero_witness :
    (Display.mk blackBuffer 0 0 0 1).WF ∧ 64 < SSD1306_WIDTH ∧ 32 < SSD1306_HEIGHT ∧ 129 ≤ 129 ∧
    SSD1306_DrawCircle 129 (Display.mk blackBuffer 0 0 0 1) 64 32 0 1
      = some (SSD1306_DrawPixel (Display.mk blackBuffer 0 0 0 1) 64 32 1) :=
  ⟨blank_WF 0 0 0 1 (by decide) (by decide) (by decide) (by decide), by decide, by decide,
    le_refl 129,
    (C10_circle_radius_zero (Display.mk blackBuffer 0 0 0 1)
      (blank_WF 0 0 0 1 (by decide) (by decide) (by decide) (by decide)) 64 32 1
      (by decide) (by decide) 129 (le_refl 129)).2.2.1⟩

/-! ## The Bresenham loop of `SSD1306_DrawLine` -/

theorem lineLoop_linePts (x1 y1 : Nat) (dx dy sx sy : Int) (c : Nat) (fuel : Nat) :
    ∀ (s : Display) (x0 y0 : Nat) (err : Int),
      lineLoop fuel s x0 y0 x1 y1 dx dy sx sy err c =
        (linePts fuel x0 y0 x1 y1 dx dy sx sy err).map (fun l => drawPts s l c) := by
  induction fuel with
  | zero =>
    intro s x0 y0 err
    rfl
  | succ n ih =>
    intro s x0 y0 err
    unfold lineLoop linePts
    by_cases h : x0 = x1 ∧ y0 = y1
    · rw [if_pos h, if_pos h]
      rfl
    · rw [if_neg h, if_neg h]
      dsimp only
      rw [ih, Option.map_map]
      rfl

/-- The x-major case of the loop (`dy < dx`): with `r` columns and `k` rows
still to go and the error term in `[0, dx)`, the loop returns after `r` more
steps, having visited `r + 1` distinct pixels ending at `(x1, y1)`. -/
theorem linePts_xmajor (x1 y1 : Nat) (dx dy sx sy E : Int)
    (hsx : sx = 1 ∨ sx = -1) (hsy : sy = 1 ∨ sy = -1)
    (hdy : 0 < dy) (hdxy : dy < dx) (hdx : dx ≤ 127)
    (hx1 : x1 ≤ 127) (hy1 : y1 ≤ 63) (hE0 : 0 ≤ E) (hE1 : E < dx) (r : Nat) :
    ∀ (fuel x y : Nat) (k err : Int), r < fuel → x ≤ 127 → y ≤ 63 →
      (x : Int) + sx * r = x1 → (y : Int) + sy * k = y1 → 0 ≤ k →
      0 ≤ err → err < dx → k * dx + err = r * dy + E →
      ∃ pts, linePts fuel x y x1 y1 dx dy sx sy err = some pts ∧
        pts.length = r + 1 ∧ (x, y) ∈ pts ∧ (x1, y1) ∈ pts ∧ pts.Nodup ∧
        ∀ p ∈ pts, ∃ r2 k2 : Int, 0 ≤ r2 ∧ r2 ≤ r ∧ 0 ≤ k2 ∧ k2 ≤ k ∧
          (p.1 : Int) + sx * r2 = x1 ∧ (p.2 : Int) + sy * k2 = y1 := by
  induction r with
  | zero =>
    intro fuel x y k err hf hx hy ex ey hk he0 he1 hinv
    obtain ⟨m, rfl⟩ : ∃ m, fuel = m + 1 := ⟨fuel - 1, by omega⟩
    have hk0 : k = 0 := by
      by_contra hne
      have h1 : 1 * dx ≤ k * dx := mul_le_mul_of_nonneg_right (by omega) (by omega)
      simp only [Nat.cast_zero, zero_mul, zero_add] at hinv
      omega
    subst hk0
    have hxe : x = x1 := by
      simp only [Nat.cast_zero, mul_zero, add_zero] at ex
      exact_mod_cast ex
    have hye : y = y1 := by
      simp only [mul_zero, add_zero] at ey
      exact_mod_cast ey
    unfold linePts
    rw [if_pos ⟨hxe, hye⟩]
    refine ⟨[(x, y)], rfl, rfl, List.mem_singleton.2 rfl, ?_, List.nodup_singleton _, ?_⟩
    · rw [hxe, hye]
      exact List.mem_singleton.2 rfl
    · intro p hp
      rw [List.mem_singleton] at hp
      subst hp
      exact ⟨0, 0, le_refl _, by simp, le_refl _, le_refl _, by simpa using ex, by simpa using ey⟩
  | succ r ih =>
    intro fuel x y k err hf hx hy ex ey hk he0 he1 hinv
    obtain ⟨m, rfl⟩ : ∃ m, fuel = m + 1 := ⟨fuel - 1, by omega⟩
    push_cast at ex hinv
    have hrd : (0 : Int) ≤ (r : Int) * dy := mul_nonneg (by omega) (by omega)
    have er : ((r : Int) + 1) * dy = r * dy + dy := by ring
    rw [er] at hinv
    have hxne : ¬ (x = x1 ∧ y = y1) := by
      rintro ⟨h, -⟩
      rw [h] at ex
      rcases hsx with rfl | rfl <;> omega
    have hgt : err > -dx := by omega
    unfold linePts
    rw [if_neg hxne]
    dsimp only
    simp only [hgt, if_true]
    have hxn : ((u16 ((x : Int) + sx) : Nat) : Int) = x + sx ∧ u16 ((x : Int) + sx) ≤ 127 := by
      unfold u16
      rcases hsx with rfl | rfl <;> omega
    have ex2 : ((u16 ((x : Int) + sx) : Nat) : Int) + sx * r = x1 := by
      rw [hxn.1]
      rcases hsx with rfl | rfl <;> omega
    by_cases hlt : err < dy
    · simp only [hlt, if_true]
      have hk1 : 1 ≤ k := by
        by_contra hne
        have hk0 : k = 0 := by omega
        subst hk0
        simp only [zero_mul, zero_add] at hinv
        omega
      have ek : (k - 1) * dx = k * dx - dx := by ring
      have hyn : ((u16 ((y : Int) + sy) : Nat) : Int) = y + sy ∧ u16 ((y : Int) + sy) ≤ 63 := by
        unfold u16
        rcases hsy with rfl | rfl <;> omega
      have ey2 : ((u16 ((y : Int) + sy) : Nat) : Int) + sy * (k - 1) = y1 := by
        rw [hyn.1]
        rcases hsy with rfl | rfl <;> omega
      rw [i16_id (err - dy) (by omega) (by omega), i16_id (err - dy + dx) (by omega) (by omega)]
      obtain ⟨pts, e, hl, hm0, hm1, hnd, hall⟩ := ih m (u16 ((x : Int) + sx))
        (u16 ((y : Int) + sy)) (k - 1) (err - dy + dx) (by omega) hxn.2 hyn.2 ex2 ey2
        (by omega) (by omega) (by omega) (by rw [ek]; omega)
      refine ⟨(x, y) :: pts, by rw [e]; rfl, by simp [hl], List.mem_cons_self _ _,
        List.mem_cons_of_mem _ hm1, ?_, ?_⟩
      · rw [List.nodup_cons]
        refine ⟨?_, hnd⟩
        intro hmem
        obtain ⟨r2, k2, h1, h2, -, -, h5, -⟩ := hall _ hmem
        simp only at h5
        rcases hsx with rfl | rfl <;> omega
      · intro p hp
        rcases List.mem_cons.1 hp with rfl | hp
        · exact ⟨r + 1, k, by omega, by push_cast; omega, hk, le_refl _, by simpa using ex,
            by simpa using ey⟩
        · obtain ⟨r2, k2, h1, h2, h3, h4, h5, h6⟩ := hall p hp
          exact ⟨r2, k2, h1, by push_cast; omega, h3, by omega, h5, h6⟩
    · simp only [hlt, if_false]
      rw [i16_id (err - dy) (by omega) (by omega)]
      obtain ⟨pts, e, hl, hm0, hm1, hnd, hall⟩ := ih m (u16 ((x : Int) + sx))
        y k (err - dy) (by omega) hxn.2 hy ex2 ey
        hk (by omega) (by omega) (by omega)
      refine ⟨(x, y) :: pts, by rw [e]; rfl, by simp [hl], List.mem_cons_self _ _,
        List.mem_cons_of_mem _ hm1, ?_, ?_⟩
      · rw [List.nodup_cons]
        refine ⟨?_, hnd⟩
        intro hmem
        obtain ⟨r2, k2, h1, h2, -, -, h5, -⟩ := hall _ hmem
        simp only at h5
        rcases hsx with rfl | rfl <;> omega
      · intro p hp
        rcases List.mem_cons.1 hp with rfl | hp
        · exact ⟨r + 1, k, by omega, by push_cast; omega, hk, le_refl _, by simpa using ex,
            by simpa using ey⟩
        · obtain ⟨r2, k2, h1, h2, h3, h4, h5, h6⟩ := hall p hp
          exact ⟨r2, k2, h1, by push_cast; omega, h3, h4, h5, h6⟩

/-- The y-major case of the loop (`dx ≤ dy`): with `r` rows and `k` columns
still to go and the error term in `(-dy, 0]`, the loop returns after `r` more
steps, having visited `r + 1` distinct pixels ending at `(x1, y1)`. -/
theorem linePts_ymajor (x1 y1 : Nat) (dx dy sx sy E : Int)
    (hsx : sx = 1 ∨ sx = -1) (hsy : sy = 1 ∨ sy = -1)
    (hdx : 0 < dx) (hdxy : dx ≤ dy) (hdy : dy ≤ 127)
    (hx1 : x1 ≤ 127) (hy1 : y1 ≤ 63) (hE0 : -dy < E) (hE1 : E ≤ 0) (r : Nat) :
    ∀ (fuel x y : Nat) (k err : Int), r < fuel → x ≤ 127 → y ≤ 63 →
      (x : Int) + sx * k = x1 → (y : Int) + sy * r = y1 → 0 ≤ k →
      -dy < err → err ≤ 0 → k * dy - err = r * dx - E →
      ∃ pts, linePts fuel x y x1 y1 dx dy sx sy err = some pts ∧
        pts.length = r + 1 ∧ (x, y) ∈ pts ∧ (x1, y1) ∈ pts ∧ pts.Nodup ∧
        ∀ p ∈ pts, ∃ r2 k2 : Int, 0 ≤ r2 ∧ r2 ≤ r ∧ 0 ≤ k2 ∧ k2 ≤ k ∧
          (p.1 : Int) + sx * k2 = x1 ∧ (p.2 : Int) + sy * r2 = y1 := by
  induction r with
  | zero =>
    intro fuel x y k err hf hx hy ex ey hk he0 he1 hinv
    obtain ⟨m, rfl⟩ : ∃ m, fuel = m + 1 := ⟨fuel - 1, by omega⟩
    have hk0 : k = 0 := by
      by_contra hne
      have h1 : 1 * dy ≤ k * dy := mul_le_mul_of_nonneg_right (by omega) (by omega)
      simp only [Nat.cast_zero, zero_mul, zero_sub] at hinv
      omega
    subst hk0
    have hxe : x = x1 := by
      simp only [mul_zero, add_zero] at ex
      exact_mod_cast ex
    have hye : y = y1 := by
      simp only [Nat.cast_zero, mul_zero, add_zero] at ey
      exact_mod_cast ey
    unfold linePts
    rw [if_pos ⟨hxe, hye⟩]
    refine ⟨[(x, y)], rfl, rfl, List.mem_singleton.2 rfl, ?_, List.nodup_singleton _, ?_⟩
    · rw [hxe, hye]
      exact List.mem_singleton.2 rfl
    · intro p hp
      rw [List.mem_singleton] at hp
      subst hp
      exact ⟨0, 0, le_refl _, by simp, le_refl _, le_refl _, by simpa using ex, by simpa using ey⟩
  | succ r ih =>
    intro fuel x y k err hf hx hy ex ey hk he0 he1 hinv
    obtain ⟨m, rfl⟩ : ∃ m, fuel = m + 1 := ⟨fuel - 1, by omega⟩
    push_cast at ey hinv
    have hrd : (0 : Int) ≤ (r : Int) * dx := mul_nonneg (by omega) (by omega)
    have er : ((r : Int) + 1) * dx = r * dx + dx := by ring
    rw [er] at hinv
    have hxne : ¬ (x = x1 ∧ y = y1) := by
      rintro ⟨-, h⟩
      rw [h] at ey
      rcases hsy with rfl | rfl <;> omega
    have hlt : err < dy := by omega
    unfold linePts
    rw [if_neg hxne]
    dsimp only
    simp only [hlt, if_true]
    have hyn : ((u16 ((y : Int) + sy) : Nat) : Int) = y + sy ∧ u16 ((y : Int) + sy) ≤ 63 := by
      unfold u16
      rcases hsy with rfl | rfl <;> omega
    have ey2 : ((u16 ((y : Int) + sy) : Nat) : Int) + sy * r = y1 := by
      rw [hyn.1]
      rcases hsy with rfl | rfl <;> omega
    by_cases hgt : err > -dx
    · simp only [hgt, if_true]
      have hk1 : 1 ≤ k := by
        by_contra hne
        have hk0 : k = 0 := by omega
        subst hk0
        simp only [zero_mul, zero_sub] at hinv
        omega
      have ek : (k - 1) * dy = k * dy - dy := by ring
      have hxn : ((u16 ((x : Int) + sx) : Nat) : Int) = x + sx ∧ u16 ((x : Int) + sx) ≤ 127 := by
        unfold u16
        rcases hsx with rfl | rfl <;> omega
      have ex2 : ((u16 ((x : Int) + sx) : Nat) : Int) + sx * (k - 1) = x1 := by
        rw [hxn.1]
        rcases hsx with rfl | rfl <;> omega
      rw [i16_id (err - dy) (by omega) (by omega), i16_id (err - dy + dx) (by omega) (by omega)]
      obtain ⟨pts, e, hl, hm0, hm1, hnd, hall⟩ := ih m (u16 ((x : Int) + sx))
        (u16 ((y : Int) + sy)) (k - 1) (err - dy + dx) (by omega) hxn.2 hyn.2 ex2 ey2
        (by omega) (by omega) (by omega) (by rw [ek]; omega)
      refine ⟨(x, y) :: pts, by rw [e]; rfl, by simp [hl], List.mem_cons_self _ _,
        List.mem_cons_of_mem _ hm1, ?_, ?_⟩
      · rw [List.nodup_cons]
        refine ⟨?_, hnd⟩
        intro hmem
        obtain ⟨r2, k2, h1, h2, -, -, -, h6⟩ := hall _ hmem
        simp only at h6
        rcases hsy with rfl | rfl <;> omega
      · intro p hp
        rcases List.mem_cons.1 hp with rfl | hp
        · exact ⟨r + 1, k, by omega, by push_cast; omega, hk, le_refl _, by simpa using ex,
            by simpa using ey⟩
        · obtain ⟨r2, k2, h1, h2, h3, h4, h5, h6⟩ := hall p hp
          exact ⟨r2, k2, h1, by push_cast; omega, h3, by omega, h5, h6⟩
    · simp only [hgt, if_false]
      rw [i16_id (err + dx) (by omega) (by omega)]
      obtain ⟨pts, e, hl, hm0, hm1, hnd, hall⟩ := ih m x
        (u16 ((y : Int) + sy)) k (err + dx) (by omega) hx hyn.2 ex ey2
        hk (by omega) (by omega) (by omega)
      refine ⟨(x, y) :: pts, by rw [e]; rfl, by simp [hl], List.mem_cons_self _ _,
        List.mem_cons_of_mem _ hm1, ?_, ?_⟩
      · rw [List.nodup_cons]
        refine ⟨?_, hnd⟩
        intro hmem
        obtain ⟨r2, k2, h1, h2, -, -, -, h6⟩ := hall _ hmem
        simp only at h6
        rcases hsy with rfl | rfl <;> omega
      · intro p hp
        rcases List.mem_cons.1 hp with rfl | hp
        · exact ⟨r + 1, k, by omega, by push_cast; omega, hk, le_refl _, by simpa using ex,
            by simpa using ey⟩
        · obtain ⟨r2, k2, h1, h2, h3, h4, h5, h6⟩ := hall p hp
          exact ⟨r2, k2, h1, by push_cast; omega, h3, h4, h5, h6⟩

/-- The non-axis-aligned branch of `SSD1306_DrawLine`: the call returns and
draws a duplicate-free list of `max dx dy + 1` pixels of the bounding box of
the clamped endpoints, both endpoints among them. -/
theorem DrawLine_general (fuel : Nat) (hf : 129 ≤ fuel) (s : Display) (x0 y0 x1 y1 c : Nat)
    (hx : min x0 127 ≠ min x1 127) (hy : min y0 63 ≠ min y1 63) :
    ∃ pts, SSD1306_DrawLine fuel s x0 y0 x1 y1 c = some (drawPts s pts c) ∧
      pts.length =
        max (max (min x0 127) (min x1 127) - min (min x0 127) (min x1 127))
          (max (min y0 63) (min y1 63) - min (min y0 63) (min y1 63)) + 1 ∧
      (min x0 127, min y0 63) ∈ pts ∧ (min x1 127, min y1 63) ∈ pts ∧ pts.Nodup ∧
      ∀ p ∈ pts, inBox (min x0 127) (min y0 63) (min x1 127) (min y1 63) p.1 p.2 := by
  unfold SSD1306_DrawLine
  simp only [clamp_w, clamp_h]
  have ha0 : min x0 127 ≤ 127 := Nat.min_le_right _ _
  have ha1 : min x1 127 ≤ 127 := Nat.min_le_right _ _
  have hb0 : min y0 63 ≤ 63 := Nat.min_le_right _ _
  have hb1 : min y1 63 ≤ 63 := Nat.min_le_right _ _
  generalize min x0 127 = a0 at ha0 hx ⊢
  generalize min x1 127 = a1 at ha1 hx ⊢
  generalize min y0 63 = b0 at hb0 hy ⊢
  generalize min y1 63 = b1 at hb1 hy ⊢
  rw [absdiff_i16 a0 a1 ha0 ha1, absdiff_i16 b0 b1 (by omega) (by omega)]
  have hdx0 : ¬ ((max a0 a1 - min a0 a1 : Nat) : Int) = 0 := by omega
  have hdy0 : ¬ ((max b0 b1 - min b0 b1 : Nat) : Int) = 0 := by omega
  rw [if_neg hdx0, if_neg hdy0, lineLoop_linePts]
  have hsx : (if a0 < a1 then (1 : Int) else -1) = 1 ∨ (if a0 < a1 then (1 : Int) else -1) = -1 := by
    split_ifs
    · exact Or.inl rfl
    · exact Or.inr rfl
  have hsy : (if b0 < b1 then (1 : Int) else -1) = 1 ∨ (if b0 < b1 then (1 : Int) else -1) = -1 := by
    split_ifs
    · exact Or.inl rfl
    · exact Or.inr rfl
  have ex : (a0 : Int) + (if a0 < a1 then (1 : Int) else -1) *
      ((max a0 a1 - min a0 a1 : Nat) : Int) = a1 := by
    split_ifs <;> omega
  have ey : (b0 : Int) + (if b0 < b1 then (1 : Int) else -1) *
      ((max b0 b1 - min b0 b1 : Nat) : Int) = b1 := by
    split_ifs <;> omega
  generalize hsxd : (if a0 < a1 then (1 : Int) else -1) = sx at hsx ex ⊢
  generalize hsyd : (if b0 < b1 then (1 : Int) else -1) = sy at hsy ey ⊢
  have hbox : ∀ (p : Nat × Nat) (r2 k2 : Int), 0 ≤ r2 →
      r2 ≤ ((max a0 a1 - min a0 a1 : Nat) : Int) → 0 ≤ k2 →
      k2 ≤ ((max b0 b1 - min b0 b1 : Nat) : Int) →
      (p.1 : Int) + sx * r2 = a1 → (p.2 : Int) + sy * k2 = b1 →
      inBox a0 b0 a1 b1 p.1 p.2 := by
    intro p r2 k2 h1 h2 h3 h4 h5 h6
    unfold inBox
    rcases hsx with rfl | rfl <;> rcases hsy with rfl | rfl <;> omega
  by_cases hmaj : ((max a0 a1 - min a0 a1 : Nat) : Int) > ((max b0 b1 - min b0 b1 : Nat) : Int)
  · rw [if_pos hmaj, Int.tdiv_eq_ediv (by omega) (by norm_num),
      i16_id _ (by omega) (by omega)]
    obtain ⟨pts, e, hl, hm0, hm1, hnd, hall⟩ := linePts_xmajor a1 b1
      ((max a0 a1 - min a0 a1 : Nat) : Int) ((max b0 b1 - min b0 b1 : Nat) : Int) sx sy
      (((max a0 a1 - min a0 a1 : Nat) : Int) / 2) hsx hsy (by omega) (by omega) (by omega)
      ha1 hb1 (by omega) (by omega) (max a0 a1 - min a0 a1) fuel a0 b0
      ((max b0 b1 - min b0 b1 : Nat) : Int) (((max a0 a1 - min a0 a1 : Nat) : Int) / 2)
      (by omega) ha0 hb0 ex ey (by omega) (by omega) (by omega) (by rw [mul_comm])
    refine ⟨pts, by rw [e]; rfl, by rw [hl]; omega, hm0, hm1, hnd, ?_⟩
    intro p hp
    obtain ⟨r2, k2, h1, h2, h3, h4, h5, h6⟩ := hall p hp
    exact hbox p r2 k2 h1 h2 h3 h4 h5 h6
  · rw [if_neg hmaj, Int.neg_tdiv, Int.tdiv_eq_ediv (by omega) (by norm_num),
      i16_id _ (by omega) (by omega)]
    obtain ⟨pts, e, hl, hm0, hm1, hnd, hall⟩ := linePts_ymajor a1 b1
      ((max a0 a1 - min a0 a1 : Nat) : Int) ((max b0 b1 - min b0 b1 : Nat) : Int) sx sy
      (-(((max b0 b1 - min b0 b1 : Nat) : Int) / 2)) hsx hsy (by omega) (by omega) (by omega)
      ha1 hb1 (by omega) (by omega) (max b0 b1 - min b0 b1) fuel a0 b0
      ((max a0 a1 - min a0 a1 : Nat) : Int) (-(((max b0 b1 - min b0 b1 : Nat) : Int) / 2))
      (by omega) ha0 hb0 ex ey (by omega) (by omega) (by omega) (by rw [mul_comm])
    refine ⟨pts, by rw [e]; rfl, by rw [hl]; omega, hm0, hm1, hnd, ?_⟩
    intro p hp
    obtain ⟨r2, k2, h1, h2, h3, h4, h5, h6⟩ := hall p hp
    exact hbox p k2 r2 h3 h4 h1 h2 h5 h6

/-! ## Claim C7: general lines -/

/-- C7: for all endpoints whose clamped images `(a0, b0) = (min x0 127, min y0 63)`
and `(a1, b1) = (min x1 127, min y1 63)` differ in both coordinates, white
`SSD1306_DrawLine` on a blank display returns and sets exactly
`max |a1 - a0| |b1 - b0| + 1` pixels; both clamped endpoints are set, and every
set pixel lies in the bounding box of the two clamped endpoints. -/
theorem C7_DrawLine_general (fuel : Nat) (hf : 129 ≤ fuel) (s : Display) (hs : s.Blank)
    (x0 y0 x1 y1 : Nat) (hx : min x0 127 ≠ min x1 127) (hy : min y0 63 ≠ min y1 63) :
    ∃ t, SSD1306_DrawLine fuel s x0 y0 x1 y1 SSD1306_COLOR_WHITE = some t ∧
      t.litPixels.card =
        max (max (min x0 127) (min x1 127) - min (min x0 127) (min x1 127))
          (max (min y0 63) (min y1 63) - min (min y0 63) (min y1 63)) + 1 ∧
      t.getBit (min x0 127) (min y0 63) = true ∧
      t.getBit (min x1 127) (min y1 63) = true ∧
      ∀ px py, px < SSD1306_WIDTH → py < SSD1306_HEIGHT → t.getBit px py = true →
        inBox (min x0 127) (min y0 63) (min x1 127) (min y1 63) px py := by
  obtain ⟨pts, e, hl, hm0, hm1, hnd, hall⟩ :=
    DrawLine_general fuel hf s x0 y0 x1 y1 SSD1306_COLOR_WHITE hx hy
  have hlen := blank_length s hs
  have hbit : ∀ px py, px < SSD1306_WIDTH → py < SSD1306_HEIGHT →
      ((drawPts s pts SSD1306_COLOR_WHITE).getBit px py = true ↔ (px, py) ∈ pts) := by
    intro px py hpx hpy
    rw [drawPts_getBit pts s px py hlen hs.2 hpx hpy, blank_getBit s hs]
    simp
  have ha0 : min x0 127 < SSD1306_WIDTH := by simp only [width_eq]; omega
  have ha1 : min x1 127 < SSD1306_WIDTH := by simp only [width_eq]; omega
  have hb0 : min y0 63 < SSD1306_HEIGHT := by simp only [height_eq]; omega
  have hb1 : min y1 63 < SSD1306_HEIGHT := by simp only [height_eq]; omega
  refine ⟨_, e, ?_, (hbit _ _ ha0 hb0).2 hm0, (hbit _ _ ha1 hb1).2 hm1, ?_⟩
  · have hset : (drawPts s pts SSD1306_COLOR_WHITE).litPixels = pts.toFinset := by
      apply Finset.ext
      rintro ⟨px, py⟩
      rw [mem_litPixels, List.mem_toFinset]
      constructor
      · rintro ⟨h1, h2, h3⟩
        exact (hbit px py h1 h2).1 h3
      · intro hp
        have hb := hall _ hp
        unfold inBox at hb
        have h1 : px < SSD1306_WIDTH := by simp only [width_eq]; simp only at hb; omega
        have h2 : py < SSD1306_HEIGHT := by simp only [height_eq]; simp only at hb; omega
        exact ⟨h1, h2, (hbit px py h1 h2).2 hp⟩
    rw [hset, List.toFinset_card_of_nodup hnd, hl]
  · intro px py hpx hpy hb
    exact hall _ ((hbit px py hpx hpy).1 hb)

/-- Witness for C7: the line from (3, 60) to (200, 2), whose far end is clamped
to column 127. -/
theorem C7_DrawLine_general_witness :
    129 ≤ 129 ∧ (Display.mk blackBuffer 0 0 0 1).Blank ∧
    min 3 127 ≠ min 200 127 ∧ min 60 63 ≠ min 2 63 ∧
    ∃ t, SSD1306_DrawLine 129 (Display.mk blackBuffer 0 0 0 1) 3 60 200 2 SSD1306_COLOR_WHITE
        = some t ∧
      t.litPixels.card =
        max (max (min 3 127) (min 200 127) - min (min 3 127) (min 200 127))
          (max (min 60 63) (min 2 63) - min (min 60 63) (min 2 63)) + 1 ∧
      t.getBit (min 3 127) (min 60 63) = true ∧
      t.getBit (min 200 127) (min 2 63) = true ∧
      ∀ px py, px < SSD1306_WIDTH → py < SSD1306_HEIGHT → t.getBit px py = true →
        inBox (min 3 127) (min 60 63) (min 200 127) (min 2 63) px py :=
  ⟨le_refl 129, ⟨rfl, rfl⟩, by decide, by decide,
    C7_DrawLine_general 129 (le_refl 129) (Display.mk blackBuffer 0 0 0 1) ⟨rfl, rfl⟩
      3 60 200 2 (by decide) (by decide)⟩

/-! ## Claim C20: drawing commutes with software inversion -/

theorem DrawPixel_WF (s : Display) (hs : s.WF) (x y c : Nat) : (SSD1306_DrawPixel s x y c).WF := by
  obtain ⟨h1, h2, h3, h4, h5, h6⟩ := hs
  obtain ⟨g1, g2, g3, g4, g5⟩ := DrawPixel_frame s x y c
  refine ⟨g1.trans h1, ?_, by rw [g2]; exact h3, by rw [g3]; exact h4, by rw [g4]; exact h5,
    by rw [g5]; exact h6⟩
  by_cases hb : x < SSD1306_WIDTH ∧ y < SSD1306_HEIGHT
  · rw [DrawPixel_eq s x y c hb.1 hb.2]
    intro b hb2
    rcases List.mem_or_eq_of_mem_set hb2 with hm | rfl
    · exact h2 b hm
    · split_ifs <;> exact Nat.mod_lt _ (by norm_num)
  · rw [DrawPixel_oob s x y c (by omega)]
    exact h2

theorem ToggleInvert_byte (s : Display) (hs : s.WF) (i : Nat) (hi : i < 1024) :
    (SSD1306_ToggleInvert s).byte i = 255 - s.byte i := by
  have hlen : s.SSD1306_Buffer_all.length = 1024 := hs.1
  obtain ⟨-, -, -, -, -, a6⟩ := ToggleInvert_spec s
  rw [a6 i, if_pos ⟨hi, by omega⟩, u8_not _ (byte_lt s hs i)]

theorem ToggleInvert_testBit (s : Display) (hs : s.WF) (i k : Nat) (hi : i < 1024) :
    ((SSD1306_ToggleInvert s).byte i).testBit k = (decide (k < 8) && !(s.byte i).testBit k) := by
  rw [ToggleInvert_byte s hs i hi]
  by_cases hk : k < 8
  · rw [testBit_compl _ _ (byte_lt s hs i) hk]
    simp [hk]
  · rw [testBit_byte_high _ _ (by have := byte_lt s hs i; omega) (by omega)]
    simp [hk]

theorem ToggleInvert_WF (s : Display) (hs : s.WF) : (SSD1306_ToggleInvert s).WF := by
  obtain ⟨a1, a2, a3, a4, a5, a6⟩ := ToggleInvert_spec s
  obtain ⟨h1, h2, h3, h4, h5, h6⟩ := hs
  refine ⟨a5.trans h1, ?_, by rw [a1]; exact h3, by rw [a2]; exact h4, ?_, by rw [a4]; exact h6⟩
  · intro b hb
    obtain ⟨n, hn, rfl⟩ := List.getElem_of_mem hb
    have hn2 : n < 1024 := by
      rw [a5, h1] at hn
      exact hn
    have := ToggleInvert_byte s ⟨h1, h2, h3, h4, h5, h6⟩ n hn2
    unfold Display.byte at this
    rw [List.getD_eq_getElem _ _ hn] at this
    rw [this]
    omega
  · rw [a3]
    unfold lnot
    split_ifs <;> norm_num

theorem Fill_buffer (t : Display) (d : Nat) (ht : t.SSD1306_Buffer_all.length = 1024) :
    (SSD1306_Fill t d).SSD1306_Buffer_all =
      List.replicate 1024
        (if (if t.Inverted ≠ 0 then lnot d else d) = SSD1306_COLOR_BLACK then 0x00 else 0xFF) := by
  unfold SSD1306_Fill
  dsimp only
  rw [memset_full _ _ ht]

theorem Fill_frame (s : Display) (c : Nat) :
    (SSD1306_Fill s c).CurrentX = s.CurrentX ∧ (SSD1306_Fill s c).CurrentY = s.CurrentY ∧
    (SSD1306_Fill s c).Inverted = s.Inverted ∧ (SSD1306_Fill s c).Initialized = s.Initialized :=
  ⟨rfl, rfl, rfl, rfl⟩

theorem Fill_WF (s : Display) (hs : s.WF) (c : Nat) : (SSD1306_Fill s c).WF := by
  obtain ⟨h1, h2, h3, h4, h5, h6⟩ := hs
  have hb := Fill_buffer s c h1
  refine ⟨by rw [hb, List.length_replicate]; rfl, ?_, h3, h4, h5, h6⟩
  intro b hb2
  rw [hb, List.mem_replicate] at hb2
  rw [hb2.2]
  split_ifs <;> norm_num

theorem replicate_getD (v j : Nat) (hj : j < 1024) : (List.replicate 1024 v).getD j 0 = v := by
  rw [List.getD_eq_getElem _ _ (by rw [List.length_replicate]; exact hj), List.getElem_replicate]

/-- The state after toggling and then drawing a pixel equals the state after
drawing and then toggling. -/
theorem Toggle_DrawPixel_comm (s : Display) (hs : s.WF) (x y c : Nat)
    (hc : c = SSD1306_COLOR_BLACK ∨ c = SSD1306_COLOR_WHITE) :
    SSD1306_ToggleInvert (SSD1306_DrawPixel s x y c)
      = SSD1306_DrawPixel (SSD1306_ToggleInvert s) x y c := by
  have hlen : s.SSD1306_Buffer_all.length = 1024 := hs.1
  by_cases hb : x < SSD1306_WIDTH ∧ y < SSD1306_HEIGHT
  · obtain ⟨hx, hy⟩ := hb
    have hsd := DrawPixel_WF s hs x y c
    have hst := ToggleInvert_WF s hs
    obtain ⟨a1, a2, a3, a4, a5, -⟩ := ToggleInvert_spec (SSD1306_DrawPixel s x y c)
    obtain ⟨b1, b2, b3, b4, b5, -⟩ := ToggleInvert_spec s
    obtain ⟨g1, g2, g3, g4, g5⟩ := DrawPixel_frame s x y c
    obtain ⟨k1, k2, k3, k4, k5⟩ := DrawPixel_frame (SSD1306_ToggleInvert s) x y c
    refine Display_ext _ _ ?_ (by rw [a1, g2, k2, b1]) (by rw [a2, g3, k3, b2])
      (by rw [a3, g4, k4, b3]) (by rw [a4, g5, k5, b4])
    apply buffer_ext _ _ (by rw [a5, g1, k1, b5])
    intro j hj
    rw [a5, g1, hlen] at hj
    apply Nat.eq_of_testBit_eq
    intro k
    have e1 := ToggleInvert_testBit (SSD1306_DrawPixel s x y c) hsd j k hj
    have e2 := DrawPixel_testBit s x y c j k hlen hx hy
    have e3 := DrawPixel_testBit (SSD1306_ToggleInvert s) x y c j k hst.1 hx hy
    have e4 := ToggleInvert_testBit s hs j k hj
    unfold Display.byte at e1 e2 e3 e4
    rw [e1, e2, e3, e4, b3]
    by_cases hj2 : j = x + (y / 8) * SSD1306_WIDTH
    · simp only [hj2, if_true]
      by_cases hk : k = y % 8
      · simp only [hk, if_true]
        have hk8 : y % 8 < 8 := Nat.mod_lt _ (by norm_num)
        rcases hc with rfl | rfl <;> by_cases hi : s.Inverted = 0 <;>
          simp [hi, lnot, hk8, SSD1306_COLOR_BLACK, SSD1306_COLOR_WHITE]
      · simp only [hk, if_false]
        cases decide (k < 8) <;> simp
    · simp only [hj2, if_false]
  · have hoob : SSD1306_WIDTH ≤ x ∨ SSD1306_HEIGHT ≤ y := by omega
    rw [DrawPixel_oob s x y c hoob, DrawPixel_oob _ x y c hoob]

/-- The state after toggling and then filling equals the state after filling
and then toggling. -/
theorem Toggle_Fill_comm (s : Display) (hs : s.WF) (c : Nat)
    (hc : c = SSD1306_COLOR_BLACK ∨ c = SSD1306_COLOR_WHITE) :
    SSD1306_ToggleInvert (SSD1306_Fill s c) = SSD1306_Fill (SSD1306_ToggleInvert s) c := by
  have hlen : s.SSD1306_Buffer_all.length = 1024 := hs.1
  have hsf := Fill_WF s hs c
  have hst := ToggleInvert_WF s hs
  obtain ⟨a1, a2, a3, a4, a5, -⟩ := ToggleInvert_spec (SSD1306_Fill s c)
  obtain ⟨b1, b2, b3, b4, b5, -⟩ := ToggleInvert_spec s
  have f1 := Fill_buffer s c hlen
  have f2 := Fill_buffer (SSD1306_ToggleInvert s) c hst.1
  obtain ⟨c1, c2, c3, c4⟩ := Fill_frame s c
  obtain ⟨d1, d2, d3, d4⟩ := Fill_frame (SSD1306_ToggleInvert s) c
  refine Display_ext _ _ ?_ (by rw [a1, c1, d1, b1]) (by rw [a2, c2, d2, b2])
    (by rw [a3, c3, d3, b3]) (by rw [a4, c4, d4, b4])
  apply buffer_ext _ _ (by rw [a5, f1, f2, List.length_replicate, List.length_replicate])
  intro j hj
  rw [a5, hsf.1] at hj
  have e1 := ToggleInvert_byte (SSD1306_Fill s c) hsf j hj
  unfold Display.byte at e1
  rw [e1, f1, f2, replicate_getD _ _ hj, replicate_getD _ _ hj, b3]
  clear e1 f1 f2 hst hsf
  rcases hc with rfl | rfl <;> by_cases hi : s.Inverted = 0 <;>
    simp [hi, lnot, SSD1306_COLOR_BLACK, SSD1306_COLOR_WHITE]

/-- C20: on a well-typed display state, for every pixel `(x, y)` (in range or
not) and every colour in {black, white}, `SSD1306_DrawPixel` followed by
`SSD1306_ToggleInvert` gives exactly the state of `SSD1306_ToggleInvert`
followed by `SSD1306_DrawPixel`, and likewise for `SSD1306_Fill`; hence the
framebuffer produced by a draw call on the inverted display is the bytewise
complement of the framebuffer the same call produces on the display itself. -/
theorem C20_draw_commutes_with_invert (s : Display) (hs : s.WF) (x y c : Nat)
    (hc : c = SSD1306_COLOR_BLACK ∨ c = SSD1306_COLOR_WHITE) :
    SSD1306_ToggleInvert (SSD1306_DrawPixel s x y c)
      = SSD1306_DrawPixel (SSD1306_ToggleInvert s) x y c ∧
    SSD1306_ToggleInvert (SSD1306_Fill s c) = SSD1306_Fill (SSD1306_ToggleInvert s) c ∧
    (∀ i, i < 1024 → (SSD1306_DrawPixel (SSD1306_ToggleInvert s) x y c).byte i
      = 255 - (SSD1306_DrawPixel s x y c).byte i) ∧
    (∀ i, i < 1024 → (SSD1306_Fill (SSD1306_ToggleInvert s) c).byte i
      = 255 - (SSD1306_Fill s c).byte i) := by
  refine ⟨Toggle_DrawPixel_comm s hs x y c hc, Toggle_Fill_comm s hs c hc, ?_, ?_⟩
  · intro i hi
    rw [← Toggle_DrawPixel_comm s hs x y c hc]
    exact ToggleInvert_byte _ (DrawPixel_WF s hs x y c) i hi
  · intro i hi
    rw [← Toggle_Fill_comm s hs c hc]
    exact ToggleInvert_byte _ (Fill_WF s hs c) i hi

/-- Witness for C20: pixel (5, 10) drawn white on a blank display. -/
theorem C20_draw_commutes_with_invert_witness :
    (Display.mk blackBuffer 0 0 0 1).WF ∧
    SSD1306_ToggleInvert (SSD1306_DrawPixel (Display.mk blackBuffer 0 0 0 1) 5 10 1)
      = SSD1306_DrawPixel (SSD1306_ToggleInvert (Display.mk blackBuffer 0 0 0 1)) 5 10 1 :=
  ⟨blank_WF 0 0 0 1 (by decide) (by decide) (by decide) (by decide),
    (C20_draw_commutes_with_invert (Display.mk blackBuffer 0 0 0 1)
      (blank_WF 0 0 0 1 (by decide) (by decide) (by decide) (by decide)) 5 10 1
      (Or.inr rfl)).1⟩

/-! ## Frames and per-pixel colours -/

theorem SameFrame_refl (s : Display) : s.SameFrame s := ⟨rfl, rfl, rfl, rfl, rfl⟩

theorem SameFrame_trans (s t u : Display) (h1 : s.SameFrame t) (h2 : t.SameFrame u) :
    s.SameFrame u := by
  obtain ⟨a1, a2, a3, a4, a5⟩ := h1
  obtain ⟨b1, b2, b3, b4, b5⟩ := h2
  exact ⟨b1.trans a1, b2.trans a2, b3.trans a3, b4.trans a4, b5.trans a5⟩

theorem DrawPixel_SameFrame (s : Display) (x y c : Nat) :
    s.SameFrame (SSD1306_DrawPixel s x y c) := DrawPixel_frame s x y c

theorem drawCols_nil (s : Display) : drawCols s [] = s := rfl

theorem drawCols_cons (s : Display) (p : Nat × Nat × Nat) (l : List (Nat × Nat × Nat)) :
    drawCols s (p :: l) = drawCols (SSD1306_DrawPixel s p.1 p.2.1 p.2.2) l := rfl

theorem drawCols_append (s : Display) (l1 l2 : List (Nat × Nat × Nat)) :
    drawCols s (l1 ++ l2) = drawCols (drawCols s l1) l2 := by
  unfold drawCols
  rw [List.foldl_append]

theorem drawCols_SameFrame (l : List (Nat × Nat × Nat)) (s : Display) :
    s.SameFrame (drawCols s l) := by
  induction l generalizing s with
  | nil => exact SameFrame_refl s
  | cons p l ih =>
    rw [drawCols_cons]
    exact SameFrame_trans _ _ _ (DrawPixel_SameFrame s _ _ _) (ih _)

/-- A fold whose step draws a list of coloured pixels computed from the cursor
draws the concatenation of these lists. -/
theorem foldl_drawCols {β : Type} (g : Nat → Nat → β → List (Nat × Nat × Nat))
    (F : Display → β → Display)
    (hF : ∀ t b, F t b = drawCols t (g t.CurrentX t.CurrentY b)) (l : List β) (s : Display) :
    l.foldl F s = drawCols s (l.flatMap (g s.CurrentX s.CurrentY)) := by
  induction l generalizing s with
  | nil => rfl
  | cons a l ih =>
    rw [List.foldl_cons, ih, hF, List.flatMap_cons, drawCols_append]
    obtain ⟨-, h2, h3, -, -⟩ := drawCols_SameFrame (g s.CurrentX s.CurrentY a) s
    rw [h2, h3]

/-- A pixel that no entry of the list targets keeps its framebuffer bit. -/
theorem drawCols_getBit_other (l : List (Nat × Nat × Nat)) (s : Display) (px py : Nat)
    (hlen : s.SSD1306_Buffer_all.length = 1024) (hpx : px < SSD1306_WIDTH)
    (hno : ∀ p ∈ l, ¬ (p.1 = px ∧ p.2.1 = py)) :
    (drawCols s l).getBit px py = s.getBit px py := by
  induction l generalizing s with
  | nil => rfl
  | cons p l ih =>
    rw [drawCols_cons, ih _ ((DrawPixel_frame s _ _ _).1.trans hlen)
      (fun q hq => hno q (List.mem_cons_of_mem _ hq)),
      DrawPixel_getBit s _ _ _ px py hlen hpx, if_neg]
    intro h
    exact hno p (List.mem_cons_self _ _) ⟨h.1, h.2.1⟩

/-- With the invert flag clear, a pixel targeted by at least one entry, all of
whose entries agree on whether the colour is white, ends with that bit. -/
theorem drawCols_getBit_hit (l : List (Nat × Nat × Nat)) (s : Display) (px py : Nat) (v : Bool)
    (hlen : s.SSD1306_Buffer_all.length = 1024) (hinv : s.Inverted = 0)
    (hpx : px < SSD1306_WIDTH) (hpy : py < SSD1306_HEIGHT)
    (hex : ∃ p ∈ l, p.1 = px ∧ p.2.1 = py)
    (hall : ∀ p ∈ l, p.1 = px → p.2.1 = py → decide (p.2.2 = SSD1306_COLOR_WHITE) = v) :
    (drawCols s l).getBit px py = v := by
  induction l generalizing s with
  | nil =>
    obtain ⟨p, hp, -⟩ := hex
    exact absurd hp (List.not_mem_nil _)
  | cons p l ih =>
    rw [drawCols_cons]
    obtain ⟨g1, -, -, g4, -⟩ := DrawPixel_frame s p.1 p.2.1 p.2.2
    by_cases hrest : ∃ q ∈ l, q.1 = px ∧ q.2.1 = py
    · exact ih _ (g1.trans hlen) (g4.trans hinv) hrest
        (fun q hq => hall q (List.mem_cons_of_mem _ hq))
    · have hno : ∀ q ∈ l, ¬ (q.1 = px ∧ q.2.1 = py) := fun q hq h => hrest ⟨q, hq, h⟩
      have hp : p.1 = px ∧ p.2.1 = py := by
        obtain ⟨q, hq, h⟩ := hex
        rcases List.mem_cons.1 hq with rfl | hq
        · exact h
        · exact absurd h (hno q hq)
      rw [drawCols_getBit_other l _ px py (g1.trans hlen) hpx hno,
        DrawPixel_getBit s _ _ _ px py hlen hpx,
        if_pos ⟨hp.1, hp.2, by rw [hp.1]; exact hpx, by rw [hp.2]; exact hpy⟩]
      simp only [hinv, ne_eq, not_true_eq_false, if_false]
      exact hall p (List.mem_cons_self _ _) hp.1 hp.2

/-! ## `SSD1306_Putc` as a list of coloured pixels -/

theorem putcPixelMsb_eq (color i j b : Nat) (t : Display) (k : Nat) :
    putcPixelMsb color i j b t k
      = drawCols t [putcCmd 0 color t.CurrentX t.CurrentY i j b k] := by
  unfold putcPixelMsb putcCmd
  rw [drawCols_cons, drawCols_nil]
  simp only [if_true]
  split_ifs <;> rfl

theorem putcPixelLsb_eq (order color i j b : Nat) (horder : order ≠ 0) (t : Display) (k : Nat) :
    putcPixelLsb color i j b t k
      = drawCols t [putcCmd order color t.CurrentX t.CurrentY i j b k] := by
  unfold putcPixelLsb putcCmd
  rw [drawCols_cons, drawCols_nil]
  simp only [horder, if_false]
  split_ifs <;> rfl

theorem flatMap_singleton_map {α β : Type} (f : α → β) (l : List α) :
    l.flatMap (fun a => [f a]) = l.map f := by
  induction l with
  | nil => rfl
  | cons a l ih => rw [List.flatMap_cons, ih]; rfl

theorem putcByte_eq (font : FontDef_t) (ch color i : Nat) (t : Display) (j : Nat) :
    putcByte font ch color i t j
      = drawCols t (putcByteCmds font ch color i t.CurrentX t.CurrentY j) := by
  unfold putcByte putcByteCmds
  dsimp only
  by_cases ho : font.order = 0
  · rw [if_pos ho, foldl_drawCols (fun cx cy k => [putcCmd 0 color cx cy i j _ k]) _
      (fun u k => putcPixelMsb_eq color i j _ u k), flatMap_singleton_map, ho]
  · rw [if_neg ho, foldl_drawCols (fun cx cy k => [putcCmd font.order color cx cy i j _ k]) _
      (fun u k => putcPixelLsb_eq font.order color i j _ ho u k), flatMap_singleton_map]

theorem putcRow_eq (font : FontDef_t) (ch color : Nat) (t : Display) (i : Nat) :
    putcRow font ch color t i
      = drawCols t (putcRowCmds font ch color t.CurrentX t.CurrentY i) := by
  unfold putcRow putcRowCmds
  rw [foldl_drawCols (fun cx cy j => putcByteCmds font ch color i cx cy j) _
    (fun u j => putcByte_eq font ch color i u j)]

/-- `SSD1306_Putc` returns its character, draws the pixels of the glyph cell
row by row, and then advances `CurrentX` by the font width. -/
theorem Putc_eq (s : Display) (ch : Nat) (font : FontDef_t) (color : Nat) :
    (SSD1306_Putc s ch font color).1 = ch ∧
    ∃ t, t = drawCols s
        ((List.range font.height).flatMap (putcRowCmds font ch color s.CurrentX s.CurrentY)) ∧
      (SSD1306_Putc s ch font color).2
        = ⟨t.SSD1306_Buffer_all, (s.CurrentX + font.width) % 65536, s.CurrentY, s.Inverted,
            s.Initialized⟩ := by
  refine ⟨rfl, _, rfl, ?_⟩
  unfold SSD1306_Putc
  dsimp only
  rw [foldl_drawCols (fun cx cy i => putcRowCmds font ch color cx cy i) _
    (fun u i => putcRow_eq font ch color u i)]
  obtain ⟨-, h2, h3, h4, h5⟩ := drawCols_SameFrame
    ((List.range font.height).flatMap (putcRowCmds font ch color s.CurrentX s.CurrentY)) s
  apply Display_ext
  · rfl
  · dsimp only
    rw [h2]
    unfold u16
    omega
  · exact h3
  · exact h4
  · exact h5

/-! ## Claim C12: strings -/

theorem Putc_cursor (s : Display) (ch : Nat) (font : FontDef_t) (color : Nat) :
    (SSD1306_Putc s ch font color).2.CurrentX = (s.CurrentX + font.width) % 65536 ∧
    (SSD1306_Putc s ch font color).2.CurrentY = s.CurrentY := by
  obtain ⟨-, t, -, e⟩ := Putc_eq s ch font color
  rw [e]
  exact ⟨rfl, rfl⟩

theorem Puts_eq_foldl (font : FontDef_t) (color : Nat) (str : List Nat) :
    ∀ s : Display, (∀ ch ∈ str, ch ≠ 0) →
      SSD1306_Puts s str font color
        = (0, str.foldl (fun t ch => (SSD1306_Putc t ch font color).2) s) := by
  induction str with
  | nil =>
    intro s _
    rfl
  | cons ch rest ih =>
    intro s hne
    have h0 : ch ≠ 0 := hne ch (List.mem_cons_self _ _)
    have hr : (SSD1306_Putc s ch font color).1 = ch := rfl
    unfold SSD1306_Puts
    rw [if_neg h0, if_neg (by rw [hr]; exact fun h => h rfl),
      ih _ (fun c hc => hne c (List.mem_cons_of_mem _ hc))]
    rfl

theorem foldl_Putc_cursor (font : FontDef_t) (color : Nat) (str : List Nat) :
    ∀ s : Display, s.CurrentX < 65536 →
      (str.foldl (fun t ch => (SSD1306_Putc t ch font color).2) s).CurrentX
        = (s.CurrentX + str.length * font.width) % 65536 ∧
      (str.foldl (fun t ch => (SSD1306_Putc t ch font color).2) s).CurrentY = s.CurrentY := by
  induction str with
  | nil =>
    intro s hs
    simp only [List.foldl_nil, List.length_nil, Nat.zero_mul, Nat.add_zero]
    exact ⟨(Nat.mod_eq_of_lt hs).symm, trivial⟩
  | cons ch rest ih =>
    intro s _
    obtain ⟨c1, c2⟩ := Putc_cursor s ch font color
    obtain ⟨h1, h2⟩ := ih (SSD1306_Putc s ch font color).2
      (by rw [c1]; exact Nat.mod_lt _ (by norm_num))
    rw [List.foldl_cons, h1, h2, c1, c2, List.length_cons, Nat.succ_mul]
    refine ⟨?_, rfl⟩
    omega

/-- C12: for every font, colour and well-typed display state and every string
of characters in 32..126, `SSD1306_Puts` returns 0; its final state is that of
calling `SSD1306_Putc` on each character in order; every such call returns the
character it was given; the cursor ends at
`X = (X_before + len(s) * font.width) mod 2^16` with `Y` unchanged. -/
theorem C12_Puts (s : Display) (hs : s.WF) (font : FontDef_t) (color : Nat) (str : List Nat)
    (hstr : ∀ ch ∈ str, 32 ≤ ch ∧ ch ≤ 126) :
    (SSD1306_Puts s str font color).1 = 0 ∧
    (SSD1306_Puts s str font color).2
      = str.foldl (fun t ch => (SSD1306_Putc t ch font color).2) s ∧
    (∀ (t : Display) (ch : Nat), (SSD1306_Putc t ch font color).1 = ch) ∧
    (SSD1306_Puts s str font color).2.CurrentX
      = (s.CurrentX + str.length * font.width) % 65536 ∧
    (SSD1306_Puts s str font color).2.CurrentY = s.CurrentY := by
  have hne : ∀ ch ∈ str, ch ≠ 0 := by
    intro ch hch
    have := hstr ch hch
    omega
  have e := Puts_eq_foldl font color str s hne
  obtain ⟨h1, h2⟩ := foldl_Putc_cursor font color str s hs.2.2.1
  rw [e]
  exact ⟨rfl, rfl, fun _ _ => rfl, h1, h2⟩

/-- Witness for C12: the two-character string with codes 72 and 105 in a font
7 pixels wide, with the cursor at column 100. -/
theorem C12_Puts_witness :
    (Display.mk blackBuffer 100 0 0 1).WF ∧ (∀ ch ∈ [72, 105], 32 ≤ ch ∧ ch ≤ 126) ∧
    (SSD1306_Puts (Display.mk blackBuffer 100 0 0 1) [72, 105] (FontDef_t.mk 7 10 0 1 (List.replicate 950 0)) 1).1
      = 0 ∧
    (SSD1306_Puts (Display.mk blackBuffer 100 0 0 1) [72, 105]
        (FontDef_t.mk 7 10 0 1 (List.replicate 950 0)) 1).2.CurrentX
      = (100 + [72, 105].length * 7) % 65536 :=
  ⟨blank_WF 100 0 0 1 (by decide) (by decide) (by decide) (by decide), by decide,
    (C12_Puts (Display.mk blackBuffer 100 0 0 1)
      (blank_WF 100 0 0 1 (by decide) (by decide) (by decide) (by decide))
      (FontDef_t.mk 7 10 0 1 (List.replicate 950 0)) 1 [72, 105] (by decide)).1,
    (C12_Puts (Display.mk blackBuffer 100 0 0 1)
      (blank_WF 100 0 0 1 (by decide) (by decide) (by decide) (by decide))
      (FontDef_t.mk 7 10 0 1 (List.replicate 950 0)) 1 [72, 105] (by decide)).2.2.2.1⟩

/-! ## Claim C14: initialisation -/

theorem foldl_WriteCommand (cmds : List Nat) (log : List BusWrite) :
    cmds.foldl SSD1306_WriteCommand log = log ++ cmds.map BusWrite.command := by
  induction cmds generalizing log with
  | nil => simp
  | cons c cmds ih =>
    rw [List.foldl_cons, ih]
    unfold SSD1306_WriteCommand
    simp

/-- C14: from every well-typed prior state and every prior bus log,
`SSD1306_Init` returns 1, leaves the cursor at (0, 0), the initialized flag at
1 and the invert flag unchanged; the framebuffer is that of
`SSD1306_Fill(black)` (1024 bytes, all 0x00 when the invert flag is clear); the
bus log grows by 31 command bytes, of which charge-pump enable (0x8D, 0x14)
and display-on (0xAF) are the last three, followed by exactly one data block,
the cleared framebuffer. -/
theorem C14_Init (s : Display) (hs : s.WF) (log : List BusWrite) :
    (SSD1306_Init s log).1 = 1 ∧
    (SSD1306_Init s log).2.1.CurrentX = 0 ∧
    (SSD1306_Init s log).2.1.CurrentY = 0 ∧
    (SSD1306_Init s log).2.1.Initialized = 1 ∧
    (SSD1306_Init s log).2.1.Inverted = s.Inverted ∧
    (SSD1306_Init s log).2.1.SSD1306_Buffer_all
      = (SSD1306_Fill s SSD1306_COLOR_BLACK).SSD1306_Buffer_all ∧
    (SSD1306_Init s log).2.1.SSD1306_Buffer_all.length = 1024 ∧
    (s.Inverted = 0 → (SSD1306_Init s log).2.1.SSD1306_Buffer_all = List.replicate 1024 0) ∧
    (∃ cmds : List Nat, cmds.length = 28 ∧
      (SSD1306_Init s log).2.2
        = log ++ (cmds ++ [0x8D, 0x14, 0xAF]).map BusWrite.command
            ++ [BusWrite.data (SSD1306_Init s log).2.1.SSD1306_Buffer_all]) := by
  have hlen : s.SSD1306_Buffer_all.length = 1024 := hs.1
  have hb := Fill_buffer s SSD1306_COLOR_BLACK hlen
  have hfl : (SSD1306_Fill s SSD1306_COLOR_BLACK).SSD1306_Buffer_all.length = 1024 := by
    rw [hb, List.length_replicate]
  refine ⟨rfl, rfl, rfl, rfl, rfl, rfl, hfl, ?_, initCommands.take 28, rfl, ?_⟩
  · intro hinv
    show (SSD1306_Fill s SSD1306_COLOR_BLACK).SSD1306_Buffer_all = _
    rw [hb, hinv]
    rfl
  · have e1 : (SSD1306_Init s log).2.2 = SSD1306_UpdateScreen
        (SSD1306_Fill s SSD1306_COLOR_BLACK) (initCommands.foldl SSD1306_WriteCommand log) := rfl
    have e2 : (SSD1306_Init s log).2.1.SSD1306_Buffer_all
        = (SSD1306_Fill s SSD1306_COLOR_BLACK).SSD1306_Buffer_all := rfl
    have e3 : initCommands.take 28 ++ [0x8D, 0x14, 0xAF] = initCommands := by decide
    rw [e1, e2, e3]
    unfold SSD1306_UpdateScreen
    rw [foldl_WriteCommand, bufsize_eq, List.take_of_length_le (by omega)]

/-- Witness for C14: initialisation of a blank display with an empty log. -/
theorem C14_Init_witness :
    (Display.mk blackBuffer 9 9 0 0).WF ∧
    (SSD1306_Init (Display.mk blackBuffer 9 9 0 0) []).1 = 1 ∧
    (SSD1306_Init (Display.mk blackBuffer 9 9 0 0) []).2.1.CurrentX = 0 :=
  ⟨blank_WF 9 9 0 0 (by decide) (by decide) (by decide) (by decide),
    (C14_Init (Display.mk blackBuffer 9 9 0 0)
      (blank_WF 9 9 0 0 (by decide) (by decide) (by decide) (by decide)) []).1,
    (C14_Init (Display.mk blackBuffer 9 9 0 0)
      (blank_WF 9 9 0 0 (by decide) (by decide) (by decide) (by decide)) []).2.1⟩

/-! ## Claim C11: glyphs -/

theorem and_two_pow_ne_zero (n i : Nat) : n &&& 2 ^ i ≠ 0 ↔ n.testBit i = true := by
  rw [Nat.and_two_pow]
  have hp : 0 < 2 ^ i := Nat.two_pow_pos i
  cases h : n.testBit i
  · simp
  · simp only [Bool.toNat_true, Nat.one_mul, ne_eq, iff_true]
    omega

theorem msb_test (b k : Nat) (hk : k < 8) :
    ((b <<< k) % 4294967296) &&& 0x80 ≠ 0 ↔ b.testBit (7 - k) = true := by
  rw [show (0x80 : Nat) = 2 ^ 7 from rfl, and_two_pow_ne_zero,
    show (4294967296 : Nat) = 2 ^ 32 from rfl, Nat.testBit_mod_two_pow, Nat.testBit_shiftLeft]
  have h7 : 7 ≥ k := by omega
  simp [h7]

theorem lsb_test (b k : Nat) : b &&& (1 <<< k) ≠ 0 ↔ b.testBit k = true := by
  rw [Nat.one_shiftLeft, and_two_pow_ne_zero]

/-- The pixel drawn by the pass `(i, j, k)` of `SSD1306_Putc` is pixel
`(cx + c, cy + i)` with `c = j * 8 + k`, coloured by the glyph bit. -/
theorem putcCmd_glyph (font : FontDef_t) (ch color cx cy i j k : Nat)
    (hw : font.width < 256) (hh : font.height < 256) (hb : font.bytes ≤ 32)
    (hch : 32 ≤ ch ∧ ch ≤ 126) (hcx : cx + font.width ≤ 128) (hcy : cy + font.height ≤ 64)
    (hi : i < font.height) (hj : j < font.bytes) (hk : k < 8) (hc : j * 8 + k < font.width) :
    putcCmd font.order color cx cy i j
        (font.data.getD (u32 ((((ch : Int) - 32) * font.height + i) * font.bytes + j)) 0) k
      = (cx + (j * 8 + k), cy + i,
          if glyphBit font ch i (j * 8 + k) = true then color else lnot color) := by
  have h1 : (ch - 32) * font.height ≤ 94 * 255 := Nat.mul_le_mul (by omega) (by omega)
  have h2 : ((ch - 32) * font.height + i) * font.bytes ≤ (94 * 255 + 255) * 32 :=
    Nat.mul_le_mul (by omega) hb
  have hidx : u32 ((((ch : Int) - 32) * font.height + i) * font.bytes + j)
      = ((ch - 32) * font.height + i) * font.bytes + j := by
    have e : (((ch : Int) - 32) * font.height + i) * font.bytes + j
        = ((((ch - 32) * font.height + i) * font.bytes + j : Nat) : Int) := by
      push_cast [Nat.cast_sub hch.1]
      ring
    rw [e]
    unfold u32
    omega
  have hdiv : (j * 8 + k) / 8 = j := by omega
  have hmod : (j * 8 + k) % 8 = k := by omega
  have hx : u16 ((cx : Int) + j * 8 + k) = cx + (j * 8 + k) := by
    unfold u16
    omega
  have hy : u16 ((cy : Int) + i) = cy + i := by
    unfold u16
    omega
  unfold putcCmd glyphBit
  rw [hidx, hx, hy, hdiv, hmod]
  by_cases ho : font.order = 0
  · simp only [ho, if_true, msb_test _ _ hk]
  · simp only [ho, if_false, lsb_test]

/-- The pixels drawn by `SSD1306_Putc` are exactly the pixels of the glyph cell,
each coloured by its glyph bit. -/
theorem mem_putcCmds (font : FontDef_t) (ch color cx cy : Nat)
    (hbytes : font.bytes = (font.width + 7) / 8)
    (hw : font.width < 256) (hh : font.height < 256)
    (hch : 32 ≤ ch ∧ ch ≤ 126) (hcx : cx + font.width ≤ 128) (hcy : cy + font.height ≤ 64)
    (p : Nat × Nat × Nat) :
    p ∈ (List.range font.height).flatMap (putcRowCmds font ch color cx cy) ↔
      ∃ i c, i < font.height ∧ c < font.width ∧
        p = (cx + c, cy + i, if glyphBit font ch i c = true then color else lnot color) := by
  have hb : font.bytes ≤ 32 := by omega
  simp only [List.mem_flatMap, List.mem_map, List.mem_range, putcRowCmds, putcByteCmds]
  constructor
  · rintro ⟨i, hi, j, hj, k, hk, rfl⟩
    have hu : u32 ((font.width : Int) - j * 8) = font.width - j * 8 := by
      unfold u32
      omega
    rw [hu] at hk
    refine ⟨i, j * 8 + k, hi, by omega, ?_⟩
    exact putcCmd_glyph font ch color cx cy i j k hw hh hb hch hcx hcy hi hj (by omega) (by omega)
  · rintro ⟨i, c, hi, hc, rfl⟩
    have hj : c / 8 < font.bytes := by omega
    have hu : u32 ((font.width : Int) - (c / 8 : Nat) * 8) = font.width - c / 8 * 8 := by
      unfold u32
      omega
    refine ⟨i, hi, c / 8, hj, c % 8, by rw [hu]; omega, ?_⟩
    have := putcCmd_glyph font ch color cx cy i (c / 8) (c % 8) hw hh hb hch hcx hcy hi hj
      (by omega) (by omega)
    rw [this, show c / 8 * 8 + c % 8 = c by omega]

theorem getBit_congr (s t : Display) (h : s.SSD1306_Buffer_all = t.SSD1306_Buffer_all)
    (px py : Nat) : s.getBit px py = t.getBit px py := by
  unfold Display.getBit Display.byte
  rw [h]

/-- C11: for a well-typed display state with the invert flag clear, a font with
`bytes = ceil(width / 8)` (width and height 8-bit values), a character `ch` in
32..126 whose rows are present in the font table, a colour in {black, white}
and a cursor `(cx, cy)` with `cx + width ≤ 128`, `cy + height ≤ 64`: after
`SSD1306_Putc`, for every row `i < height` and column `c < width`, pixel
`(cx + c, cy + i)` is set exactly when the colour is white if the glyph bit is
set, and exactly when the colour is black otherwise; every pixel outside the
width x height cell is unchanged. -/
theorem C11_Putc_glyph (s : Display) (hs : s.WF) (hinv : s.Inverted = 0) (font : FontDef_t)
    (hbytes : font.bytes = (font.width + 7) / 8)
    (hw : font.width < 256) (hh : font.height < 256)
    (ch : Nat) (hch : 32 ≤ ch ∧ ch ≤ 126)
    (_htable : ((ch - 32) * font.height + font.height) * font.bytes ≤ font.data.length)
    (color : Nat) (hcol : color = SSD1306_COLOR_BLACK ∨ color = SSD1306_COLOR_WHITE)
    (hcx : s.CurrentX + font.width ≤ 128) (hcy : s.CurrentY + font.height ≤ 64) :
    (∀ i c, i < font.height → c < font.width →
      (SSD1306_Putc s ch font color).2.getBit (s.CurrentX + c) (s.CurrentY + i)
        = if glyphBit font ch i c = true then decide (color = SSD1306_COLOR_WHITE)
          else decide (color = SSD1306_COLOR_BLACK)) ∧
    (∀ px py, px < SSD1306_WIDTH → py < SSD1306_HEIGHT →
      ¬ (s.CurrentX ≤ px ∧ px < s.CurrentX + font.width ∧
          s.CurrentY ≤ py ∧ py < s.CurrentY + font.height) →
      (SSD1306_Putc s ch font color).2.getBit px py = s.getBit px py) := by
  have hlen : s.SSD1306_Buffer_all.length = 1024 := hs.1
  obtain ⟨-, t, ht, e⟩ := Putc_eq s ch font color
  have hmem := mem_putcCmds font ch color s.CurrentX s.CurrentY hbytes hw hh hch hcx hcy
  have hg : ∀ px py, (SSD1306_Putc s ch font color).2.getBit px py = t.getBit px py := by
    intro px py
    rw [e]
    exact getBit_congr _ _ rfl px py
  constructor
  · intro i c hi hc
    rw [hg, ht]
    apply drawCols_getBit_hit _ s _ _ _ hlen hinv
      (by simp only [width_eq]; omega) (by simp only [height_eq]; omega)
    · exact ⟨_, (hmem _).2 ⟨i, c, hi, hc, rfl⟩, rfl, rfl⟩
    · intro p hp h1 h2
      obtain ⟨i2, c2, hi2, hc2, rfl⟩ := (hmem p).1 hp
      simp only at h1 h2
      have hci : c2 = c := by omega
      have hii : i2 = i := by omega
      subst hci
      subst hii
      simp only
      rcases hcol with rfl | rfl <;> cases glyphBit font ch i2 c2 <;>
        simp [lnot, SSD1306_COLOR_BLACK, SSD1306_COLOR_WHITE]
  · intro px py hpx hpy hout
    rw [hg, ht]
    apply drawCols_getBit_other _ s _ _ hlen hpx
    intro p hp h
    obtain ⟨i2, c2, hi2, hc2, rfl⟩ := (hmem p).1 hp
    simp only at h
    apply hout
    omega

/-- Witness for C11: a font of 5 by 2 pixel glyphs, most significant bit first, whose glyph
for the space character has the rows `0xA8` (bits 7, 5, 3: columns 0, 2, 4) and `0x50`
(bits 6, 4: columns 1, 3), drawn in white at the cursor (3, 4) of a blank display: pixels
(3, 4) and (4, 5) are set, pixels (4, 4) and (3, 5) are clear. -/
theorem C11_Putc_glyph_witness :
    (Display.mk blackBuffer 3 4 0 1).WF ∧ (Display.mk blackBuffer 3 4 0 1).Inverted = 0 ∧
    (FontDef_t.mk 5 2 0 1 [0xA8, 0x50]).bytes = ((FontDef_t.mk 5 2 0 1 [0xA8, 0x50]).width + 7) / 8 ∧
    (FontDef_t.mk 5 2 0 1 [0xA8, 0x50]).width < 256 ∧ (FontDef_t.mk 5 2 0 1 [0xA8, 0x50]).height < 256 ∧ (32 ≤ 32 ∧ 32 ≤ 126) ∧
    ((32 - 32) * (FontDef_t.mk 5 2 0 1 [0xA8, 0x50]).height + (FontDef_t.mk 5 2 0 1 [0xA8, 0x50]).height) * (FontDef_t.mk 5 2 0 1 [0xA8, 0x50]).bytes ≤ (FontDef_t.mk 5 2 0 1 [0xA8, 0x50]).data.length ∧
    (1 = SSD1306_COLOR_BLACK ∨ 1 = SSD1306_COLOR_WHITE) ∧
    (Display.mk blackBuffer 3 4 0 1).CurrentX + (FontDef_t.mk 5 2 0 1 [0xA8, 0x50]).width ≤ 128 ∧ (Display.mk blackBuffer 3 4 0 1).CurrentY + (FontDef_t.mk 5 2 0 1 [0xA8, 0x50]).height ≤ 64 ∧
    (∀ i c, i < (FontDef_t.mk 5 2 0 1 [0xA8, 0x50]).height → c < (FontDef_t.mk 5 2 0 1 [0xA8, 0x50]).width →
      (SSD1306_Putc (Display.mk blackBuffer 3 4 0 1) 32 (FontDef_t.mk 5 2 0 1 [0xA8, 0x50]) 1).2.getBit ((Display.mk blackBuffer 3 4 0 1).CurrentX + c) ((Display.mk blackBuffer 3 4 0 1).CurrentY + i)
        = if glyphBit (FontDef_t.mk 5 2 0 1 [0xA8, 0x50]) 32 i c = true then decide (1 = SSD1306_COLOR_WHITE)
          else decide (1 = SSD1306_COLOR_BLACK)) ∧
    (∀ px py, px < SSD1306_WIDTH → py < SSD1306_HEIGHT →
      ¬ ((Display.mk blackBuffer 3 4 0 1).CurrentX ≤ px ∧ px < (Display.mk blackBuffer 3 4 0 1).CurrentX + (FontDef_t.mk 5 2 0 1 [0xA8, 0x50]).width ∧
          (Display.mk blackBuffer 3 4 0 1).CurrentY ≤ py ∧ py < (Display.mk blackBuffer 3 4 0 1).CurrentY + (FontDef_t.mk 5 2 0 1 [0xA8, 0x50]).height) →
      (SSD1306_Putc (Display.mk blackBuffer 3 4 0 1) 32 (FontDef_t.mk 5 2 0 1 [0xA8, 0x50]) 1).2.getBit px py = (Display.mk blackBuffer 3 4 0 1).getBit px py) ∧
    glyphBit (FontDef_t.mk 5 2 0 1 [0xA8, 0x50]) 32 0 0 = true ∧ glyphBit (FontDef_t.mk 5 2 0 1 [0xA8, 0x50]) 32 0 1 = false ∧
    glyphBit (FontDef_t.mk 5 2 0 1 [0xA8, 0x50]) 32 1 0 = false ∧ glyphBit (FontDef_t.mk 5 2 0 1 [0xA8, 0x50]) 32 1 1 = true ∧
    (SSD1306_Putc (Display.mk blackBuffer 3 4 0 1) 32 (FontDef_t.mk 5 2 0 1 [0xA8, 0x50]) 1).2.getBit 3 4 = true ∧
    (SSD1306_Putc (Display.mk blackBuffer 3 4 0 1) 32 (FontDef_t.mk 5 2 0 1 [0xA8, 0x50]) 1).2.getBit 4 4 = false ∧
    (SSD1306_Putc (Display.mk blackBuffer 3 4 0 1) 32 (FontDef_t.mk 5 2 0 1 [0xA8, 0x50]) 1).2.getBit 3 5 = false ∧
    (SSD1306_Putc (Display.mk blackBuffer 3 4 0 1) 32 (FontDef_t.mk 5 2 0 1 [0xA8, 0x50]) 1).2.getBit 4 5 = true := by
  have hwf := blank_WF 3 4 0 1 (by decide) (by decide) (by decide) (by decide)
  have h := C11_Putc_glyph (Display.mk blackBuffer 3 4 0 1) hwf rfl (FontDef_t.mk 5 2 0 1 [0xA8, 0x50]) (by decide) (by decide) (by decide) 32
    (by decide) (by decide) 1 (Or.inr rfl) (by decide) (by decide)
  refine ⟨hwf, rfl, by decide, by decide, by decide, by decide, by decide, Or.inr rfl,
    by decide, by decide, h.1, h.2, by decide, by decide, by decide, by decide, ?_, ?_, ?_, ?_⟩
  · exact (h.1 0 0 (by decide) (by decide)).trans (by decide)
  · exact (h.1 0 1 (by decide) (by decide)).trans (by decide)
  · exact (h.1 1 0 (by decide) (by decide)).trans (by decide)
  · exact (h.1 1 1 (by decide) (by decide)).trans (by decide)

/-! ## Claim C13: bitmap images -/

theorem imagePixel_eq (img : List Nat) (x y start i : Nat) (t : Display) (b j : Nat) :
    imagePixel img x y start i (t, b) j
      = (drawCols t [imageCmd img x y start i b j], u32 ((b : Int) + 1)) := rfl

theorem imagePixel_fold (img : List Nat) (x y start i : Nat) (n : Nat) :
    ∀ (t : Display) (b : Nat), b + n < 4294967296 →
      (List.range n).foldl (imagePixel img x y start i) (t, b)
        = (drawCols t ((List.range n).map (fun j => imageCmd img x y start i (b + j) j)),
            b + n) := by
  induction n with
  | zero =>
    intro t b _
    rfl
  | succ n ih =>
    intro t b hb
    rw [List.range_succ, List.foldl_append, ih t b (by omega), List.map_append,
      drawCols_append]
    simp only [List.foldl_cons, List.foldl_nil, List.map_cons, List.map_nil]
    rw [imagePixel_eq]
    have hu : u32 (((b + n : Nat) : Int) + 1) = b + (n + 1) := by
      unfold u32
      omega
    rw [hu]

theorem imageRow_fold (img : List Nat) (x y start : Nat) (m : Nat) :
    ∀ (t : Display) (b : Nat), b + m * img.getD 0 0 < 4294967296 →
      (List.range m).foldl (imageRow img x y start) (t, b)
        = (drawCols t ((List.range m).flatMap (fun i =>
              (List.range (img.getD 0 0)).map
                (fun j => imageCmd img x y start i (b + i * img.getD 0 0 + j) j))),
            b + m * img.getD 0 0) := by
  induction m with
  | zero =>
    intro t b _
    simp only [List.range_zero, List.foldl_nil, List.flatMap_nil, Nat.zero_mul, Nat.add_zero]
    rfl
  | succ m ih =>
    intro t b hb
    have e : (m + 1) * img.getD 0 0 = m * img.getD 0 0 + img.getD 0 0 := Nat.succ_mul _ _
    rw [e] at hb
    rw [List.range_succ, List.foldl_append, ih t b (by omega), List.flatMap_append,
      drawCols_append]
    simp only [List.foldl_cons, List.foldl_nil, List.flatMap_cons, List.flatMap_nil,
      List.append_nil]
    unfold imageRow
    rw [imagePixel_fold img x y start m (img.getD 0 0) _ _ (by omega), e, Nat.add_assoc]

theorem u8_and_one (v k : Nat) :
    decide ((u8 ((v >>> k : Nat) : Int) &&& 1) = SSD1306_COLOR_WHITE) = v.testBit k := by
  have hu : u8 ((v >>> k : Nat) : Int) = (v >>> k) % 256 := by
    unfold u8
    omega
  rw [hu, Nat.and_one_is_mod, Nat.testBit_to_div_mod, Nat.shiftRight_eq_div_pow]
  have : v / 2 ^ k % 256 % 2 = v / 2 ^ k % 2 := by omega
  rw [this]
  rfl

/-- The pixels drawn by `SSD1306_Image`: pixel `(x + j, y + i)` for every
`i < H` and `j < W`, coloured by bit `i * W + j` of the frame. -/
theorem Image_eq (s : Display) (img : List Nat) (frame x y : Nat)
    (hfr : frame < img.getD 2 0) (himg : ∀ b ∈ img, b < 256) :
    SSD1306_Image s img frame x y
      = drawCols s ((List.range (img.getD 1 0)).flatMap (fun i =>
          (List.range (img.getD 0 0)).map (fun j =>
            imageCmd img x y (u32 ((frame : Int) * (img.getD 3 0 + (img.getD 4 0 <<< 8 : Nat))))
              i (0 + i * img.getD 0 0 + j) j))) := by
  unfold SSD1306_Image
  rw [if_neg (by omega)]
  dsimp only
  have h0 := getD_lt_of_forall img 0 himg
  have h1 := getD_lt_of_forall img 1 himg
  have hm : img.getD 1 0 * img.getD 0 0 ≤ 255 * 255 := Nat.mul_le_mul (by omega) (by omega)
  rw [imageRow_fold img x y _ (img.getD 1 0) s 0 (by omega)]

theorem imageCmd_eval (img : List Nat) (himg : ∀ b ∈ img, b < 256) (frame x y i j : Nat)
    (hf : frame < 256) (hx : x < 256) (hy : y < 256)
    (hi : i < img.getD 1 0) (hj : j < img.getD 0 0) :
    ∃ col, imageCmd img x y (u32 ((frame : Int) * (img.getD 3 0 + (img.getD 4 0 <<< 8 : Nat))))
        i (0 + i * img.getD 0 0 + j) j = (x + j, y + i, col) ∧
      decide (col = SSD1306_COLOR_WHITE)
        = (img.getD (5 + frame * (img.getD 3 0 + 256 * img.getD 4 0)
            + (i * img.getD 0 0 + j) / 8) 0).testBit ((i * img.getD 0 0 + j) % 8) := by
  have h0 := getD_lt_of_forall img 0 himg
  have h1 := getD_lt_of_forall img 1 himg
  have h3 := getD_lt_of_forall img 3 himg
  have h4 := getD_lt_of_forall img 4 himg
  have hm : i * img.getD 0 0 ≤ 255 * 255 := Nat.mul_le_mul (by omega) (by omega)
  have hsz : img.getD 3 0 + (img.getD 4 0 <<< 8) = img.getD 3 0 + 256 * img.getD 4 0 := by
    rw [Nat.shiftLeft_eq]
    omega
  have hfs : frame * (img.getD 3 0 + 256 * img.getD 4 0) ≤ 255 * 65535 :=
    Nat.mul_le_mul (by omega) (by omega)
  have hstart : u32 ((frame : Int) * (img.getD 3 0 + (img.getD 4 0 <<< 8 : Nat)))
      = frame * (img.getD 3 0 + 256 * img.getD 4 0) := by
    have e : (frame : Int) * (img.getD 3 0 + (img.getD 4 0 <<< 8 : Nat))
        = ((frame * (img.getD 3 0 + 256 * img.getD 4 0) : Nat) : Int) := by
      rw [← hsz]
      push_cast
      ring
    rw [e]
    unfold u32
    omega
  rw [hstart]
  unfold imageCmd
  have hidx : u32 (((0 + i * img.getD 0 0 + j : Nat) : Int) / 8 + 5
      + (frame * (img.getD 3 0 + 256 * img.getD 4 0) : Nat))
      = 5 + frame * (img.getD 3 0 + 256 * img.getD 4 0) + (i * img.getD 0 0 + j) / 8 := by
    unfold u32
    omega
  have hxx : u16 ((x : Int) + j) = x + j := by
    unfold u16
    omega
  have hyy : u16 ((y : Int) + i) = y + i := by
    unfold u16
    omega
  rw [hidx, hxx, hyy, Nat.zero_add]
  exact ⟨_, rfl, u8_and_one _ _⟩

/-- C13: for a well-typed display state, an image whose entries are bytes and
which holds its 5-byte header `[W, H, frameCount, sizeLo, sizeHi]`, and 8-bit
`frame`, `x`, `y`: when `frame ≥ frameCount` the state is unchanged; otherwise,
with the invert flag clear and the image long enough to hold the `W * H` bits of
the frame (`5 + frame * frameSize + ceil(W * H / 8) ≤ length`), for every
`row < H` and `col < W` with `x + col < 128` and `y + row < 64` the byte
`img[5 + frame * frameSize + (row * W + col) / 8]` exists and the pixel
`(x + col, y + row)` afterwards equals its bit `(row * W + col) mod 8`, where
`frameSize = sizeLo + 256 * sizeHi`, and every pixel outside that `W x H` block
is unchanged. -/
theorem C13_Image (s : Display) (hs : s.WF) (img : List Nat) (himg : ∀ b ∈ img, b < 256)
    (_hhdr : 5 ≤ img.length)
    (frame x y : Nat) (hf : frame < 256) (hx : x < 256) (hy : y < 256) :
    (frame ≥ img.getD 2 0 → SSD1306_Image s img frame x y = s) ∧
    (frame < img.getD 2 0 → s.Inverted = 0 →
      5 + frame * (img.getD 3 0 + 256 * img.getD 4 0)
        + (img.getD 0 0 * img.getD 1 0 + 7) / 8 ≤ img.length →
      (∀ row col, row < img.getD 1 0 → col < img.getD 0 0 → x + col < 128 → y + row < 64 →
        ∃ v, img[5 + frame * (img.getD 3 0 + 256 * img.getD 4 0)
              + (row * img.getD 0 0 + col) / 8]? = some v ∧
          (SSD1306_Image s img frame x y).getBit (x + col) (y + row)
            = v.testBit ((row * img.getD 0 0 + col) % 8)) ∧
      (∀ px py, px < SSD1306_WIDTH → py < SSD1306_HEIGHT →
        ¬ (x ≤ px ∧ px < x + img.getD 0 0 ∧ y ≤ py ∧ py < y + img.getD 1 0) →
        (SSD1306_Image s img frame x y).getBit px py = s.getBit px py)) := by
  have hlen : s.SSD1306_Buffer_all.length = 1024 := hs.1
  constructor
  · intro h
    unfold SSD1306_Image
    rw [if_pos h]
  · intro hfr hinv hlong
    rw [Image_eq s img frame x y hfr himg]
    have hmem : ∀ p, p ∈ (List.range (img.getD 1 0)).flatMap (fun i =>
          (List.range (img.getD 0 0)).map (fun j =>
            imageCmd img x y (u32 ((frame : Int) * (img.getD 3 0 + (img.getD 4 0 <<< 8 : Nat))))
              i (0 + i * img.getD 0 0 + j) j)) ↔
        ∃ i j, i < img.getD 1 0 ∧ j < img.getD 0 0 ∧
          p = imageCmd img x y (u32 ((frame : Int) * (img.getD 3 0 + (img.getD 4 0 <<< 8 : Nat))))
              i (0 + i * img.getD 0 0 + j) j := by
      intro p
      simp only [List.mem_flatMap, List.mem_map, List.mem_range]
      constructor
      · rintro ⟨i, hi, j, hj, rfl⟩
        exact ⟨i, j, hi, hj, rfl⟩
      · rintro ⟨i, j, hi, hj, rfl⟩
        exact ⟨i, hi, j, hj, rfl⟩
    constructor
    · intro row col hrow hcol hxc hyr
      have hin : 5 + frame * (img.getD 3 0 + 256 * img.getD 4 0)
          + (row * img.getD 0 0 + col) / 8 < img.length := by
        have h1 : (row + 1) * img.getD 0 0 ≤ img.getD 1 0 * img.getD 0 0 :=
          Nat.mul_le_mul_right _ hrow
        rw [Nat.add_mul, Nat.one_mul, Nat.mul_comm (img.getD 1 0)] at h1
        omega
      refine ⟨img.getD (5 + frame * (img.getD 3 0 + 256 * img.getD 4 0)
          + (row * img.getD 0 0 + col) / 8) 0, ?_, ?_⟩
      · generalize 5 + frame * (img.getD 3 0 + 256 * img.getD 4 0)
          + (row * img.getD 0 0 + col) / 8 = idx at hin
        rw [List.getD_eq_getElem?_getD, List.getElem?_eq_getElem hin, Option.getD_some]
      obtain ⟨c0, e0, v0⟩ := imageCmd_eval img himg frame x y row col hf hx hy hrow hcol
      apply drawCols_getBit_hit _ s _ _ _ hlen hinv
        (by simp only [width_eq]; omega) (by simp only [height_eq]; omega)
      · refine ⟨_, (hmem _).2 ⟨row, col, hrow, hcol, rfl⟩, ?_, ?_⟩
        · rw [e0]
        · rw [e0]
      · intro p hp h1 h2
        obtain ⟨i, j, hi, hj, rfl⟩ := (hmem p).1 hp
        obtain ⟨c1, e1, v1⟩ := imageCmd_eval img himg frame x y i j hf hx hy hi hj
        rw [e1] at h1 h2 ⊢
        simp only at h1 h2
        have hjc : j = col := by omega
        have hir : i = row := by omega
        subst hjc
        subst hir
        exact v1
    · intro px py hpx hpy hout
      apply drawCols_getBit_other _ s _ _ hlen hpx
      intro p hp h
      obtain ⟨i, j, hi, hj, rfl⟩ := (hmem p).1 hp
      obtain ⟨c1, e1, -⟩ := imageCmd_eval img himg frame x y i j hf hx hy hi hj
      rw [e1] at h
      simp only at h
      apply hout
      omega

/-- Witness for C13: the one-frame image `[2, 2, 1, 1, 0, 9]` of 2 by 2 pixels, whose
frame byte 9 has bits 0 and 3 set, drawn at (3, 4) on a blank display: frame 1 does not
exist and leaves the display unchanged; frame 0 sets pixels (3, 4) and (4, 5) and clears
(4, 4) and (3, 5). -/
theorem C13_Image_witness :
    (Display.mk blackBuffer 0 0 0 1).WF ∧ (∀ b ∈ [2, 2, 1, 1, 0, 9], b < 256) ∧
    5 ≤ [2, 2, 1, 1, 0, 9].length ∧
    1 ≥ [2, 2, 1, 1, 0, 9].getD 2 0 ∧
    SSD1306_Image (Display.mk blackBuffer 0 0 0 1) [2, 2, 1, 1, 0, 9] 1 3 4
      = Display.mk blackBuffer 0 0 0 1 ∧
    0 < [2, 2, 1, 1, 0, 9].getD 2 0 ∧
    5 + 0 * ([2, 2, 1, 1, 0, 9].getD 3 0 + 256 * [2, 2, 1, 1, 0, 9].getD 4 0)
      + ([2, 2, 1, 1, 0, 9].getD 0 0 * [2, 2, 1, 1, 0, 9].getD 1 0 + 7) / 8
      ≤ [2, 2, 1, 1, 0, 9].length ∧
    (∀ row col, row < [2, 2, 1, 1, 0, 9].getD 1 0 → col < [2, 2, 1, 1, 0, 9].getD 0 0 →
      3 + col < 128 → 4 + row < 64 →
      ∃ v, [2, 2, 1, 1, 0, 9][5 + 0 * ([2, 2, 1, 1, 0, 9].getD 3 0
              + 256 * [2, 2, 1, 1, 0, 9].getD 4 0)
            + (row * [2, 2, 1, 1, 0, 9].getD 0 0 + col) / 8]? = some v ∧
        (SSD1306_Image (Display.mk blackBuffer 0 0 0 1) [2, 2, 1, 1, 0, 9] 0 3 4).getBit
            (3 + col) (4 + row)
          = v.testBit ((row * [2, 2, 1, 1, 0, 9].getD 0 0 + col) % 8)) ∧
    (∀ px py, px < SSD1306_WIDTH → py < SSD1306_HEIGHT →
      ¬ (3 ≤ px ∧ px < 3 + [2, 2, 1, 1, 0, 9].getD 0 0 ∧
          4 ≤ py ∧ py < 4 + [2, 2, 1, 1, 0, 9].getD 1 0) →
      (SSD1306_Image (Display.mk blackBuffer 0 0 0 1) [2, 2, 1, 1, 0, 9] 0 3 4).getBit px py
        = (Display.mk blackBuffer 0 0 0 1).getBit px py) ∧
    (SSD1306_Image (Display.mk blackBuffer 0 0 0 1) [2, 2, 1, 1, 0, 9] 0 3 4).getBit 3 4 = true ∧
    (SSD1306_Image (Display.mk blackBuffer 0 0 0 1) [2, 2, 1, 1, 0, 9] 0 3 4).getBit 4 4 = false ∧
    (SSD1306_Image (Display.mk blackBuffer 0 0 0 1) [2, 2, 1, 1, 0, 9] 0 3 4).getBit 3 5 = false ∧
    (SSD1306_Image (Display.mk blackBuffer 0 0 0 1) [2, 2, 1, 1, 0, 9] 0 3 4).getBit 4 5 = true := by
  have hwf := blank_WF 0 0 0 1 (by decide) (by decide) (by decide) (by decide)
  have h1 := (C13_Image (Display.mk blackBuffer 0 0 0 1) hwf [2, 2, 1, 1, 0, 9] (by decide)
    (by decide) 1 3 4 (by decide) (by decide) (by decide)).1 (by decide)
  have h0 := (C13_Image (Display.mk blackBuffer 0 0 0 1) hwf [2, 2, 1, 1, 0, 9] (by decide)
    (by decide) 0 3 4 (by decide) (by decide) (by decide)).2 (by decide) rfl (by decide)
  refine ⟨hwf, by decide, by decide, by decide, h1, by decide, by decide, h0.1, h0.2,
    ?_, ?_, ?_, ?_⟩
  · obtain ⟨v, hv, hb⟩ := h0.1 0 0 (by decide) (by decide) (by decide) (by decide)
    obtain rfl : 9 = v := Option.some.inj hv
    exact hb
  · obtain ⟨v, hv, hb⟩ := h0.1 0 1 (by decide) (by decide) (by decide) (by decide)
    obtain rfl : 9 = v := Option.some.inj hv
    exact hb
  · obtain ⟨v, hv, hb⟩ := h0.1 1 0 (by decide) (by decide) (by decide) (by decide)
    obtain rfl : 9 = v := Option.some.inj hv
    exact hb
  · obtain ⟨v, hv, hb⟩ := h0.1 1 1 (by decide) (by decide) (by decide) (by decide)
    obtain rfl : 9 = v := Option.some.inj hv
    exact hb

/-! ## Claim C15: termination of `SSD1306_DrawLine` -/

theorem linePts_lineTrace (x1 y1 : Nat) (dx dy sx sy : Int) (fuel : Nat) :
    ∀ (x0 y0 : Nat) (err : Int),
      linePts fuel x0 y0 x1 y1 dx dy sx sy err =
        (lineTrace fuel x0 y0 x1 y1 dx dy sx sy err).map
          (fun tr => tr.map (fun e => (e.1, e.2.1))) := by
  induction fuel with
  | zero =>
    intro x0 y0 err
    rfl
  | succ n ih =>
    intro x0 y0 err
    unfold linePts lineTrace
    by_cases h : x0 = x1 ∧ y0 = y1
    · rw [if_pos h, if_pos h]
      rfl
    · rw [if_neg h, if_neg h]
      dsimp only
      rw [ih, Option.map_map, Option.map_map]
      rfl

/-- The loop of `SSD1306_DrawLine` can only return at the end point. -/
theorem lineTrace_last (x1 y1 : Nat) (dx dy sx sy : Int) (fuel : Nat) :
    ∀ (x0 y0 : Nat) (err : Int) (tr : List (Nat × Nat × Int)),
      lineTrace fuel x0 y0 x1 y1 dx dy sx sy err = some tr →
      ∃ e, tr.getLast? = some (x1, y1, e) := by
  induction fuel with
  | zero =>
    intro x0 y0 err tr h
    exact absurd h (by simp [lineTrace])
  | succ n ih =>
    intro x0 y0 err tr h
    unfold lineTrace at h
    by_cases hxy : x0 = x1 ∧ y0 = y1
    · rw [if_pos hxy] at h
      obtain ⟨rfl, rfl⟩ := hxy
      injection h with h
      subst h
      exact ⟨err, rfl⟩
    · rw [if_neg hxy] at h
      dsimp only at h
      rw [Option.map_eq_some'] at h
      obtain ⟨tl, htl, rfl⟩ := h
      obtain ⟨e, he⟩ := ih _ _ _ tl htl
      refine ⟨e, ?_⟩
      cases tl with
      | nil => exact absurd he (by simp)
      | cons a tl => rw [List.getLast?_cons_cons]; exact he

/-- In the x-major case the error term stays in `[0, dx)`. -/
theorem lineTrace_err_xmajor (x1 y1 : Nat) (dx dy sx sy : Int)
    (hdy : 0 < dy) (hdxy : dy < dx) (hdx : dx ≤ 127) (fuel : Nat) :
    ∀ (x0 y0 : Nat) (err : Int) (tr : List (Nat × Nat × Int)), 0 ≤ err → err < dx →
      lineTrace fuel x0 y0 x1 y1 dx dy sx sy err = some tr →
      ∀ e ∈ tr, 0 ≤ e.2.2 ∧ e.2.2 < dx := by
  induction fuel with
  | zero =>
    intro x0 y0 err tr _ _ h
    exact absurd h (by simp [lineTrace])
  | succ n ih =>
    intro x0 y0 err tr h0 h1 h
    unfold lineTrace at h
    by_cases hxy : x0 = x1 ∧ y0 = y1
    · rw [if_pos hxy] at h
      injection h with h
      subst h
      intro e he
      rw [List.mem_singleton] at he
      subst he
      exact ⟨h0, h1⟩
    · rw [if_neg hxy] at h
      dsimp only at h
      rw [Option.map_eq_some'] at h
      obtain ⟨tl, htl, rfl⟩ := h
      have hgt : err > -dx := by omega
      simp only [hgt, if_true] at htl
      intro e he
      rcases List.mem_cons.1 he with rfl | he
      · exact ⟨h0, h1⟩
      · by_cases hlt : err < dy
        · simp only [hlt, if_true] at htl
          rw [i16_id (err - dy) (by omega) (by omega),
            i16_id (err - dy + dx) (by omega) (by omega)] at htl
          exact ih _ _ _ tl (by omega) (by omega) htl e he
        · simp only [hlt, if_false] at htl
          rw [i16_id (err - dy) (by omega) (by omega)] at htl
          exact ih _ _ _ tl (by omega) (by omega) htl e he

/-- In the y-major case the error term stays in `(-dy, 0]`. -/
theorem lineTrace_err_ymajor (x1 y1 : Nat) (dx dy sx sy : Int)
    (hdx : 0 < dx) (hdxy : dx ≤ dy) (hdy : dy ≤ 127) (fuel : Nat) :
    ∀ (x0 y0 : Nat) (err : Int) (tr : List (Nat × Nat × Int)), -dy < err → err ≤ 0 →
      lineTrace fuel x0 y0 x1 y1 dx dy sx sy err = some tr →
      ∀ e ∈ tr, -dy < e.2.2 ∧ e.2.2 ≤ 0 := by
  induction fuel with
  | zero =>
    intro x0 y0 err tr _ _ h
    exact absurd h (by simp [lineTrace])
  | succ n ih =>
    intro x0 y0 err tr h0 h1 h
    unfold lineTrace at h
    by_cases hxy : x0 = x1 ∧ y0 = y1
    · rw [if_pos hxy] at h
      injection h with h
      subst h
      intro e he
      rw [List.mem_singleton] at he
      subst he
      exact ⟨h0, h1⟩
    · rw [if_neg hxy] at h
      dsimp only at h
      rw [Option.map_eq_some'] at h
      obtain ⟨tl, htl, rfl⟩ := h
      have hlt : err < dy := by omega
      simp only [hlt, if_true] at htl
      intro e he
      rcases List.mem_cons.1 he with rfl | he
      · exact ⟨h0, h1⟩
      · by_cases hgt : err > -dx
        · simp only [hgt, if_true] at htl
          rw [i16_id (err - dy) (by omega) (by omega),
            i16_id (err - dy + dx) (by omega) (by omega)] at htl
          exact ih _ _ _ tl (by omega) (by omega) htl e he
        · simp only [hgt, if_false] at htl
          rw [i16_id (err + dx) (by omega) (by omega)] at htl
          exact ih _ _ _ tl (by omega) (by omega) htl e he

/-- The Bresenham loop on clamped end points that differ in both coordinates:
it returns after `max dx dy` steps at the end point, the walking point stays in
the bounding box and the error term stays within `(-128, 128)`. -/
theorem lineTrace_general (fuel : Nat) (hf : 129 ≤ fuel) (a0 b0 a1 b1 : Nat)
    (ha0 : a0 ≤ 127) (ha1 : a1 ≤ 127) (hb0 : b0 ≤ 63) (hb1 : b1 ≤ 63)
    (hx : a0 ≠ a1) (hy : b0 ≠ b1) :
    ∃ tr, lineTrace fuel a0 b0 a1 b1 ((max a0 a1 - min a0 a1 : Nat) : Int)
        ((max b0 b1 - min b0 b1 : Nat) : Int) (if a0 < a1 then 1 else -1)
        (if b0 < b1 then 1 else -1)
        (i16 (Int.tdiv (if ((max a0 a1 - min a0 a1 : Nat) : Int)
            > ((max b0 b1 - min b0 b1 : Nat) : Int)
          then ((max a0 a1 - min a0 a1 : Nat) : Int)
          else -((max b0 b1 - min b0 b1 : Nat) : Int)) 2)) = some tr ∧
      tr.length = max (max a0 a1 - min a0 a1) (max b0 b1 - min b0 b1) + 1 ∧
      (∃ e, tr.getLast? = some (a1, b1, e)) ∧
      ∀ e ∈ tr, inBox a0 b0 a1 b1 e.1 e.2.1 ∧ -128 < e.2.2 ∧ e.2.2 < 128 := by
  have hsx : (if a0 < a1 then (1 : Int) else -1) = 1 ∨ (if a0 < a1 then (1 : Int) else -1) = -1 := by
    split_ifs
    · exact Or.inl rfl
    · exact Or.inr rfl
  have hsy : (if b0 < b1 then (1 : Int) else -1) = 1 ∨ (if b0 < b1 then (1 : Int) else -1) = -1 := by
    split_ifs
    · exact Or.inl rfl
    · exact Or.inr rfl
  have ex : (a0 : Int) + (if a0 < a1 then (1 : Int) else -1) *
      ((max a0 a1 - min a0 a1 : Nat) : Int) = a1 := by
    split_ifs <;> omega
  have ey : (b0 : Int) + (if b0 < b1 then (1 : Int) else -1) *
      ((max b0 b1 - min b0 b1 : Nat) : Int) = b1 := by
    split_ifs <;> omega
  generalize hsxd : (if a0 < a1 then (1 : Int) else -1) = sx at hsx ex ⊢
  generalize hsyd : (if b0 < b1 then (1 : Int) else -1) = sy at hsy ey ⊢
  have hbox : ∀ (p : Nat × Nat) (r2 k2 : Int), 0 ≤ r2 →
      r2 ≤ ((max a0 a1 - min a0 a1 : Nat) : Int) → 0 ≤ k2 →
      k2 ≤ ((max b0 b1 - min b0 b1 : Nat) : Int) →
      (p.1 : Int) + sx * r2 = a1 → (p.2 : Int) + sy * k2 = b1 →
      inBox a0 b0 a1 b1 p.1 p.2 := by
    intro p r2 k2 h1 h2 h3 h4 h5 h6
    unfold inBox
    rcases hsx with rfl | rfl <;> rcases hsy with rfl | rfl <;> omega
  by_cases hmaj : ((max a0 a1 - min a0 a1 : Nat) : Int) > ((max b0 b1 - min b0 b1 : Nat) : Int)
  · rw [if_pos hmaj, Int.tdiv_eq_ediv (by omega) (by norm_num),
      i16_id _ (by omega) (by omega)]
    obtain ⟨pts, e, hl, -, -, -, hall⟩ := linePts_xmajor a1 b1
      ((max a0 a1 - min a0 a1 : Nat) : Int) ((max b0 b1 - min b0 b1 : Nat) : Int) sx sy
      (((max a0 a1 - min a0 a1 : Nat) : Int) / 2) hsx hsy (by omega) (by omega) (by omega)
      ha1 hb1 (by omega) (by omega) (max a0 a1 - min a0 a1) fuel a0 b0
      ((max b0 b1 - min b0 b1 : Nat) : Int) (((max a0 a1 - min a0 a1 : Nat) : Int) / 2)
      (by omega) ha0 hb0 ex ey (by omega) (by omega) (by omega) (by rw [mul_comm])
    rw [linePts_lineTrace, Option.map_eq_some'] at e
    obtain ⟨tr, htr, rfl⟩ := e
    have herr := lineTrace_err_xmajor a1 b1 _ _ sx sy (by omega) hmaj (by omega) fuel a0 b0 _ tr
      (by omega) (by omega) htr
    refine ⟨tr, htr, by rw [← List.length_map tr, hl]; omega, lineTrace_last _ _ _ _ _ _ _ _ _ _ _ htr,
      ?_⟩
    intro q hq
    obtain ⟨r2, k2, h1, h2, h3, h4, h5, h6⟩ := hall (q.1, q.2.1) (List.mem_map_of_mem _ hq)
    have := herr q hq
    exact ⟨hbox (q.1, q.2.1) r2 k2 h1 h2 h3 h4 h5 h6, by omega, by omega⟩
  · rw [if_neg hmaj, Int.neg_tdiv, Int.tdiv_eq_ediv (by omega) (by norm_num),
      i16_id _ (by omega) (by omega)]
    obtain ⟨pts, e, hl, -, -, -, hall⟩ := linePts_ymajor a1 b1
      ((max a0 a1 - min a0 a1 : Nat) : Int) ((max b0 b1 - min b0 b1 : Nat) : Int) sx sy
      (-(((max b0 b1 - min b0 b1 : Nat) : Int) / 2)) hsx hsy (by omega) (by omega) (by omega)
      ha1 hb1 (by omega) (by omega) (max b0 b1 - min b0 b1) fuel a0 b0
      ((max a0 a1 - min a0 a1 : Nat) : Int) (-(((max b0 b1 - min b0 b1 : Nat) : Int) / 2))
      (by omega) ha0 hb0 ex ey (by omega) (by omega) (by omega) (by rw [mul_comm])
    rw [linePts_lineTrace, Option.map_eq_some'] at e
    obtain ⟨tr, htr, rfl⟩ := e
    have herr := lineTrace_err_ymajor a1 b1 _ _ sx sy (by omega) (by omega) (by omega) fuel a0 b0 _
      tr (by omega) (by omega) htr
    refine ⟨tr, htr, by rw [← List.length_map tr, hl]; omega, lineTrace_last _ _ _ _ _ _ _ _ _ _ _ htr,
      ?_⟩
    intro q hq
    obtain ⟨r2, k2, h1, h2, h3, h4, h5, h6⟩ := hall (q.1, q.2.1) (List.mem_map_of_mem _ hq)
    have := herr q hq
    exact ⟨hbox (q.1, q.2.1) k2 r2 h3 h4 h1 h2 h5 h6, by omega, by omega⟩

/-- C15: for all inputs `SSD1306_DrawLine` returns (given fuel 129 or more).
When the clamped end points differ in both coordinates, its `while (1)` loop
reaches the clamped end point `(min x1 127, min y1 63)` after exactly
`max dx dy` steps and the pixels drawn are those of the walk; on every pass the
walking point lies in the bounding box of the clamped end points and the error
term lies strictly between -128 and 128, so that none of the 16-bit updates
`err - dy`, `err + dx`, `err - dy + dx` wraps. -/
theorem C15_DrawLine_terminates (fuel : Nat) (hf : 129 ≤ fuel) (s : Display)
    (x0 y0 x1 y1 c : Nat) :
    (∃ t, SSD1306_DrawLine fuel s x0 y0 x1 y1 c = some t) ∧
    ∃ tr, SSD1306_DrawLine_trace fuel x0 y0 x1 y1 = some tr ∧
      (min x0 127 ≠ min x1 127 → min y0 63 ≠ min y1 63 →
        SSD1306_DrawLine fuel s x0 y0 x1 y1 c
          = some (drawPts s (tr.map (fun e => (e.1, e.2.1))) c) ∧
        tr.length =
          max (max (min x0 127) (min x1 127) - min (min x0 127) (min x1 127))
            (max (min y0 63) (min y1 63) - min (min y0 63) (min y1 63)) + 1 ∧
        ∃ e, tr.getLast? = some (min x1 127, min y1 63, e)) ∧
      ∀ e ∈ tr, inBox (min x0 127) (min y0 63) (min x1 127) (min y1 63) e.1 e.2.1 ∧
        -128 < e.2.2 ∧ e.2.2 < 128 ∧
        i16 (e.2.2 - ((max (min y0 63) (min y1 63) - min (min y0 63) (min y1 63) : Nat) : Int))
          = e.2.2 - ((max (min y0 63) (min y1 63) - min (min y0 63) (min y1 63) : Nat) : Int) ∧
        i16 (e.2.2 + ((max (min x0 127) (min x1 127) - min (min x0 127) (min x1 127) : Nat) : Int))
          = e.2.2 + ((max (min x0 127) (min x1 127) - min (min x0 127) (min x1 127) : Nat) : Int) ∧
        i16 (e.2.2 - ((max (min y0 63) (min y1 63) - min (min y0 63) (min y1 63) : Nat) : Int)
            + ((max (min x0 127) (min x1 127) - min (min x0 127) (min x1 127) : Nat) : Int))
          = e.2.2 - ((max (min y0 63) (min y1 63) - min (min y0 63) (min y1 63) : Nat) : Int)
            + ((max (min x0 127) (min x1 127) - min (min x0 127) (min x1 127) : Nat) : Int) := by
  have ha0 : min x0 127 ≤ 127 := Nat.min_le_right _ _
  have ha1 : min x1 127 ≤ 127 := Nat.min_le_right _ _
  have hb0 : min y0 63 ≤ 63 := Nat.min_le_right _ _
  have hb1 : min y1 63 ≤ 63 := Nat.min_le_right _ _
  by_cases hax : min x0 127 = min x1 127 ∨ min y0 63 = min y1 63
  · refine ⟨⟨_, DrawLine_axis fuel s x0 y0 x1 y1 c hf hax⟩, [], ?_, ?_, ?_⟩
    · unfold SSD1306_DrawLine_trace
      simp only [clamp_w, clamp_h]
      rw [absdiff_i16 _ _ ha0 ha1, absdiff_i16 _ _ (by omega) (by omega)]
      rcases hax with h | h
      · rw [if_pos (by omega)]
      · split_ifs <;> first | rfl | omega
    · intro h1 h2
      rcases hax with h | h
      · exact absurd h h1
      · exact absurd h h2
    · intro e he
      exact absurd he (List.not_mem_nil _)
  · have hx : min x0 127 ≠ min x1 127 := fun h => hax (Or.inl h)
    have hy : min y0 63 ≠ min y1 63 := fun h => hax (Or.inr h)
    obtain ⟨tr, htr, hl, hlast, hall⟩ :=
      lineTrace_general fuel hf _ _ _ _ ha0 ha1 hb0 hb1 hx hy
    have hdl : SSD1306_DrawLine fuel s x0 y0 x1 y1 c
        = some (drawPts s (tr.map (fun e => (e.1, e.2.1))) c) := by
      unfold SSD1306_DrawLine
      simp only [clamp_w, clamp_h]
      rw [absdiff_i16 _ _ ha0 ha1, absdiff_i16 _ _ (by omega) (by omega),
        if_neg (by omega), if_neg (by omega), lineLoop_linePts, linePts_lineTrace, htr]
      rfl
    refine ⟨⟨_, hdl⟩, tr, ?_, fun _ _ => ⟨hdl, hl, hlast⟩, ?_⟩
    · unfold SSD1306_DrawLine_trace
      simp only [clamp_w, clamp_h]
      rw [absdiff_i16 _ _ ha0 ha1, absdiff_i16 _ _ (by omega) (by omega),
        if_neg (by omega), if_neg (by omega), htr]
    · intro e he
      obtain ⟨h1, h2, h3⟩ := hall e he
      exact ⟨h1, h2, h3, i16_id _ (by omega) (by omega), i16_id _ (by omega) (by omega),
        i16_id _ (by omega) (by omega)⟩

/-- Witness for C15: fuel 129, the line from (3, 60) to (200, 2). -/
theorem C15_DrawLine_terminates_witness :
    129 ≤ 129 ∧
    ∃ t, SSD1306_DrawLine 129 (Display.mk blackBuffer 0 0 0 1) 3 60 200 2 1 = some t :=
  ⟨le_refl 129,
    (C15_DrawLine_terminates 129 (le_refl 129) (Display.mk blackBuffer 0 0 0 1) 3 60 200 2 1).1⟩

/-! ## Claim C19: filled triangles -/

/-- `SSD1306_DrawLine` returns on every input and draws a list of pixels. -/
theorem DrawLine_total (fuel : Nat) (hf : 129 ≤ fuel) (s : Display) (x0 y0 x1 y1 c : Nat) :
    ∃ pts, SSD1306_DrawLine fuel s x0 y0 x1 y1 c = some (drawPts s pts c) ∧
      ∀ p ∈ pts, inBox (min x0 127) (min y0 63) (min x1 127) (min y1 63) p.1 p.2 := by
  by_cases hax : min x0 127 = min x1 127 ∨ min y0 63 = min y1 63
  · refine ⟨_, DrawLine_axis fuel s x0 y0 x1 y1 c hf hax, ?_⟩
    intro p hp
    exact (mem_runPts _ _ _ _ p.1 p.2 hax).1 hp
  · obtain ⟨pts, e, -, -, -, -, hall⟩ := DrawLine_general fuel hf s x0 y0 x1 y1 c
      (fun h => hax (Or.inl h)) (fun h => hax (Or.inr h))
    exact ⟨pts, e, hall⟩

theorem drawLinesTo_total (fuel : Nat) (hf : 129 ≤ fuel) (x3 y3 c : Nat)
    (l : List (Nat × Nat)) : ∀ s : Display, ∃ t, drawLinesTo fuel x3 y3 c s l = some t := by
  induction l with
  | nil =>
    intro s
    exact ⟨s, rfl⟩
  | cons p l ih =>
    intro s
    obtain ⟨pts, e, -⟩ := DrawLine_total fuel hf s p.1 p.2 x3 y3 c
    unfold drawLinesTo
    rw [e, Option.some_bind]
    exact ih _

theorem triLoop_triStarts (fuel x3 y3 : Nat) (xinc1 xinc2 yinc1 yinc2 den numadd numpixels : Int)
    (c : Nat) (n : Nat) :
    ∀ (s : Display) (x y num cur : Int),
      triLoop n fuel s x y x3 y3 xinc1 xinc2 yinc1 yinc2 den num numadd numpixels cur c
        = (triStarts n x y xinc1 xinc2 yinc1 yinc2 den num numadd numpixels cur).bind
            (fun l => drawLinesTo fuel x3 y3 c s l) := by
  induction n with
  | zero =>
    intro s x y num cur
    rfl
  | succ n ih =>
    intro s x y num cur
    unfold triLoop triStarts
    by_cases h : cur ≤ numpixels
    · rw [if_pos h, if_pos h]
      dsimp only
      simp only [ih]
      generalize triStarts n _ _ xinc1 xinc2 yinc1 yinc2 den _ numadd numpixels _ = o
      cases o with
      | none =>
        cases SSD1306_DrawLine fuel s (u16 x) (u16 y) x3 y3 c <;> rfl
      | some l => rfl
    · rw [if_neg h, if_neg h]
      rfl

theorem triStarts_exit (n : Nat) (x y xinc1 xinc2 yinc1 yinc2 den num numadd numpixels cur : Int)
    (h : numpixels < cur) :
    triStarts (n + 1) x y xinc1 xinc2 yinc1 yinc2 den num numadd numpixels cur = some [] := by
  unfold triStarts
  rw [if_neg (by omega)]

/-- The last pass of the loop: one more starting point, then the loop exits. -/
theorem triStarts_last_pass (n : Nat)
    (x y xinc1 xinc2 yinc1 yinc2 den num numadd numpixels : Int)
    (h0 : 0 ≤ numpixels) (h1 : numpixels ≤ 127) :
    triStarts (n + 2) x y xinc1 xinc2 yinc1 yinc2 den num numadd numpixels numpixels
      = some [(u16 x, u16 y)] := by
  unfold triStarts
  rw [if_pos (le_refl _)]
  dsimp only
  rw [i16_id (numpixels + 1) (by omega) (by omega), triStarts_exit _ _ _ _ _ _ _ _ _ _ _ _ (by omega)]
  rfl

/-- The walk of `SSD1306_DrawFilledTriangle` from a state with `r` passes and
`k` carries still to go: `r + 1` starting points, each next to its
predecessor, ending at `(x2, y2)`. -/
theorem triStarts_spec (x2 y2 : Nat) (xinc1 xinc2 yinc1 yinc2 den numadd numpixels E : Int)
    (hinc : (xinc1 = 0 ∧ yinc2 = 0 ∧ (xinc2 = 1 ∨ xinc2 = -1) ∧ (yinc1 = 1 ∨ yinc1 = -1)) ∨
      (xinc2 = 0 ∧ yinc1 = 0 ∧ (xinc1 = 1 ∨ xinc1 = -1) ∧ (yinc2 = 1 ∨ yinc2 = -1)))
    (hden : 0 < den) (hden2 : den ≤ 127) (hadd0 : 0 ≤ numadd) (hadd : numadd ≤ den)
    (hnp : numpixels ≤ 127) (hE0 : 0 ≤ E) (hE1 : E < den) (hx2 : x2 ≤ 127) (hy2 : y2 ≤ 127)
    (r : Nat) :
    ∀ (n : Nat) (x y k num cur : Int), r + 1 < n → 0 ≤ x → x ≤ 127 → 0 ≤ y → y ≤ 127 →
      0 ≤ cur → cur + r = numpixels →
      x + xinc2 * r + xinc1 * k = x2 → y + yinc2 * r + yinc1 * k = y2 → 0 ≤ k →
      0 ≤ num → num < den → num + r * numadd = k * den + E →
      ∃ l, triStarts n x y xinc1 xinc2 yinc1 yinc2 den num numadd numpixels cur = some l ∧
        l.length = r + 1 ∧ l.head? = some (x.toNat, y.toNat) ∧ l.getLast? = some (x2, y2) ∧
        List.Chain' (fun p q : Nat × Nat =>
          p.1 ≤ q.1 + 1 ∧ q.1 ≤ p.1 + 1 ∧ p.2 ≤ q.2 + 1 ∧ q.2 ≤ p.2 + 1) l ∧
        ∀ p ∈ l, ∃ r2 k2 : Int, 0 ≤ r2 ∧ r2 ≤ r ∧ 0 ≤ k2 ∧ k2 ≤ k ∧
          (p.1 : Int) + xinc2 * r2 + xinc1 * k2 = x2 ∧
          (p.2 : Int) + yinc2 * r2 + yinc1 * k2 = y2 := by
  have hb : -1 ≤ xinc1 ∧ xinc1 ≤ 1 ∧ -1 ≤ xinc2 ∧ xinc2 ≤ 1 ∧
      -1 ≤ yinc1 ∧ yinc1 ≤ 1 ∧ -1 ≤ yinc2 ∧ yinc2 ≤ 1 := by
    rcases hinc with ⟨rfl, rfl, h1 | h1, h2 | h2⟩ | ⟨rfl, rfl, h1 | h1, h2 | h2⟩ <;> omega
  have hux : ∀ v : Int, 0 ≤ v → v ≤ 127 → u16 v = v.toNat := by
    intro v h1 h2
    unfold u16
    omega
  induction r with
  | zero =>
    intro n x y k num cur hn hx0 hx1 hy0 hy1 hc0 hcr ex ey hk hn0 hn1 hinv
    obtain ⟨m, rfl⟩ : ∃ m, n = m + 2 := ⟨n - 2, by omega⟩
    have hk0 : k = 0 := by
      by_contra hne
      have h1 : 1 * den ≤ k * den := mul_le_mul_of_nonneg_right (by omega) (by omega)
      simp only [Nat.cast_zero, zero_mul, add_zero] at hinv
      omega
    subst hk0
    simp only [Nat.cast_zero, mul_zero, add_zero] at ex ey hcr
    subst hcr
    rw [triStarts_last_pass _ _ _ _ _ _ _ _ _ _ _ hc0 hnp, hux x hx0 hx1, hux y hy0 hy1]
    have hxe : x.toNat = x2 := by omega
    have hye : y.toNat = y2 := by omega
    refine ⟨_, rfl, rfl, rfl, ?_, List.chain'_singleton _, ?_⟩
    · rw [hxe, hye]
      rfl
    · intro p hp
      rw [List.mem_singleton] at hp
      subst hp
      refine ⟨0, 0, le_refl _, by simp, le_refl _, le_refl _, ?_, ?_⟩
      · simp only [mul_zero, add_zero]
        omega
      · simp only [mul_zero, add_zero]
        omega
  | succ r ih =>
    intro n x y k num cur hn hx0 hx1 hy0 hy1 hc0 hcr ex ey hk hn0 hn1 hinv
    obtain ⟨m, rfl⟩ : ∃ m, n = m + 1 := ⟨n - 1, by omega⟩
    push_cast at ex ey hcr hinv
    have hrd : (0 : Int) ≤ (r : Int) * numadd := mul_nonneg (by omega) hadd0
    have er : ((r : Int) + 1) * numadd = r * numadd + numadd := by ring
    rw [er] at hinv
    have ex2 : xinc2 * ((r : Int) + 1) = xinc2 * r + xinc2 := by ring
    have ey2 : yinc2 * ((r : Int) + 1) = yinc2 * r + yinc2 := by ring
    rw [ex2] at ex
    rw [ey2] at ey
    unfold triStarts
    rw [if_pos (by omega)]
    dsimp only
    rw [i16_id (num + numadd) (by omega) (by omega), i16_id (cur + 1) (by omega) (by omega),
      hux x hx0 hx1, hux y hy0 hy1]
    by_cases hcarry : num + numadd ≥ den
    · simp only [hcarry, if_true]
      have hk1 : 1 ≤ k := by
        by_contra hne
        have hk0 : k = 0 := by omega
        subst hk0
        simp only [zero_mul, zero_add] at hinv
        omega
      have ek : (k - 1) * den = k * den - den := by ring
      have ekx : xinc1 * (k - 1) = xinc1 * k - xinc1 := by ring
      have eky : yinc1 * (k - 1) = yinc1 * k - yinc1 := by ring
      have hxr : 0 ≤ x + xinc1 + xinc2 ∧ x + xinc1 + xinc2 ≤ 127 := by
        rcases hinc with ⟨rfl, rfl, h1 | h1, h2 | h2⟩ | ⟨rfl, rfl, h1 | h1, h2 | h2⟩ <;>
          subst h1 <;> subst h2 <;> omega
      have hyr : 0 ≤ y + yinc1 + yinc2 ∧ y + yinc1 + yinc2 ≤ 127 := by
        rcases hinc with ⟨rfl, rfl, h1 | h1, h2 | h2⟩ | ⟨rfl, rfl, h1 | h1, h2 | h2⟩ <;>
          subst h1 <;> subst h2 <;> omega
      rw [i16_id (num + numadd - den) (by omega) (by omega),
        i16_id (x + xinc1) (by omega) (by omega), i16_id (y + yinc1) (by omega) (by omega),
        i16_id (x + xinc1 + xinc2) (by omega) (by omega),
        i16_id (y + yinc1 + yinc2) (by omega) (by omega)]
      obtain ⟨l, e, hl, hh, hlast, hch, hall⟩ := ih m (x + xinc1 + xinc2) (y + yinc1 + yinc2)
        (k - 1) (num + numadd - den) (cur + 1) (by omega) hxr.1 hxr.2 hyr.1 hyr.2 (by omega)
        (by omega) (by rw [ekx]; omega) (by rw [eky]; omega) (by omega) (by omega) (by omega)
        (by rw [ek]; omega)
      refine ⟨(x.toNat, y.toNat) :: l, by rw [e]; rfl, by simp [hl], rfl, ?_, ?_, ?_⟩
      · cases l with
        | nil => simp at hl
        | cons a l => rw [List.getLast?_cons_cons]; exact hlast
      · rw [List.chain'_cons']
        refine ⟨?_, hch⟩
        intro q hq
        rw [hh, Option.mem_def] at hq
        injection hq with hq
        subst hq
        simp only
        omega
      · intro p hp
        rcases List.mem_cons.1 hp with rfl | hp
        · refine ⟨r + 1, k, by omega, by push_cast; omega, hk, le_refl _, ?_, ?_⟩
          · simp only
            rw [ex2]
            omega
          · simp only
            rw [ey2]
            omega
        · obtain ⟨r2, k2, h1, h2, h3, h4, h5, h6⟩ := hall p hp
          exact ⟨r2, k2, h1, by push_cast; omega, h3, by omega, h5, h6⟩
    · simp only [hcarry, if_false]
      have hxr : 0 ≤ x + xinc2 ∧ x + xinc2 ≤ 127 := by
        rcases hinc with ⟨rfl, rfl, h1 | h1, h2 | h2⟩ | ⟨rfl, rfl, h1 | h1, h2 | h2⟩ <;>
          subst h1 <;> subst h2 <;> omega
      have hyr : 0 ≤ y + yinc2 ∧ y + yinc2 ≤ 127 := by
        rcases hinc with ⟨rfl, rfl, h1 | h1, h2 | h2⟩ | ⟨rfl, rfl, h1 | h1, h2 | h2⟩ <;>
          subst h1 <;> subst h2 <;> omega
      rw [i16_id (x + xinc2) (by omega) (by omega), i16_id (y + yinc2) (by omega) (by omega)]
      obtain ⟨l, e, hl, hh, hlast, hch, hall⟩ := ih m (x + xinc2) (y + yinc2)
        k (num + numadd) (cur + 1) (by omega) hxr.1 hxr.2 hyr.1 hyr.2 (by omega)
        (by omega) (by omega) (by omega) hk (by omega) (by omega) (by omega)
      refine ⟨(x.toNat, y.toNat) :: l, by rw [e]; rfl, by simp [hl], rfl, ?_, ?_, ?_⟩
      · cases l with
        | nil => simp at hl
        | cons a l => rw [List.getLast?_cons_cons]; exact hlast
      · rw [List.chain'_cons']
        refine ⟨?_, hch⟩
        intro q hq
        rw [hh, Option.mem_def] at hq
        injection hq with hq
        subst hq
        simp only
        omega
      · intro p hp
        rcases List.mem_cons.1 hp with rfl | hp
        · refine ⟨r + 1, k, by omega, by push_cast; omega, hk, le_refl _, ?_, ?_⟩
          · simp only
            rw [ex2]
            omega
          · simp only
            rw [ey2]
            omega
        · obtain ⟨r2, k2, h1, h2, h3, h4, h5, h6⟩ := hall p hp
          exact ⟨r2, k2, h1, by push_cast; omega, h3, h4, h5, h6⟩

theorem abs_i16 (a b : Nat) (ha : a ≤ 127) (hb : b ≤ 127) :
    i16 (if (b : Int) - a > 0 then (b : Int) - a else -((b : Int) - a))
      = ((max a b - min a b : Nat) : Int) := by
  split_ifs <;> rw [i16_id _ (by omega) (by omega)] <;> omega

/-- For every input, `SSD1306_DrawFilledTriangle` is the sequence of
`SSD1306_DrawLine` calls from the points of `SSD1306_DrawFilledTriangle_calls`,
in order, each to `(x3, y3)`. -/
theorem DrawFilledTriangle_calls_eq (fuel : Nat) (s : Display) (x1 y1 x2 y2 x3 y3 c : Nat) :
    SSD1306_DrawFilledTriangle fuel s x1 y1 x2 y2 x3 y3 c
      = (SSD1306_DrawFilledTriangle_calls fuel x1 y1 x2 y2).bind
          (fun l => drawLinesTo fuel x3 y3 c s l) := by
  unfold SSD1306_DrawFilledTriangle SSD1306_DrawFilledTriangle_calls
  dsimp only
  rw [triLoop_triStarts]

/-- C19: for all vertices inside the display, `SSD1306_DrawFilledTriangle`
returns, and the list `starts` of the starting points of its `SSD1306_DrawLine`
calls, as recorded in call order by `SSD1306_DrawFilledTriangle_calls`, has
exactly `max |x2 - x1| |y2 - y1| + 1` entries; the result of the function is that
of calling `SSD1306_DrawLine` from each of them in turn to `(x3, y3)`; the first
is `(x1, y1)`, the last is `(x2, y2)`, consecutive starting points differ by at
most 1 in each coordinate, and all lie in the bounding box of `(x1, y1)` and
`(x2, y2)`. -/
theorem C19_DrawFilledTriangle (fuel : Nat) (hf : 129 ≤ fuel) (s : Display)
    (x1 y1 x2 y2 x3 y3 c : Nat)
    (hx1 : x1 < SSD1306_WIDTH) (hy1 : y1 < SSD1306_HEIGHT)
    (hx2 : x2 < SSD1306_WIDTH) (hy2 : y2 < SSD1306_HEIGHT)
    (_hx3 : x3 < SSD1306_WIDTH) (_hy3 : y3 < SSD1306_HEIGHT) :
    ∃ starts, SSD1306_DrawFilledTriangle_calls fuel x1 y1 x2 y2 = some starts ∧
      SSD1306_DrawFilledTriangle fuel s x1 y1 x2 y2 x3 y3 c
        = drawLinesTo fuel x3 y3 c s starts ∧
      (∃ t, SSD1306_DrawFilledTriangle fuel s x1 y1 x2 y2 x3 y3 c = some t) ∧
      starts.length = max (max x1 x2 - min x1 x2) (max y1 y2 - min y1 y2) + 1 ∧
      starts.head? = some (x1, y1) ∧ starts.getLast? = some (x2, y2) ∧
      List.Chain' (fun p q : Nat × Nat =>
        p.1 ≤ q.1 + 1 ∧ q.1 ≤ p.1 + 1 ∧ p.2 ≤ q.2 + 1 ∧ q.2 ≤ p.2 + 1) starts ∧
      ∀ p ∈ starts, inBox x1 y1 x2 y2 p.1 p.2 := by
  simp only [width_eq, height_eq] at hx1 hy1 hx2 hy2
  have key : ∃ starts,
      triStarts fuel (i16 x1) (i16 y1)
        (if (((max x1 x2 - min x1 x2 : Nat) : Int)) ≥ ((max y1 y2 - min y1 y2 : Nat) : Int)
          then 0 else (if x2 ≥ x1 then 1 else -1))
        (if (((max x1 x2 - min x1 x2 : Nat) : Int)) ≥ ((max y1 y2 - min y1 y2 : Nat) : Int)
          then (if x2 ≥ x1 then 1 else -1) else 0)
        (if (((max x1 x2 - min x1 x2 : Nat) : Int)) ≥ ((max y1 y2 - min y1 y2 : Nat) : Int)
          then (if y2 ≥ y1 then 1 else -1) else 0)
        (if (((max x1 x2 - min x1 x2 : Nat) : Int)) ≥ ((max y1 y2 - min y1 y2 : Nat) : Int)
          then 0 else (if y2 ≥ y1 then 1 else -1))
        (if (((max x1 x2 - min x1 x2 : Nat) : Int)) ≥ ((max y1 y2 - min y1 y2 : Nat) : Int)
          then ((max x1 x2 - min x1 x2 : Nat) : Int) else ((max y1 y2 - min y1 y2 : Nat) : Int))
        (if (((max x1 x2 - min x1 x2 : Nat) : Int)) ≥ ((max y1 y2 - min y1 y2 : Nat) : Int)
          then i16 (Int.tdiv ((max x1 x2 - min x1 x2 : Nat) : Int) 2)
          else i16 (Int.tdiv ((max y1 y2 - min y1 y2 : Nat) : Int) 2))
        (if (((max x1 x2 - min x1 x2 : Nat) : Int)) ≥ ((max y1 y2 - min y1 y2 : Nat) : Int)
          then ((max y1 y2 - min y1 y2 : Nat) : Int) else ((max x1 x2 - min x1 x2 : Nat) : Int))
        (if (((max x1 x2 - min x1 x2 : Nat) : Int)) ≥ ((max y1 y2 - min y1 y2 : Nat) : Int)
          then ((max x1 x2 - min x1 x2 : Nat) : Int) else ((max y1 y2 - min y1 y2 : Nat) : Int))
        0 = some starts ∧
      starts.length = max (max x1 x2 - min x1 x2) (max y1 y2 - min y1 y2) + 1 ∧
      starts.head? = some (x1, y1) ∧ starts.getLast? = some (x2, y2) ∧
      List.Chain' (fun p q : Nat × Nat =>
        p.1 ≤ q.1 + 1 ∧ q.1 ≤ p.1 + 1 ∧ p.2 ≤ q.2 + 1 ∧ q.2 ≤ p.2 + 1) starts ∧
      ∀ p ∈ starts, inBox x1 y1 x2 y2 p.1 p.2 := by
    rw [i16_ofNat x1 (by omega), i16_ofNat y1 (by omega)]
    have hsx : (if x2 ≥ x1 then (1 : Int) else -1) = 1 ∨ (if x2 ≥ x1 then (1 : Int) else -1) = -1 := by
      split_ifs
      · exact Or.inl rfl
      · exact Or.inr rfl
    have hsy : (if y2 ≥ y1 then (1 : Int) else -1) = 1 ∨ (if y2 ≥ y1 then (1 : Int) else -1) = -1 := by
      split_ifs
      · exact Or.inl rfl
      · exact Or.inr rfl
    have ex : (x1 : Int) + (if x2 ≥ x1 then (1 : Int) else -1) *
        ((max x1 x2 - min x1 x2 : Nat) : Int) = x2 := by
      split_ifs <;> omega
    have ey : (y1 : Int) + (if y2 ≥ y1 then (1 : Int) else -1) *
        ((max y1 y2 - min y1 y2 : Nat) : Int) = y2 := by
      split_ifs <;> omega
    generalize (if x2 ≥ x1 then (1 : Int) else -1) = sx at hsx ex ⊢
    generalize (if y2 ≥ y1 then (1 : Int) else -1) = sy at hsy ey ⊢
    obtain ⟨m, rfl⟩ : ∃ m, fuel = m + 2 := ⟨fuel - 2, by omega⟩
    by_cases hge : ((max x1 x2 - min x1 x2 : Nat) : Int) ≥ ((max y1 y2 - min y1 y2 : Nat) : Int)
    · simp only [hge, if_true]
      rw [Int.tdiv_eq_ediv (by omega) (by norm_num), i16_id _ (by omega) (by omega)]
      by_cases hz : max x1 x2 - min x1 x2 = 0
      · have hxx : x1 = x2 := by omega
        have hyy : y1 = y2 := by omega
        have hzy : max y1 y2 - min y1 y2 = 0 := by omega
        rw [hz, hzy, Nat.cast_zero]
        rw [triStarts_last_pass _ _ _ _ _ _ _ _ _ _ _ (le_refl _) (by norm_num),
          u16_ofNat x1 (by omega), u16_ofNat y1 (by omega)]
        refine ⟨_, rfl, rfl, rfl, by rw [hxx, hyy]; rfl, List.chain'_singleton _, ?_⟩
        intro p hp
        rw [List.mem_singleton] at hp
        subst hp
        unfold inBox
        simp only
        omega
      · obtain ⟨l, e, hl, hh, hlast, hch, hall⟩ := triStarts_spec x2 y2 0 sx sy 0
          ((max x1 x2 - min x1 x2 : Nat) : Int) ((max y1 y2 - min y1 y2 : Nat) : Int)
          ((max x1 x2 - min x1 x2 : Nat) : Int) (((max x1 x2 - min x1 x2 : Nat) : Int) / 2)
          (Or.inl ⟨rfl, rfl, hsx, hsy⟩) (by omega) (by omega) (by omega) (by omega) (by omega)
          (by omega) (by omega) (by omega) (by omega) (max x1 x2 - min x1 x2) (m + 2)
          x1 y1 ((max y1 y2 - min y1 y2 : Nat) : Int)
          (((max x1 x2 - min x1 x2 : Nat) : Int) / 2) 0
          (by omega) (by omega) (by omega) (by omega) (by omega) (le_refl _) (by omega)
          (by simp only [zero_mul, add_zero]; exact ex)
          (by simp only [zero_mul, zero_add]; exact ey)
          (by omega) (by omega) (by omega) (by rw [mul_comm]; omega)
        refine ⟨l, e, by rw [hl]; omega, by rw [hh]; simp, hlast, hch, ?_⟩
        intro p hp
        obtain ⟨r2, k2, h1, h2, h3, h4, h5, h6⟩ := hall p hp
        simp only [zero_mul, add_zero, zero_add] at h5 h6
        unfold inBox
        rcases hsx with rfl | rfl <;> rcases hsy with rfl | rfl <;> omega
    · simp only [hge, if_false]
      rw [Int.tdiv_eq_ediv (by omega) (by norm_num), i16_id _ (by omega) (by omega)]
      obtain ⟨l, e, hl, hh, hlast, hch, hall⟩ := triStarts_spec x2 y2 sx 0 0 sy
        ((max y1 y2 - min y1 y2 : Nat) : Int) ((max x1 x2 - min x1 x2 : Nat) : Int)
        ((max y1 y2 - min y1 y2 : Nat) : Int) (((max y1 y2 - min y1 y2 : Nat) : Int) / 2)
        (Or.inr ⟨rfl, rfl, hsx, hsy⟩) (by omega) (by omega) (by omega) (by omega) (by omega)
        (by omega) (by omega) (by omega) (by omega) (max y1 y2 - min y1 y2) (m + 2)
        x1 y1 ((max x1 x2 - min x1 x2 : Nat) : Int)
        (((max y1 y2 - min y1 y2 : Nat) : Int) / 2) 0
        (by omega) (by omega) (by omega) (by omega) (by omega) (le_refl _) (by omega)
        (by simp only [zero_mul, zero_add]; exact ex)
        (by simp only [zero_mul, add_zero]; exact ey)
        (by omega) (by omega) (by omega) (by rw [mul_comm]; omega)
      refine ⟨l, e, by rw [hl]; omega, by rw [hh]; simp, hlast, hch, ?_⟩
      intro p hp
      obtain ⟨r2, k2, h1, h2, h3, h4, h5, h6⟩ := hall p hp
      simp only [zero_mul, add_zero, zero_add] at h5 h6
      unfold inBox
      rcases hsx with rfl | rfl <;> rcases hsy with rfl | rfl <;> omega
  obtain ⟨starts, e, hl, hh, hlast, hch, hall⟩ := key
  have hcalls : SSD1306_DrawFilledTriangle_calls fuel x1 y1 x2 y2 = some starts := by
    unfold SSD1306_DrawFilledTriangle_calls
    dsimp only
    rw [abs_i16 x1 x2 (by omega) (by omega), abs_i16 y1 y2 (by omega) (by omega)]
    exact e
  have hres : SSD1306_DrawFilledTriangle fuel s x1 y1 x2 y2 x3 y3 c
      = drawLinesTo fuel x3 y3 c s starts := by
    rw [DrawFilledTriangle_calls_eq, hcalls, Option.some_bind]
  refine ⟨starts, hcalls, hres, ?_, hl, hh, hlast, hch, hall⟩
  rw [hres]
  exact drawLinesTo_total fuel hf x3 y3 c starts s

/-- Witness for C19: fuel 129, the triangle (2, 5), (6, 3), (20, 40): the five calls of
`SSD1306_DrawLine` start at (2, 5), (3, 4), (4, 4), (5, 3), (6, 3). -/
theorem C19_DrawFilledTriangle_witness :
    129 ≤ 129 ∧ 2 < SSD1306_WIDTH ∧ 5 < SSD1306_HEIGHT ∧ 6 < SSD1306_WIDTH ∧
    3 < SSD1306_HEIGHT ∧ 20 < SSD1306_WIDTH ∧ 40 < SSD1306_HEIGHT ∧
    SSD1306_DrawFilledTriangle_calls 129 2 5 6 3
      = some [(2, 5), (3, 4), (4, 4), (5, 3), (6, 3)] ∧
    ∃ starts, SSD1306_DrawFilledTriangle_calls 129 2 5 6 3 = some starts ∧
      SSD1306_DrawFilledTriangle 129 (Display.mk blackBuffer 0 0 0 1) 2 5 6 3 20 40 1
        = drawLinesTo 129 20 40 1 (Display.mk blackBuffer 0 0 0 1) starts ∧
      (∃ t, SSD1306_DrawFilledTriangle 129 (Display.mk blackBuffer 0 0 0 1) 2 5 6 3 20 40 1
        = some t) ∧
      starts.length = max (max 2 6 - min 2 6) (max 5 3 - min 5 3) + 1 ∧
      starts.head? = some (2, 5) ∧ starts.getLast? = some (6, 3) ∧
      List.Chain' (fun p q : Nat × Nat =>
        p.1 ≤ q.1 + 1 ∧ q.1 ≤ p.1 + 1 ∧ p.2 ≤ q.2 + 1 ∧ q.2 ≤ p.2 + 1) starts ∧
      ∀ p ∈ starts, inBox 2 5 6 3 p.1 p.2 :=
  ⟨le_refl 129, by decide, by decide, by decide, by decide, by decide, by decide, by decide,
    C19_DrawFilledTriangle 129 (le_refl 129) (Display.mk blackBuffer 0 0 0 1) 2 5 6 3 20 40 1
      (by decide) (by decide) (by decide) (by decide) (by decide) (by decide)⟩

/-! ## Claim C18: the midpoint circle -/

/-- A pixel that is not in the list keeps its framebuffer bit. -/
theorem drawPts_getBit_other (pts : List (Nat × Nat)) (c : Nat) (s : Display) (px py : Nat)
    (hlen : s.SSD1306_Buffer_all.length = 1024) (hpx : px < SSD1306_WIDTH)
    (hno : (px, py) ∉ pts) :
    (drawPts s pts c).getBit px py = s.getBit px py := by
  induction pts generalizing s with
  | nil => rfl
  | cons p pts ih =>
    rw [drawPts_cons, ih _ ((DrawPixel_frame s _ _ _).1.trans hlen)
      (fun h => hno (List.mem_cons_of_mem _ h)),
      DrawPixel_getBit s _ _ _ px py hlen hpx, if_neg]
    rintro ⟨h1, h2, -⟩
    apply hno
    rw [← h1, ← h2]
    exact List.mem_cons_self _ _

theorem circleLoop_circleTrace (x0 y0 : Int) (c : Nat) (fuel : Nat) :
    ∀ (s : Display) (f ddF_x ddF_y x y : Int),
      circleLoop fuel s x0 y0 f ddF_x ddF_y x y c =
        (circleTrace fuel (f, ddF_x, ddF_y, x, y)).map (fun tr =>
          drawPts s (tr.flatMap (fun q => circlePts8 x0 y0 q.2.2.2.1 q.2.2.2.2)) c) := by
  induction fuel with
  | zero =>
    intro s f ddF_x ddF_y x y
    rfl
  | succ n ih =>
    intro s f ddF_x ddF_y x y
    unfold circleLoop circleTrace
    by_cases h : x < y
    · rw [if_pos h, if_pos h]
      dsimp only
      rw [ih, Option.map_map]
      rfl
    · rw [if_neg h, if_neg h]
      rfl

/-- The midpoint recurrence from a state with the exact values
`f = (x + 1)^2 + y^2 - y - r^2`, `ddF_x = 2 x + 1`, `ddF_y = -2 y` and
`|x^2 + y^2 - r^2| ≤ r`: the loop returns and every later state has these exact
values again, with `0 ≤ x, y ≤ r`. -/
theorem circleTrace_spec (r : Int) (hr : r ≤ 127) (n : Nat) :
    ∀ (fuel : Nat) (f ddF_x ddF_y x y : Int), n < fuel → y - x ≤ n → 0 ≤ x → 0 ≤ y → y ≤ r →
      f = (x + 1) * (x + 1) + y * y - y - r * r → ddF_x = 2 * x + 1 → ddF_y = -2 * y →
      -r ≤ x * x + y * y - r * r → x * x + y * y - r * r ≤ r →
      ∃ tr, circleTrace fuel (f, ddF_x, ddF_y, x, y) = some tr ∧
        ∀ q ∈ tr, 0 ≤ q.2.2.2.1 ∧ q.2.2.2.1 ≤ r ∧ 0 ≤ q.2.2.2.2 ∧ q.2.2.2.2 ≤ r ∧
          q.1 = (q.2.2.2.1 + 1) * (q.2.2.2.1 + 1) + q.2.2.2.2 * q.2.2.2.2 - q.2.2.2.2 - r * r ∧
          q.2.1 = 2 * q.2.2.2.1 + 1 ∧ q.2.2.1 = -2 * q.2.2.2.2 ∧
          -r ≤ q.2.2.2.1 * q.2.2.2.1 + q.2.2.2.2 * q.2.2.2.2 - r * r ∧
          q.2.2.2.1 * q.2.2.2.1 + q.2.2.2.2 * q.2.2.2.2 - r * r ≤ r := by
  induction n with
  | zero =>
    intro fuel f ddF_x ddF_y x y hf hm hx hy hyr ef edx edy hd0 hd1
    obtain ⟨m, rfl⟩ : ∃ m, fuel = m + 1 := ⟨fuel - 1, by omega⟩
    unfold circleTrace
    rw [if_neg (by simp only; omega)]
    exact ⟨[], rfl, fun q hq => absurd hq (List.not_mem_nil _)⟩
  | succ n ih =>
    intro fuel f ddF_x ddF_y x y hf hm hx hy hyr ef edx edy hd0 hd1
    obtain ⟨m, rfl⟩ : ∃ m, fuel = m + 1 := ⟨fuel - 1, by omega⟩
    unfold circleTrace
    by_cases hlt : x < y
    · rw [if_pos (by simp only; exact hlt)]
      have e1 : (x + 1) * (x + 1) = x * x + 2 * x + 1 := by ring
      have e2 : (x + 1 + 1) * (x + 1 + 1) = x * x + 4 * x + 4 := by ring
      have e3 : (y - 1) * (y - 1) = y * y - 2 * y + 1 := by ring
      rw [e1] at ef
      by_cases hf0 : f ≥ 0
      · have hstep : circleStep (f, ddF_x, ddF_y, x, y)
            = (f + (ddF_y + 2) + (ddF_x + 2), ddF_x + 2, ddF_y + 2, x + 1, y - 1) := by
          unfold circleStep
          simp only [hf0, if_true]
          rw [i16_id (y - 1) (by omega) (by omega), i16_id (ddF_y + 2) (by omega) (by omega),
            i16_id (f + (ddF_y + 2)) (by omega) (by omega), i16_id (x + 1) (by omega) (by omega),
            i16_id (ddF_x + 2) (by omega) (by omega),
            i16_id (f + (ddF_y + 2) + (ddF_x + 2)) (by omega) (by omega)]
        rw [hstep]
        obtain ⟨tr, e, hall⟩ := ih m (f + (ddF_y + 2) + (ddF_x + 2)) (ddF_x + 2) (ddF_y + 2)
          (x + 1) (y - 1) (by omega) (by omega) (by omega) (by omega) (by omega)
          (by rw [e2, e3]; omega) (by omega) (by omega) (by rw [e1, e3]; omega)
          (by rw [e1, e3]; omega)
        refine ⟨_ :: tr, by rw [e]; rfl, ?_⟩
        intro q hq
        rcases List.mem_cons.1 hq with rfl | hq
        · simp only
          refine ⟨by omega, by omega, by omega, by omega, by rw [e2, e3]; omega, by omega,
            by omega, by rw [e1, e3]; omega, by rw [e1, e3]; omega⟩
        · exact hall q hq
      · have hstep : circleStep (f, ddF_x, ddF_y, x, y)
            = (f + (ddF_x + 2), ddF_x + 2, ddF_y, x + 1, y) := by
          unfold circleStep
          simp only [hf0, if_false]
          rw [i16_id (x + 1) (by omega) (by omega), i16_id (ddF_x + 2) (by omega) (by omega),
            i16_id (f + (ddF_x + 2)) (by omega) (by omega)]
        rw [hstep]
        obtain ⟨tr, e, hall⟩ := ih m (f + (ddF_x + 2)) (ddF_x + 2) ddF_y
          (x + 1) y (by omega) (by omega) (by omega) (by omega) (by omega)
          (by rw [e2]; omega) (by omega) (by omega) (by rw [e1]; omega)
          (by rw [e1]; omega)
        refine ⟨_ :: tr, by rw [e]; rfl, ?_⟩
        intro q hq
        rcases List.mem_cons.1 hq with rfl | hq
        · simp only
          refine ⟨by omega, by omega, by omega, by omega, by rw [e2]; omega, by omega,
            by omega, by rw [e1]; omega, by rw [e1]; omega⟩
        · exact hall q hq
    · rw [if_neg (by simp only; exact hlt)]
      exact ⟨[], rfl, fun q hq => absurd hq (List.not_mem_nil _)⟩

theorem u16_add_off (x0 v : Int) (px : Nat) (h0 : -128 ≤ x0) (h1 : x0 ≤ 255) (hv0 : -127 ≤ v)
    (hv1 : v ≤ 127) (hpx : px < 128) (h : px = u16 (x0 + v)) : (px : Int) = x0 + v := by
  unfold u16 at h
  omega

theorem u16_sub_off (x0 v : Int) (px : Nat) (h0 : -128 ≤ x0) (h1 : x0 ≤ 255) (hv0 : -127 ≤ v)
    (hv1 : v ≤ 127) (hpx : px < 128) (h : px = u16 (x0 - v)) : (px : Int) = x0 + -v := by
  unfold u16 at h
  omega

/-- C18: for a radius `0 ≤ r ≤ 127` and a centre with `-128 ≤ x0, y0 ≤ 255`,
`SSD1306_DrawCircle` returns the state `t` obtained by plotting the four axis points and the
eight points of every loop state; the framebuffer length, the cursor and the flags are kept;
every loop state `(f, ddF_x, ddF_y, x, y)` carries the exact values
`f = (x + 1)^2 + y^2 - y - r^2`, `ddF_x = 2 x + 1`, `ddF_y = -2 y`, all of magnitude at most
512, so no 16-bit conversion wraps; and an in-range pixel whose bit differs afterwards is
`(x0 + a, y0 + b)` for integer offsets with `|a^2 + b^2 - r^2| ≤ r`. -/
theorem C18_DrawCircle (fuel : Nat) (hf : 129 ≤ fuel) (s : Display) (hs : s.WF)
    (x0 y0 r : Int) (c : Nat) (hr0 : 0 ≤ r) (hr : r ≤ 127)
    (hx0 : -128 ≤ x0 ∧ x0 ≤ 255) (hy0 : -128 ≤ y0 ∧ y0 ≤ 255) :
    ∃ t tr, SSD1306_DrawCircle fuel s x0 y0 r c = some t ∧
      circleTrace fuel (i16 (1 - r), 1, i16 (-2 * r), 0, r) = some tr ∧
      i16 (1 - r) = 1 - r ∧ i16 (-2 * r) = -2 * r ∧
      t = drawPts s ([(u16 x0, u16 (y0 + r)), (u16 x0, u16 (y0 - r)),
            (u16 (x0 + r), u16 y0), (u16 (x0 - r), u16 y0)] ++
          tr.flatMap (fun q => circlePts8 x0 y0 q.2.2.2.1 q.2.2.2.2)) c ∧
      s.SameFrame t ∧
      (∀ q ∈ tr, 0 ≤ q.2.2.2.1 ∧ q.2.2.2.1 ≤ r ∧ 0 ≤ q.2.2.2.2 ∧ q.2.2.2.2 ≤ r ∧
        q.1 = (q.2.2.2.1 + 1) * (q.2.2.2.1 + 1) + q.2.2.2.2 * q.2.2.2.2 - q.2.2.2.2 - r * r ∧
        q.2.1 = 2 * q.2.2.2.1 + 1 ∧ q.2.2.1 = -2 * q.2.2.2.2 ∧
        -512 ≤ q.1 ∧ q.1 ≤ 512 ∧ q.2.1 ≤ 255 ∧ -254 ≤ q.2.2.1) ∧
      ∀ px py, px < SSD1306_WIDTH → py < SSD1306_HEIGHT → t.getBit px py ≠ s.getBit px py →
        ∃ a b : Int, (px : Int) = x0 + a ∧ (py : Int) = y0 + b ∧
          -r ≤ a * a + b * b - r * r ∧ a * a + b * b - r * r ≤ r := by
  have ei1 : i16 (1 - r) = 1 - r := i16_id _ (by omega) (by omega)
  have ei2 : i16 (-2 * r) = -2 * r := i16_id _ (by omega) (by omega)
  obtain ⟨tr, etr, hall⟩ := circleTrace_spec r hr 127 fuel (1 - r) 1 (-2 * r) 0 r (by omega)
    (by omega) (le_refl _) hr0 (le_refl _) (by ring) (by ring) (by ring) (by omega) (by omega)
  have hrun : SSD1306_DrawCircle fuel s x0 y0 r c
      = some (drawPts s ([(u16 x0, u16 (y0 + r)), (u16 x0, u16 (y0 - r)),
            (u16 (x0 + r), u16 y0), (u16 (x0 - r), u16 y0)] ++
          tr.flatMap (fun q => circlePts8 x0 y0 q.2.2.2.1 q.2.2.2.2)) c) := by
    unfold SSD1306_DrawCircle
    dsimp only
    rw [circleLoop_circleTrace, ei1, ei2, etr, drawPts_append]
    rfl
  refine ⟨_, tr, hrun, by rw [ei1, ei2]; exact etr, ei1, ei2, rfl, drawPts_frame _ _ _, ?_, ?_⟩
  · intro q hq
    obtain ⟨h1, h2, h3, h4, h5, h6, h7, h8, h9⟩ := hall q hq
    have e1 : (q.2.2.2.1 + 1) * (q.2.2.2.1 + 1)
        = q.2.2.2.1 * q.2.2.2.1 + 2 * q.2.2.2.1 + 1 := by ring
    refine ⟨h1, h2, h3, h4, h5, h6, h7, ?_, ?_, ?_, ?_⟩
    · rw [e1] at h5
      omega
    · rw [e1] at h5
      omega
    · omega
    · omega
  · intro px py hpx hpy hne
    simp only [width_eq, height_eq] at hpx hpy
    have hmem : (px, py) ∈ [(u16 x0, u16 (y0 + r)), (u16 x0, u16 (y0 - r)),
            (u16 (x0 + r), u16 y0), (u16 (x0 - r), u16 y0)] ++
          tr.flatMap (fun q => circlePts8 x0 y0 q.2.2.2.1 q.2.2.2.2) := by
      by_contra hno
      exact hne (drawPts_getBit_other _ c s px py hs.1 (by rw [width_eq]; omega) hno)
    have z0 : (0 : Int) * 0 = 0 := by norm_num
    rcases List.mem_append.1 hmem with h | h
    · simp only [List.mem_cons, Prod.mk.injEq, List.mem_singleton, List.not_mem_nil,
        or_false] at h
      rcases h with ⟨a, b⟩ | ⟨a, b⟩ | ⟨a, b⟩ | ⟨a, b⟩
      · refine ⟨0, r, ?_, u16_add_off y0 r py hy0.1 hy0.2 (by omega) hr (by omega) b, ?_, ?_⟩
        · unfold u16 at a
          omega
        · omega
        · omega
      · refine ⟨0, -r, ?_, u16_sub_off y0 r py hy0.1 hy0.2 (by omega) hr (by omega) b, ?_, ?_⟩
        · unfold u16 at a
          omega
        · rw [neg_mul_neg]
          omega
        · rw [neg_mul_neg]
          omega
      · refine ⟨r, 0, u16_add_off x0 r px hx0.1 hx0.2 (by omega) hr (by omega) a, ?_, ?_, ?_⟩
        · unfold u16 at b
          omega
        · omega
        · omega
      · refine ⟨-r, 0, u16_sub_off x0 r px hx0.1 hx0.2 (by omega) hr (by omega) a, ?_, ?_, ?_⟩
        · unfold u16 at b
          omega
        · rw [neg_mul_neg]
          omega
        · rw [neg_mul_neg]
          omega
    · obtain ⟨q, hq, hin⟩ := List.mem_flatMap.1 h
      obtain ⟨h1, h2, h3, h4, -, -, -, h8, h9⟩ := hall q hq
      generalize q.2.2.2.1 = x at h1 h2 h8 h9 hin
      generalize q.2.2.2.2 = y at h3 h4 h8 h9 hin
      unfold circlePts8 at hin
      simp only [List.mem_cons, Prod.mk.injEq, List.mem_singleton, List.not_mem_nil,
        or_false] at hin
      have ax := fun (v : Int) (h0 : -127 ≤ v) (h1 : v ≤ 127) =>
        u16_add_off x0 v px hx0.1 hx0.2 h0 h1 hpx
      have sx := fun (v : Int) (h0 : -127 ≤ v) (h1 : v ≤ 127) =>
        u16_sub_off x0 v px hx0.1 hx0.2 h0 h1 hpx
      have ay := fun (v : Int) (h0 : -127 ≤ v) (h1 : v ≤ 127) =>
        u16_add_off y0 v py hy0.1 hy0.2 h0 h1 (by omega)
      have sy := fun (v : Int) (h0 : -127 ≤ v) (h1 : v ≤ 127) =>
        u16_sub_off y0 v py hy0.1 hy0.2 h0 h1 (by omega)
      rcases hin with ⟨a, b⟩ | ⟨a, b⟩ | ⟨a, b⟩ | ⟨a, b⟩ | ⟨a, b⟩ | ⟨a, b⟩ | ⟨a, b⟩ | ⟨a, b⟩
      · exact ⟨x, y, ax x (by omega) (by omega) a, ay y (by omega) (by omega) b, h8, h9⟩
      · exact ⟨-x, y, sx x (by omega) (by omega) a, ay y (by omega) (by omega) b,
          by rw [neg_mul_neg]; exact h8, by rw [neg_mul_neg]; exact h9⟩
      · exact ⟨x, -y, ax x (by omega) (by omega) a, sy y (by omega) (by omega) b,
          by rw [neg_mul_neg]; exact h8, by rw [neg_mul_neg]; exact h9⟩
      · exact ⟨-x, -y, sx x (by omega) (by omega) a, sy y (by omega) (by omega) b,
          by rw [neg_mul_neg, neg_mul_neg]; exact h8, by rw [neg_mul_neg, neg_mul_neg]; exact h9⟩
      · exact ⟨y, x, ax y (by omega) (by omega) a, ay x (by omega) (by omega) b,
          by omega, by omega⟩
      · exact ⟨-y, x, sx y (by omega) (by omega) a, ay x (by omega) (by omega) b,
          by rw [neg_mul_neg]; omega, by rw [neg_mul_neg]; omega⟩
      · exact ⟨y, -x, ax y (by omega) (by omega) a, sy x (by omega) (by omega) b,
          by rw [neg_mul_neg]; omega, by rw [neg_mul_neg]; omega⟩
      · exact ⟨-y, -x, sx y (by omega) (by omega) a, sy x (by omega) (by omega) b,
          by rw [neg_mul_neg, neg_mul_neg]; omega, by rw [neg_mul_neg, neg_mul_neg]; omega⟩

theorem C18_DrawCircle_witness :
    129 ≤ 129 ∧ (Display.mk blackBuffer 0 0 0 1).WF ∧ (0 : Int) ≤ 5 ∧ (5 : Int) ≤ 127 ∧
    ((-128 : Int) ≤ -2 ∧ (-2 : Int) ≤ 255) ∧ ((-128 : Int) ≤ 10 ∧ (10 : Int) ≤ 255) ∧
    ∃ t tr, SSD1306_DrawCircle 129 (Display.mk blackBuffer 0 0 0 1) (-2) 10 5 1 = some t ∧
      circleTrace 129 (i16 (1 - 5), 1, i16 (-2 * 5), 0, 5) = some tr ∧
      i16 (1 - 5) = 1 - 5 ∧ i16 (-2 * 5) = -2 * 5 ∧
      t = drawPts (Display.mk blackBuffer 0 0 0 1) ([(u16 (-2), u16 (10 + 5)),
            (u16 (-2), u16 (10 - 5)), (u16 (-2 + 5), u16 10), (u16 (-2 - 5), u16 10)] ++
          tr.flatMap (fun q => circlePts8 (-2) 10 q.2.2.2.1 q.2.2.2.2)) 1 ∧
      (Display.mk blackBuffer 0 0 0 1).SameFrame t ∧
      (∀ q ∈ tr, 0 ≤ q.2.2.2.1 ∧ q.2.2.2.1 ≤ 5 ∧ 0 ≤ q.2.2.2.2 ∧ q.2.2.2.2 ≤ 5 ∧
        q.1 = (q.2.2.2.1 + 1) * (q.2.2.2.1 + 1) + q.2.2.2.2 * q.2.2.2.2 - q.2.2.2.2 - 5 * 5 ∧
        q.2.1 = 2 * q.2.2.2.1 + 1 ∧ q.2.2.1 = -2 * q.2.2.2.2 ∧
        -512 ≤ q.1 ∧ q.1 ≤ 512 ∧ q.2.1 ≤ 255 ∧ -254 ≤ q.2.2.1) ∧
      ∀ px py, px < SSD1306_WIDTH → py < SSD1306_HEIGHT →
        t.getBit px py ≠ (Display.mk blackBuffer 0 0 0 1).getBit px py →
        ∃ a b : Int, (px : Int) = -2 + a ∧ (py : Int) = 10 + b ∧
          -5 ≤ a * a + b * b - 5 * 5 ∧ a * a + b * b - 5 * 5 ≤ 5 :=
  ⟨le_refl 129, blank_WF 0 0 0 1 (by decide) (by decide) (by decide) (by decide), by decide,
    by decide, by decide, by decide,
    C18_DrawCircle 129 (le_refl 129) (Display.mk blackBuffer 0 0 0 1)
      (blank_WF 0 0 0 1 (by decide) (by decide) (by decide) (by decide))
      (-2) 10 5 1 (by decide) (by decide) (by decide) (by decide)⟩

/-! ## Claims C16 and C17: the filled circle -/

theorem filledCircleLoop_circleTrace (fuel : Nat) (hf : 129 ≤ fuel) (x0 y0 : Int) (c : Nat)
    (n : Nat) :
    ∀ (s : Display) (f ddF_x ddF_y x y : Int),
      filledCircleLoop n fuel s x0 y0 f ddF_x ddF_y x y c =
        (circleTrace n (f, ddF_x, ddF_y, x, y)).map (fun tr =>
          drawPts s (tr.flatMap (fun q => filledCirclePts x0 y0 q.2.2.2.1 q.2.2.2.2)) c) := by
  induction n with
  | zero =>
    intro s f ddF_x ddF_y x y
    rfl
  | succ n ih =>
    intro s f ddF_x ddF_y x y
    unfold filledCircleLoop circleTrace
    by_cases h : x < y
    · rw [if_pos h, if_pos h]
      dsimp only
      rw [DrawLine_axis fuel s _ _ _ _ c hf (Or.inr rfl), Option.some_bind,
        DrawLine_axis fuel _ _ _ _ _ c hf (Or.inr rfl), Option.some_bind,
        DrawLine_axis fuel _ _ _ _ _ c hf (Or.inr rfl), Option.some_bind,
        DrawLine_axis fuel _ _ _ _ _ c hf (Or.inr rfl), Option.some_bind,
        ih, Option.map_map]
      refine congrArg (fun F => Option.map F (circleTrace n (circleStep (f, ddF_x, ddF_y, x, y))))
        (funext fun tr => ?_)
      simp only [Function.comp_apply, List.flatMap_cons]
      rw [drawPts_append]
      unfold filledCirclePts
      rw [drawPts_append, drawPts_append, drawPts_append]
      rfl
    · rw [if_neg h, if_neg h]
      rfl

/-- `SSD1306_DrawFilledCircle` as a list of plotted pixels: the four axis points,
the diameter run and the four runs of every loop state. -/
theorem DrawFilledCircle_eq (fuel : Nat) (hf : 129 ≤ fuel) (s : Display) (x0 y0 r : Int)
    (c : Nat) :
    SSD1306_DrawFilledCircle fuel s x0 y0 r c =
      (circleTrace fuel (i16 (1 - r), 1, i16 (-2 * r), 0, r)).map (fun tr =>
        drawPts s ([(u16 x0, u16 (y0 + r)), (u16 x0, u16 (y0 - r)),
            (u16 (x0 + r), u16 y0), (u16 (x0 - r), u16 y0)] ++
          (runPts (min (u16 (x0 - r)) 127) (min (u16 y0) 63)
            (min (u16 (x0 + r)) 127) (min (u16 y0) 63) ++
          tr.flatMap (fun q => filledCirclePts x0 y0 q.2.2.2.1 q.2.2.2.2))) c) := by
  unfold SSD1306_DrawFilledCircle
  dsimp only
  rw [DrawLine_axis fuel _ _ _ _ _ c hf (Or.inr rfl), Option.some_bind,
    filledCircleLoop_circleTrace fuel hf]
  refine congrArg (fun F => Option.map F (circleTrace fuel (i16 (1 - r), 1, i16 (-2 * r), 0, r)))
    (funext fun tr => ?_)
  rw [drawPts_append, drawPts_append]
  rfl

theorem mem_filledCirclePts (x0 y0 x y : Int) (px py : Nat) :
    (px, py) ∈ filledCirclePts x0 y0 x y ↔
    (inBox (min (u16 (x0 - x)) 127) (min (u16 (y0 + y)) 63)
        (min (u16 (x0 + x)) 127) (min (u16 (y0 + y)) 63) px py ∨
      inBox (min (u16 (x0 + x)) 127) (min (u16 (y0 - y)) 63)
        (min (u16 (x0 - x)) 127) (min (u16 (y0 - y)) 63) px py ∨
      inBox (min (u16 (x0 + y)) 127) (min (u16 (y0 + x)) 63)
        (min (u16 (x0 - y)) 127) (min (u16 (y0 + x)) 63) px py ∨
      inBox (min (u16 (x0 + y)) 127) (min (u16 (y0 - x)) 63)
        (min (u16 (x0 - y)) 127) (min (u16 (y0 - x)) 63) px py) := by
  unfold filledCirclePts
  simp only [List.mem_append, mem_runPts _ _ _ _ _ _ (Or.inr rfl)]

theorem u16_cast (v : Int) (h0 : 0 ≤ v) (h1 : v < 65536) : ((u16 v : Nat) : Int) = v := by
  unfold u16
  omega

theorem scan_extent (x0 y0 r a b : Int) (px py A1 A2 B : Nat) (hA1 : (A1 : Int) = x0 - a)
    (hA2 : (A2 : Int) = x0 + a) (hB : (B : Int) = y0 + b) (ha : 0 ≤ a) (har : a ≤ r)
    (hb : -r ≤ b) (hbr : b ≤ r)
    (h : inBox (min A1 127) (min B 63) (min A2 127) (min B 63) px py ∨
      inBox (min A2 127) (min B 63) (min A1 127) (min B 63) px py) :
    min (x0 - r) 127 ≤ (px : Int) ∧ (px : Int) ≤ min (x0 + r) 127 ∧
      min (y0 - r) 63 ≤ (py : Int) ∧ (py : Int) ≤ min (y0 + r) 63 := by
  unfold inBox at h
  have h12 : A1 ≤ A2 := by omega
  have hx1 : min A1 127 ≤ px := by
    rcases h with h | h
    · have := h.1
      omega
    · have := h.1
      omega
  have hx2 : px ≤ min A2 127 := by
    rcases h with h | h
    · have := h.2.1
      omega
    · have := h.2.1
      omega
  have hy : py = min B 63 := by
    rcases h with h | h
    · have h3 := h.2.2.1
      have h4 := h.2.2.2
      clear h
      omega
    · have h3 := h.2.2.1
      have h4 := h.2.2.2
      clear h
      omega
  clear h
  refine ⟨by omega, by omega, by omega, by omega⟩

theorem point_extent (x0 y0 r a b : Int) (px py : Nat) (hpx : px < 128) (hpy : py < 64)
    (hx : (px : Int) = x0 + a) (hy : (py : Int) = y0 + b) (ha0 : -r ≤ a) (ha1 : a ≤ r)
    (hb0 : -r ≤ b) (hb1 : b ≤ r) :
    min (x0 - r) 127 ≤ (px : Int) ∧ (px : Int) ≤ min (x0 + r) 127 ∧
      min (y0 - r) 63 ≤ (py : Int) ∧ (py : Int) ≤ min (y0 + r) 63 :=
  ⟨by omega, by omega, by omega, by omega⟩

theorem extent_abs (x0 y0 r : Int) (px py : Nat)
    (h : min (x0 - r) 127 ≤ (px : Int) ∧ (px : Int) ≤ min (x0 + r) 127 ∧
      min (y0 - r) 63 ≤ (py : Int) ∧ (py : Int) ≤ min (y0 + r) 63) :
    x0 ≤ 127 + r → y0 ≤ 63 + r →
      x0 - r ≤ (px : Int) ∧ (px : Int) ≤ x0 + r ∧ y0 - r ≤ (py : Int) ∧ (py : Int) ≤ y0 + r := by
  intro h1 h2
  omega

/-- C16 (amended): for a radius `0 ≤ r ≤ 127` and a centre with `r ≤ x0` and `r ≤ y0`, so that
no coordinate handed to `SSD1306_DrawLine` is negative, `SSD1306_DrawFilledCircle` returns,
keeps the framebuffer length, the cursor and the flags, and changes only in-range pixels
`(px, py)` inside the clamped extent `min (x0 - r) 127 ≤ px ≤ min (x0 + r) 127`,
`min (y0 - r) 63 ≤ py ≤ min (y0 + r) 63`; when moreover `x0 ≤ 127 + r` and `y0 ≤ 63 + r` these
pixels satisfy `|px - x0| ≤ r` and `|py - y0| ≤ r`. -/
theorem C16_DrawFilledCircle_extent (fuel : Nat) (hf : 129 ≤ fuel) (s : Display) (hs : s.WF)
    (x0 y0 r : Int) (c : Nat) (hr0 : 0 ≤ r) (hr : r ≤ 127) (hx0 : r ≤ x0) (hx1 : x0 ≤ 32767)
    (hy0 : r ≤ y0) (hy1 : y0 ≤ 32767) :
    ∃ t, SSD1306_DrawFilledCircle fuel s x0 y0 r c = some t ∧ s.SameFrame t ∧
      ∀ px py, px < SSD1306_WIDTH → py < SSD1306_HEIGHT → t.getBit px py ≠ s.getBit px py →
        (min (x0 - r) 127 ≤ (px : Int) ∧ (px : Int) ≤ min (x0 + r) 127 ∧
          min (y0 - r) 63 ≤ (py : Int) ∧ (py : Int) ≤ min (y0 + r) 63) ∧
        (x0 ≤ 127 + r → y0 ≤ 63 + r →
          x0 - r ≤ (px : Int) ∧ (px : Int) ≤ x0 + r ∧ y0 - r ≤ (py : Int) ∧ (py : Int) ≤ y0 + r) := by
  have ei1 : i16 (1 - r) = 1 - r := i16_id _ (by omega) (by omega)
  have ei2 : i16 (-2 * r) = -2 * r := i16_id _ (by omega) (by omega)
  obtain ⟨tr, etr, hall⟩ := circleTrace_spec r hr 127 fuel (1 - r) 1 (-2 * r) 0 r (by omega)
    (by omega) (le_refl _) hr0 (le_refl _) (by ring) (by ring) (by ring) (by omega) (by omega)
  refine ⟨_, by rw [DrawFilledCircle_eq fuel hf, ei1, ei2, etr]; rfl, drawPts_frame _ _ _, ?_⟩
  intro px py hpx hpy hne
  simp only [width_eq, height_eq] at hpx hpy
  have hmem : (px, py) ∈ [(u16 x0, u16 (y0 + r)), (u16 x0, u16 (y0 - r)),
            (u16 (x0 + r), u16 y0), (u16 (x0 - r), u16 y0)] ++
          (runPts (min (u16 (x0 - r)) 127) (min (u16 y0) 63)
            (min (u16 (x0 + r)) 127) (min (u16 y0) 63) ++
          tr.flatMap (fun q => filledCirclePts x0 y0 q.2.2.2.1 q.2.2.2.2)) := by
    by_contra hno
    exact hne (drawPts_getBit_other _ c s px py hs.1 (by rw [width_eq]; omega) hno)
  have ux := fun (v : Int) (h0 : 0 ≤ v) (h1 : v < 65536) => u16_cast v h0 h1
  have hbox : min (x0 - r) 127 ≤ (px : Int) ∧ (px : Int) ≤ min (x0 + r) 127 ∧
      min (y0 - r) 63 ≤ (py : Int) ∧ (py : Int) ≤ min (y0 + r) 63 := by
    rcases List.mem_append.1 hmem with h | h
    · simp only [List.mem_cons, Prod.mk.injEq, List.mem_singleton, List.not_mem_nil,
        or_false] at h
      have c1 := ux x0 (by omega) (by omega)
      have c2 := ux y0 (by omega) (by omega)
      have c3 := ux (x0 + r) (by omega) (by omega)
      have c4 := ux (x0 - r) (by omega) (by omega)
      have c5 := ux (y0 + r) (by omega) (by omega)
      have c6 := ux (y0 - r) (by omega) (by omega)
      rcases h with ⟨a, b⟩ | ⟨a, b⟩ | ⟨a, b⟩ | ⟨a, b⟩
      · rw [← a] at c1
        rw [← b] at c5
        exact point_extent x0 y0 r 0 r px py hpx hpy (by omega) (by omega) (by omega)
          (by omega) (by omega) (by omega)
      · rw [← a] at c1
        rw [← b] at c6
        exact point_extent x0 y0 r 0 (-r) px py hpx hpy (by omega) (by omega) (by omega)
          (by omega) (by omega) (by omega)
      · rw [← a] at c3
        rw [← b] at c2
        exact point_extent x0 y0 r r 0 px py hpx hpy (by omega) (by omega) (by omega)
          (by omega) (by omega) (by omega)
      · rw [← a] at c4
        rw [← b] at c2
        exact point_extent x0 y0 r (-r) 0 px py hpx hpy (by omega) (by omega) (by omega)
          (by omega) (by omega) (by omega)
    · rcases List.mem_append.1 h with h | h
      · rw [mem_runPts _ _ _ _ _ _ (Or.inr rfl)] at h
        exact scan_extent x0 y0 r r 0 px py _ _ _ (ux (x0 - r) (by omega) (by omega))
          (ux (x0 + r) (by omega) (by omega))
          (by rw [add_zero]; exact ux y0 (by omega) (by omega)) hr0 (le_refl _) (by omega) hr0
          (Or.inl h)
      · obtain ⟨q, hq, hin⟩ := List.mem_flatMap.1 h
        obtain ⟨h1, h2, h3, h4, -⟩ := hall q hq
        generalize q.2.2.2.1 = x at h1 h2 hin
        generalize q.2.2.2.2 = y at h3 h4 hin
        have sc := fun (a b : Int) (ha : 0 ≤ a) (har : a ≤ r) (hb : -r ≤ b) (hbr : b ≤ r) =>
          scan_extent x0 y0 r a b px py _ _ _ (ux (x0 - a) (by omega) (by omega))
            (ux (x0 + a) (by omega) (by omega)) (ux (y0 + b) (by omega) (by omega)) ha har hb hbr
        rcases (mem_filledCirclePts x0 y0 x y px py).1 hin with hb | hb | hb | hb
        · exact sc x y h1 h2 (by omega) h4 (Or.inl hb)
        · exact sc x (-y) h1 h2 (by omega) (by omega) (Or.inr (by rw [← sub_eq_add_neg]; exact hb))
        · exact sc y x h3 h4 (by omega) h2 (Or.inr hb)
        · exact sc y (-x) h3 h4 (by omega) (by omega) (Or.inr (by rw [← sub_eq_add_neg]; exact hb))
  exact ⟨hbox, extent_abs x0 y0 r px py hbox⟩

theorem C16_DrawFilledCircle_extent_witness :
    129 ≤ 129 ∧ (Display.mk blackBuffer 0 0 0 1).WF ∧ (0 : Int) ≤ 3 ∧ (3 : Int) ≤ 127 ∧
    (3 : Int) ≤ 126 ∧ (126 : Int) ≤ 32767 ∧ (3 : Int) ≤ 10 ∧ (10 : Int) ≤ 32767 ∧
    ∃ t, SSD1306_DrawFilledCircle 129 (Display.mk blackBuffer 0 0 0 1) 126 10 3 1 = some t ∧
      (Display.mk blackBuffer 0 0 0 1).SameFrame t ∧
      ∀ px py, px < SSD1306_WIDTH → py < SSD1306_HEIGHT →
        t.getBit px py ≠ (Display.mk blackBuffer 0 0 0 1).getBit px py →
        (min (126 - 3) 127 ≤ (px : Int) ∧ (px : Int) ≤ min (126 + 3) 127 ∧
          min (10 - 3) 63 ≤ (py : Int) ∧ (py : Int) ≤ min (10 + 3) 63) ∧
        ((126 : Int) ≤ 127 + 3 → (10 : Int) ≤ 63 + 3 →
          126 - 3 ≤ (px : Int) ∧ (px : Int) ≤ 126 + 3 ∧ 10 - 3 ≤ (py : Int) ∧
            (py : Int) ≤ 10 + 3) :=
  ⟨le_refl 129, blank_WF 0 0 0 1 (by decide) (by decide) (by decide) (by decide), by decide,
    by decide, by decide, by decide, by decide, by decide,
    C16_DrawFilledCircle_extent 129 (le_refl 129) (Display.mk blackBuffer 0 0 0 1)
      (blank_WF 0 0 0 1 (by decide) (by decide) (by decide) (by decide))
      126 10 3 1 (by decide) (by decide) (by decide) (by decide) (by decide) (by decide)⟩

/-- C16 (counterexample): on a blank display, the filled circle of radius 3 about `(200, 10)`
sets pixel `(127, 10)` (its scan lines are clamped to the last column), and the filled circle
of radius 3 about `(2, 10)` sets pixel `(100, 10)` (`x0 - r = -1` wraps to 65535 and is
clamped to column 127, so the diameter runs from column 5 to column 127); neither pixel is
within 3 columns of the centre. -/
theorem C16_counterexample :
    (∃ t, SSD1306_DrawFilledCircle 129 (Display.mk blackBuffer 0 0 0 1) 200 10 3 1 = some t ∧
      t.getBit 127 10 ≠ (Display.mk blackBuffer 0 0 0 1).getBit 127 10 ∧
      ¬ ((200 : Int) - 3 ≤ 127 ∧ (127 : Int) ≤ 200 + 3)) ∧
    (∃ t, SSD1306_DrawFilledCircle 129 (Display.mk blackBuffer 0 0 0 1) 2 10 3 1 = some t ∧
      t.getBit 100 10 ≠ (Display.mk blackBuffer 0 0 0 1).getBit 100 10 ∧
      ¬ ((2 : Int) - 3 ≤ 100 ∧ (100 : Int) ≤ 2 + 3)) := by
  have ei1 : i16 (1 - 3) = 1 - 3 := by decide
  have ei2 : i16 (-2 * 3) = -2 * 3 := by decide
  obtain ⟨tr, etr, -⟩ := circleTrace_spec 3 (by decide) 127 129 (1 - 3) 1 (-2 * 3) 0 3
    (by decide) (by decide) (le_refl _) (by decide) (le_refl _) (by decide) (by decide)
    (by decide) (by decide) (by decide)
  have hb : ∀ px py, (Display.mk blackBuffer 0 0 0 1).getBit px py = false :=
    fun px py => blank_getBit _ ⟨rfl, rfl⟩ px py
  have hlen : (Display.mk blackBuffer 0 0 0 1).SSD1306_Buffer_all.length = 1024 :=
    (blank_WF 0 0 0 1 (by decide) (by decide) (by decide) (by decide)).1
  constructor
  · refine ⟨_, by rw [DrawFilledCircle_eq 129 (le_refl _), ei1, ei2, etr]; rfl, ?_, by decide⟩
    rw [hb, Ne, Bool.not_eq_false]
    refine (drawPts_getBit _ _ 127 10 hlen rfl (by decide) (by decide)).2 (Or.inr ?_)
    refine List.mem_append_right _ (List.mem_append_left _ ?_)
    rw [mem_runPts _ _ _ _ _ _ (Or.inr rfl)]
    decide
  · refine ⟨_, by rw [DrawFilledCircle_eq 129 (le_refl _), ei1, ei2, etr]; rfl, ?_, by decide⟩
    rw [hb, Ne, Bool.not_eq_false]
    refine (drawPts_getBit _ _ 100 10 hlen rfl (by decide) (by decide)).2 (Or.inr ?_)
    refine List.mem_append_right _ (List.mem_append_left _ ?_)
    rw [mem_runPts _ _ _ _ _ _ (Or.inr rfl)]
    decide

theorem circleStep_ge (f ddF_x ddF_y x y r : Int) (hr : r ≤ 127) (hx : 0 ≤ x) (hlt : x < y)
    (hyr : y ≤ r) (ef : f = (x + 1) * (x + 1) + y * y - y - r * r) (edx : ddF_x = 2 * x + 1)
    (edy : ddF_y = -2 * y) (hd0 : -r ≤ x * x + y * y - r * r) (hd1 : x * x + y * y - r * r ≤ r)
    (hf0 : f ≥ 0) :
    circleStep (f, ddF_x, ddF_y, x, y)
      = (f + (ddF_y + 2) + (ddF_x + 2), ddF_x + 2, ddF_y + 2, x + 1, y - 1) := by
  have e1 : (x + 1) * (x + 1) = x * x + 2 * x + 1 := by ring
  rw [e1] at ef
  unfold circleStep
  simp only [hf0, if_true]
  rw [i16_id (y - 1) (by omega) (by omega), i16_id (ddF_y + 2) (by omega) (by omega),
    i16_id (f + (ddF_y + 2)) (by omega) (by omega), i16_id (x + 1) (by omega) (by omega),
    i16_id (ddF_x + 2) (by omega) (by omega),
    i16_id (f + (ddF_y + 2) + (ddF_x + 2)) (by omega) (by omega)]

theorem circleStep_lt (f ddF_x ddF_y x y r : Int) (hr : r ≤ 127) (hx : 0 ≤ x) (hlt : x < y)
    (hyr : y ≤ r) (ef : f = (x + 1) * (x + 1) + y * y - y - r * r) (edx : ddF_x = 2 * x + 1)
    (hd0 : -r ≤ x * x + y * y - r * r) (hd1 : x * x + y * y - r * r ≤ r)
    (hf0 : ¬ f ≥ 0) :
    circleStep (f, ddF_x, ddF_y, x, y) = (f + (ddF_x + 2), ddF_x + 2, ddF_y, x + 1, y) := by
  have e1 : (x + 1) * (x + 1) = x * x + 2 * x + 1 := by ring
  rw [e1] at ef
  unfold circleStep
  simp only [hf0, if_false]
  rw [i16_id (x + 1) (by omega) (by omega), i16_id (ddF_x + 2) (by omega) (by omega),
    i16_id (f + (ddF_x + 2)) (by omega) (by omega)]

theorem sq_le_sq_of_le (u v : Int) (hu : 0 ≤ u) (h : u ≤ v) : u * u ≤ v * v :=
  mul_le_mul h h hu (le_trans hu h)

/-- Every lattice point `(a, b)` of the disc with `x < b ≤ y` lies on a scan line of a later
loop state, or on row `y` within the half-width `x` already reached. -/
theorem circleTrace_cover (r : Int) (hr : r ≤ 127) (n : Nat) :
    ∀ (fuel : Nat) (f ddF_x ddF_y x y : Int) (tr : List (Int × Int × Int × Int × Int)),
      circleTrace fuel (f, ddF_x, ddF_y, x, y) = some tr → y - x ≤ n → 0 ≤ x → y ≤ r →
      f = (x + 1) * (x + 1) + y * y - y - r * r → ddF_x = 2 * x + 1 → ddF_y = -2 * y →
      -r ≤ x * x + y * y - r * r → x * x + y * y - r * r ≤ r →
      r * r < x * x + (y + 1) * (y + 1) →
      ∀ a b : Int, 0 ≤ a → x < b → b ≤ y → a * a + b * b ≤ r * r →
        (b = y ∧ a ≤ x) ∨
        ∃ q ∈ tr, (b = q.2.2.2.2 ∧ a ≤ q.2.2.2.1) ∨ (b = q.2.2.2.1 ∧ a ≤ q.2.2.2.2) := by
  induction n with
  | zero =>
    intro fuel f ddF_x ddF_y x y tr _ hm _ _ _ _ _ _ _ _ a b _ hb0 hb1 _
    omega
  | succ n ih =>
    intro fuel f ddF_x ddF_y x y tr htr hm hx hyr ef edx edy hd0 hd1 hI a b ha hb0 hb1 hab
    have hlt : x < y := by omega
    rcases fuel with _ | m
    · exact absurd htr (by unfold circleTrace; exact fun h => Option.noConfusion h)
    unfold circleTrace at htr
    rw [if_pos (by simp only; exact hlt)] at htr
    have e1 : (x + 1) * (x + 1) = x * x + 2 * x + 1 := by ring
    have e2 : (x + 1 + 1) * (x + 1 + 1) = x * x + 4 * x + 4 := by ring
    have e3 : (y - 1) * (y - 1) = y * y - 2 * y + 1 := by ring
    have e4 : (y - 1 + 1) * (y - 1 + 1) = y * y := by ring
    have e5 : (y + 1) * (y + 1) = y * y + 2 * y + 1 := by ring
    by_cases hf0 : f ≥ 0
    · rw [circleStep_ge f ddF_x ddF_y x y r hr hx hlt hyr ef edx edy hd0 hd1 hf0] at htr
      obtain ⟨tr1, htr1, rfl⟩ := Option.map_eq_some'.1 htr
      have hrec := ih m _ _ _ (x + 1) (y - 1) tr1 htr1 (by omega) (by omega) (by omega)
          (by rw [e2, e3]; omega) (by omega) (by omega) (by rw [e1, e3]; omega)
          (by rw [e1, e3]; omega) (by rw [e1, e4]; rw [e1] at ef; omega) a b ha
      by_cases hb : b = x + 1
      · right
        refine ⟨_, List.mem_cons_self _ _, Or.inr ⟨hb, ?_⟩⟩
        show a ≤ y - 1
        by_contra hcon
        have h1 := sq_le_sq_of_le y a (by omega) (by omega)
        rw [hb, e1] at hab
        rw [e1] at ef
        omega
      · by_cases hby : b = y
        · left
          refine ⟨hby, ?_⟩
          by_contra hcon
          have h1 := sq_le_sq_of_le (x + 1) a (by omega) (by omega)
          rw [hby] at hab
          rw [e1] at ef h1
          omega
        · rcases hrec (by omega) (by omega) hab with ⟨h1, h2⟩ | ⟨q, hq, h⟩
          · right
            exact ⟨_, List.mem_cons_self _ _, Or.inl ⟨h1, h2⟩⟩
          · right
            exact ⟨q, List.mem_cons_of_mem _ hq, h⟩
    · rw [circleStep_lt f ddF_x ddF_y x y r hr hx hlt hyr ef edx hd0 hd1 hf0] at htr
      obtain ⟨tr1, htr1, rfl⟩ := Option.map_eq_some'.1 htr
      have hrec := ih m _ _ _ (x + 1) y tr1 htr1 (by omega) (by omega) (by omega)
          (by rw [e2]; omega) (by omega) edy (by rw [e1]; omega)
          (by rw [e1]; rw [e1] at ef; omega) (by rw [e1, e5]; rw [e5] at hI; omega) a b ha
      by_cases hb : b = x + 1
      · right
        refine ⟨_, List.mem_cons_self _ _, Or.inr ⟨hb, ?_⟩⟩
        show a ≤ y
        by_contra hcon
        have h1 := sq_le_sq_of_le (y + 1) a (by omega) (by omega)
        rw [hb, e1] at hab
        rw [e5] at hI h1
        omega
      · rcases hrec (by omega) (by omega) hab with ⟨h1, h2⟩ | ⟨q, hq, h⟩
        · right
          exact ⟨_, List.mem_cons_self _ _, Or.inl ⟨h1, h2⟩⟩
        · right
          exact ⟨q, List.mem_cons_of_mem _ hq, h⟩

theorem inBox_scan (x0 w yy : Int) (A1 A2 B px py : Nat) (hA1 : (A1 : Int) = x0 - w)
    (hA2 : (A2 : Int) = x0 + w) (hB : (B : Int) = yy) (h1 : x0 + w ≤ 127) (h2 : yy ≤ 63)
    (hw : 0 ≤ w) (hpx0 : x0 - w ≤ (px : Int)) (hpx1 : (px : Int) ≤ x0 + w)
    (hpy : (py : Int) = yy) :
    inBox (min A1 127) (min B 63) (min A2 127) (min B 63) px py ∧
      inBox (min A2 127) (min B 63) (min A1 127) (min B 63) px py := by
  unfold inBox
  exact ⟨⟨by omega, by omega, by omega, by omega⟩, ⟨by omega, by omega, by omega, by omega⟩⟩

/-- C17: for a radius `r ≥ 0` and a centre whose circle lies wholly inside the display
(`r ≤ x0`, `x0 + r ≤ 127`, `r ≤ y0`, `y0 + r ≤ 63`), on a well-formed display with the invert
flag clear `SSD1306_DrawFilledCircle` in white returns a state in which every pixel
`(px, py)` with `(px - x0)^2 + (py - y0)^2 ≤ r^2` is set. -/
theorem C17_DrawFilledCircle_no_holes (fuel : Nat) (hf : 129 ≤ fuel) (s : Display)
    (hs : s.WF) (hinv : s.Inverted = 0) (x0 y0 r : Int) (hr0 : 0 ≤ r) (hx0 : r ≤ x0)
    (hx1 : x0 + r ≤ 127) (hy0 : r ≤ y0) (hy1 : y0 + r ≤ 63) :
    ∃ t, SSD1306_DrawFilledCircle fuel s x0 y0 r SSD1306_COLOR_WHITE = some t ∧
      ∀ px py : Nat,
        ((px : Int) - x0) * ((px : Int) - x0) + ((py : Int) - y0) * ((py : Int) - y0) ≤ r * r →
        t.getBit px py = true := by
  have hr : r ≤ 127 := by omega
  have ei1 : i16 (1 - r) = 1 - r := i16_id _ (by omega) (by omega)
  have ei2 : i16 (-2 * r) = -2 * r := i16_id _ (by omega) (by omega)
  have e5 : (r + 1) * (r + 1) = r * r + 2 * r + 1 := by ring
  obtain ⟨tr, etr, hall⟩ := circleTrace_spec r hr 127 fuel (1 - r) 1 (-2 * r) 0 r (by omega)
    (by omega) (le_refl _) hr0 (le_refl _) (by ring) (by ring) (by ring) (by omega) (by omega)
  have hcov := circleTrace_cover r hr 127 fuel (1 - r) 1 (-2 * r) 0 r tr etr (by omega)
    (le_refl _) (le_refl _) (by ring) (by ring) (by ring) (by omega) (by omega)
    (by rw [e5]; omega)
  refine ⟨_, by rw [DrawFilledCircle_eq fuel hf, ei1, ei2, etr]; rfl, ?_⟩
  intro px py hdisc
  have ux := fun (v : Int) (h0 : 0 ≤ v) (h1 : v < 65536) => u16_cast v h0 h1
  generalize hdx : (px : Int) - x0 = dx at hdisc
  generalize hdy : (py : Int) - y0 = dy at hdisc
  have hA : |dx| * |dx| = dx * dx := abs_mul_abs_self dx
  have ha0 := abs_nonneg dx
  have ha1 := neg_abs_le dx
  have ha2 := le_abs_self dx
  generalize |dx| = a at hA ha0 ha1 ha2
  have hB : |dy| * |dy| = dy * dy := abs_mul_abs_self dy
  have hb0 := abs_nonneg dy
  have hbc := abs_choice dy
  generalize |dy| = b at hB hb0 hbc
  have hsq : a * a + b * b ≤ r * r := by rw [hA, hB]; exact hdisc
  have haa := mul_self_nonneg a
  have hbb := mul_self_nonneg b
  have har : a ≤ r := by
    by_contra hcon
    have h1 := sq_le_sq_of_le (r + 1) a (by omega) (by omega)
    rw [e5] at h1
    omega
  have hbr : b ≤ r := by
    by_contra hcon
    have h1 := sq_le_sq_of_le (r + 1) b (by omega) (by omega)
    rw [e5] at h1
    omega
  clear hdisc hA hB haa hbb e5
  have hpx : px < 128 := by omega
  have hpy : py < 64 := by omega
  rw [drawPts_getBit _ s px py hs.1 hinv (by rw [width_eq]; exact hpx)
    (by rw [height_eq]; exact hpy)]
  right
  by_cases hbz : b = 0
  · refine List.mem_append_right _ (List.mem_append_left _ ?_)
    rw [mem_runPts _ _ _ _ _ _ (Or.inr rfl)]
    exact (inBox_scan x0 r y0 _ _ _ px py (ux (x0 - r) (by omega) (by omega))
      (ux (x0 + r) (by omega) (by omega)) (ux y0 (by omega) (by omega)) hx1 (by omega) hr0
      (by omega) (by omega) (by omega)).1
  · rcases hcov a b ha0 (by omega) hbr hsq with ⟨h1, h2⟩ | ⟨q, hq, h⟩
    · refine List.mem_append_left _ ?_
      simp only [List.mem_cons, Prod.mk.injEq, List.mem_singleton, List.not_mem_nil, or_false]
      have c1 := ux x0 (by omega) (by omega)
      have c5 := ux (y0 + r) (by omega) (by omega)
      have c6 := ux (y0 - r) (by omega) (by omega)
      rcases hbc with hbc | hbc
      · left
        exact ⟨by omega, by omega⟩
      · right
        left
        exact ⟨by omega, by omega⟩
    · refine List.mem_append_right _ (List.mem_append_right _ (List.mem_flatMap.2 ⟨q, hq, ?_⟩))
      obtain ⟨h1, h2, h3, h4, -⟩ := hall q hq
      rw [mem_filledCirclePts]
      generalize q.2.2.2.1 = x at h1 h2 h
      generalize q.2.2.2.2 = y at h3 h4 h
      have sc := fun (w yy : Int) (hw : 0 ≤ w) (hwr : w ≤ r) (h0 : y0 - r ≤ yy)
          (h1 : yy ≤ y0 + r) (g1 : x0 - w ≤ (px : Int)) (g2 : (px : Int) ≤ x0 + w)
          (g3 : (py : Int) = yy) (B : Nat) (hB : (B : Int) = yy) =>
        inBox_scan x0 w yy _ _ B px py (ux (x0 - w) (by omega) (by omega))
          (ux (x0 + w) (by omega) (by omega)) hB (by omega) (by omega) hw g1 g2 g3
      rcases h with ⟨e, hle⟩ | ⟨e, hle⟩
      · rcases hbc with hbc | hbc
        · exact Or.inl (sc x (y0 + y) h1 h2 (by omega) (by omega) (by omega) (by omega)
            (by omega) _ (ux (y0 + y) (by omega) (by omega))).1
        · exact Or.inr (Or.inl (sc x (y0 - y) h1 h2 (by omega) (by omega) (by omega) (by omega)
            (by omega) _ (ux (y0 - y) (by omega) (by omega))).2)
      · rcases hbc with hbc | hbc
        · exact Or.inr (Or.inr (Or.inl (sc y (y0 + x) h3 h4 (by omega) (by omega) (by omega)
            (by omega) (by omega) _ (ux (y0 + x) (by omega) (by omega))).2))
        · exact Or.inr (Or.inr (Or.inr (sc y (y0 - x) h3 h4 (by omega) (by omega) (by omega)
            (by omega) (by omega) _ (ux (y0 - x) (by omega) (by omega))).2))

theorem C17_DrawFilledCircle_no_holes_witness :
    129 ≤ 129 ∧ (Display.mk blackBuffer 0 0 0 1).WF ∧ (Display.mk blackBuffer 0 0 0 1).Inverted = 0 ∧
    (0 : Int) ≤ 20 ∧ (20 : Int) ≤ 60 ∧ (60 : Int) + 20 ≤ 127 ∧ (20 : Int) ≤ 30 ∧
    (30 : Int) + 20 ≤ 63 ∧
    ∃ t, SSD1306_DrawFilledCircle 129 (Display.mk blackBuffer 0 0 0 1) 60 30 20
        SSD1306_COLOR_WHITE = some t ∧
      ∀ px py : Nat,
        ((px : Int) - 60) * ((px : Int) - 60) + ((py : Int) - 30) * ((py : Int) - 30) ≤ 20 * 20 →
        t.getBit px py = true :=
  ⟨le_refl 129, blank_WF 0 0 0 1 (by decide) (by decide) (by decide) (by decide), rfl, by decide,
    by decide, by decide, by decide, by decide,
    C17_DrawFilledCircle_no_holes 129 (le_refl 129) (Display.mk blackBuffer 0 0 0 1)
      (blank_WF 0 0 0 1 (by decide) (by decide) (by decide) (by decide)) rfl
      60 30 20 (by decide) (by decide) (by decide) (by decide) (by decide)⟩

end SSD1306
